import Mathlib

/-!
# Verification of the WallPlanner solver (`src/js/solver.js`)

This file is a shallow embedding, in Lean 4, of the WallPlanner truck-load
solver of this repository, together with theorems that settle the claims of
its natural-language specification.

Modeling conventions:

* JavaScript numbers are modeled as exact rationals.  Because the concrete
  values manipulated by the solver (inch dimensions, ratios against the truck
  width, the tuned score coefficients) stay far away from the precision limits
  of IEEE doubles on every input considered here, exact rational arithmetic is
  a faithful model of the float arithmetic performed by the code.  We use a
  purpose-built rational type `Q` (integer numerator, positive natural
  denominator, gcd-normalized) rather than Mathlib's `ℚ` so that every
  operation reduces inside the kernel; the bridge `Q.toRat` transports
  algebraic reasoning to `ℚ`.
* JavaScript `x / 0` yields `±Infinity`; `Q` division returns `0` in that
  case.  The only place this could matter is the per-row count
  `Math.floor(W / w)` for a zero-width case with rotation enabled, a corner
  none of the claims (and none of the concrete inputs below) exercise.
* Insertion-ordered JS objects (used as maps) are modeled as association
  lists, and `Array.prototype.sort` (a stable sort) is modeled by a stable
  insertion sort `isortBy`; a stable sort is uniquely determined by the
  comparator, so this matches the JS engine's TimSort output.
* Fallible/possibly-diverging loops (JS `while`) are modeled with an explicit
  fuel parameter; `none` means the fuel was exhausted, and a loop that
  consumes no state on an iteration keeps returning `none` for every fuel,
  which is the shallow-embedding rendering of divergence.
-/

namespace WallPlanner

/-- Exact rational number: the model of a JavaScript number.  The denominator
is kept positive by construction and every arithmetic operation re-normalizes,
so values are canonical. -/
structure Q where
  num : ℤ
  den : ℕ+
deriving DecidableEq, Repr

namespace Q

/-- Normalize a fraction by dividing out the gcd of numerator and
denominator. -/
def norm (n : ℤ) (d : ℕ) (hd : 0 < d) : Q :=
  let g : ℕ := Nat.gcd n.natAbs d
  have hg : 0 < g := Nat.gcd_pos_of_pos_right _ hd
  have hdg : 0 < d / g :=
    Nat.div_pos (Nat.le_of_dvd hd (Nat.gcd_dvd_right _ _)) hg
  ⟨n / (g : ℤ), ⟨d / g, hdg⟩⟩

/-- Embed an integer. -/
def ofInt (n : ℤ) : Q := ⟨n, 1⟩

instance : OfNat Q n := ⟨ofInt n⟩

protected def add (a b : Q) : Q :=
  norm (a.num * (b.den : ℤ) + b.num * (a.den : ℤ)) ((a.den : ℕ) * (b.den : ℕ))
    (Nat.mul_pos a.den.2 b.den.2)

protected def neg (a : Q) : Q := ⟨-a.num, a.den⟩

protected def sub (a b : Q) : Q :=
  norm (a.num * (b.den : ℤ) - b.num * (a.den : ℤ)) ((a.den : ℕ) * (b.den : ℕ))
    (Nat.mul_pos a.den.2 b.den.2)

protected def mul (a b : Q) : Q :=
  norm (a.num * b.num) ((a.den : ℕ) * (b.den : ℕ))
    (Nat.mul_pos a.den.2 b.den.2)

/-- Division.  JS `x / 0` is `±Infinity`; we return `0` (see the header
comment for why this seam is harmless here). -/
protected def div (a b : Q) : Q :=
  if h : b.num = 0 then ⟨0, 1⟩
  else
    have hpos : 0 < b.num.natAbs := Int.natAbs_pos.mpr h
    norm (a.num * (b.den : ℤ) * b.num.sign) ((a.den : ℕ) * b.num.natAbs)
      (Nat.mul_pos a.den.2 hpos)

instance : Add Q := ⟨Q.add⟩
instance : Neg Q := ⟨Q.neg⟩
instance : Sub Q := ⟨Q.sub⟩
instance : Mul Q := ⟨Q.mul⟩
instance : Div Q := ⟨Q.div⟩

/-- `a ≤ b` by cross-multiplication (denominators are positive). -/
protected def leb (a b : Q) : Bool :=
  a.num * (b.den : ℤ) ≤ b.num * (a.den : ℤ)

protected def ltb (a b : Q) : Bool :=
  a.num * (b.den : ℤ) < b.num * (a.den : ℤ)

/-- Numeric equality by cross-multiplication: the model of JS `===` between
two numbers (values may have distinct representations only when one is not
canonical; the solver's comparisons are all numeric). -/
protected def eqb (a b : Q) : Bool :=
  a.num * (b.den : ℤ) = b.num * (a.den : ℤ)

instance : LE Q := ⟨fun a b => a.leb b = true⟩
instance : LT Q := ⟨fun a b => a.ltb b = true⟩

instance : DecidableRel (α := Q) (· ≤ ·) := fun a b =>
  inferInstanceAs (Decidable (a.leb b = true))

instance : DecidableRel (α := Q) (· < ·) := fun a b =>
  inferInstanceAs (Decidable (a.ltb b = true))

/-- `Math.min`. -/
instance : Min Q := ⟨fun a b => if a ≤ b then a else b⟩

/-- `Math.max`. -/
instance : Max Q := ⟨fun a b => if a ≤ b then b else a⟩

/-- `Math.abs`. -/
def abs (a : Q) : Q := if a.num < 0 then ⟨-a.num, a.den⟩ else a

/-- `Math.floor` (the denominator is positive, so Euclidean division is floor
division). -/
def floor (a : Q) : ℤ := a.num / (a.den : ℤ)

/-- `Math.ceil`. -/
def ceil (a : Q) : ℤ := -((-a.num) / (a.den : ℤ))

/-- `Math.round`: round half toward `+∞`. -/
def round (a : Q) : ℤ := floor (a + ⟨1, 2⟩)

/-- Bridge to Mathlib's rationals, used for algebraic reasoning. -/
def toRat (a : Q) : ℚ := (a.num : ℚ) / (a.den : ℚ)

theorem den_cast_pos (a : Q) : (0 : ℚ) < ((a.den : ℕ) : ℚ) := by
  exact_mod_cast a.den.2

theorem den_cast_ne_zero (a : Q) : ((a.den : ℕ) : ℚ) ≠ 0 :=
  ne_of_gt a.den_cast_pos

theorem pnat_mul_coe (a b : ℕ+) : ((a * b : ℕ+) : ℕ) = (a : ℕ) * (b : ℕ) := rfl

theorem pnat_mk_coe (x : ℕ) (h : 0 < x) : ((⟨x, h⟩ : ℕ+) : ℕ) = x := rfl

theorem toRat_mk (n : ℤ) (d : ℕ+) : toRat ⟨n, d⟩ = (n : ℚ) / ((d : ℕ) : ℚ) := rfl

theorem toRat_norm (n : ℤ) (d : ℕ) (hd : 0 < d) :
    (norm n d hd).toRat = (n : ℚ) / (d : ℚ) := by
  have hred : (norm n d hd).toRat =
      ((n / (Nat.gcd n.natAbs d : ℤ) : ℤ) : ℚ) /
        ((d / Nat.gcd n.natAbs d : ℕ) : ℚ) := rfl
  rw [hred]
  have hg : 0 < Nat.gcd n.natAbs d := Nat.gcd_pos_of_pos_right _ hd
  set g := Nat.gcd n.natAbs d with hgdef
  obtain ⟨k, hk⟩ : ((g : ℕ) : ℤ) ∣ n := by
    rw [hgdef]
    exact Int.natCast_dvd.mpr (Nat.gcd_dvd_left _ _)
  obtain ⟨m, hm⟩ : g ∣ d := by
    rw [hgdef]
    exact Nat.gcd_dvd_right _ _
  have hmpos : 0 < m := by
    rcases Nat.eq_zero_or_pos m with rfl | h
    · exfalso
      rw [hm] at hd
      simp at hd
    · exact h
  rw [hk, hm, Int.mul_ediv_cancel_left _ (by exact_mod_cast hg.ne'),
    Nat.mul_div_cancel_left _ hg]
  push_cast
  have h1 : ((m : ℕ) : ℚ) ≠ 0 := by exact_mod_cast hmpos.ne'
  have h2 : ((g : ℕ) : ℚ) * ((m : ℕ) : ℚ) ≠ 0 := by
    have hgm := Nat.mul_pos hg hmpos
    push_cast
    exact_mod_cast hgm.ne'
  rw [div_eq_div_iff h1 h2]
  ring

theorem toRat_ofInt (n : ℤ) : (ofInt n).toRat = (n : ℚ) := by
  simp [ofInt, toRat]

theorem toRat_add (a b : Q) : (a + b).toRat = a.toRat + b.toRat := by
  show (Q.add a b).toRat = _
  unfold Q.add
  rw [toRat_norm, toRat, toRat]
  have ha := a.den_cast_ne_zero
  have hb := b.den_cast_ne_zero
  push_cast
  field_simp
  try ring

theorem toRat_neg (a : Q) : (-a).toRat = -a.toRat := by
  show (Q.neg a).toRat = _
  unfold Q.neg toRat
  push_cast
  ring

theorem toRat_sub (a b : Q) : (a - b).toRat = a.toRat - b.toRat := by
  show (Q.sub a b).toRat = _
  unfold Q.sub
  rw [toRat_norm, toRat, toRat]
  have ha := a.den_cast_ne_zero
  have hb := b.den_cast_ne_zero
  push_cast
  field_simp
  try ring

theorem toRat_mul (a b : Q) : (a * b).toRat = a.toRat * b.toRat := by
  show (Q.mul a b).toRat = _
  unfold Q.mul
  rw [toRat_norm, toRat, toRat]
  push_cast
  rw [div_mul_div_comm]

theorem toRat_div (a b : Q) (hb : b.num ≠ 0) :
    (a / b).toRat = a.toRat / b.toRat := by
  show (Q.div a b).toRat = _
  unfold Q.div
  rw [dif_neg hb, toRat_norm, toRat, toRat]
  have ha := a.den_cast_ne_zero
  have hbd := b.den_cast_ne_zero
  have hbQ : (b.num : ℚ) ≠ 0 := by exact_mod_cast hb
  rcases lt_trichotomy b.num 0 with hneg | h0 | hpos
  · have hs : b.num.sign = -1 := Int.sign_eq_neg_one_iff_neg.mpr hneg
    have hz : ((b.num.natAbs : ℕ) : ℤ) = -b.num := by omega
    have habs' : ((b.num.natAbs : ℕ) : ℚ) = -(b.num : ℚ) := by
      calc ((b.num.natAbs : ℕ) : ℚ) = (((b.num.natAbs : ℕ) : ℤ) : ℚ) :=
            (Int.cast_natCast _).symm
        _ = ((-b.num : ℤ) : ℚ) := by rw [hz]
        _ = -(b.num : ℚ) := by push_cast; ring
    rw [hs]
    push_cast
    rw [habs']
    field_simp
    try ring
  · exact absurd h0 hb
  · have hs : b.num.sign = 1 := Int.sign_eq_one_iff_pos.mpr hpos
    have hz : ((b.num.natAbs : ℕ) : ℤ) = b.num := by omega
    have habs' : ((b.num.natAbs : ℕ) : ℚ) = (b.num : ℚ) := by
      calc ((b.num.natAbs : ℕ) : ℚ) = (((b.num.natAbs : ℕ) : ℤ) : ℚ) :=
            (Int.cast_natCast _).symm
        _ = (b.num : ℚ) := by rw [hz]
    rw [hs]
    push_cast
    rw [habs']
    field_simp

theorem le_iff_toRat (a b : Q) : a ≤ b ↔ a.toRat ≤ b.toRat := by
  show a.leb b = true ↔ _
  unfold Q.leb toRat
  rw [div_le_div_iff a.den_cast_pos b.den_cast_pos]
  rw [decide_eq_true_eq]
  constructor
  · intro h
    exact_mod_cast h
  · intro h
    exact_mod_cast h

theorem lt_iff_toRat (a b : Q) : a < b ↔ a.toRat < b.toRat := by
  show a.ltb b = true ↔ _
  unfold Q.ltb toRat
  rw [div_lt_div_iff a.den_cast_pos b.den_cast_pos]
  rw [decide_eq_true_eq]
  constructor
  · intro h
    exact_mod_cast h
  · intro h
    exact_mod_cast h

theorem eqb_iff_toRat (a b : Q) : a.eqb b = true ↔ a.toRat = b.toRat := by
  unfold Q.eqb toRat
  rw [div_eq_div_iff a.den_cast_ne_zero b.den_cast_ne_zero]
  rw [decide_eq_true_eq]
  constructor
  · intro h
    exact_mod_cast h
  · intro h
    exact_mod_cast h

theorem qle_refl (a : Q) : a ≤ a := by
  rw [le_iff_toRat]

theorem qle_trans {a b c : Q} (h₁ : a ≤ b) (h₂ : b ≤ c) : a ≤ c := by
  rw [le_iff_toRat] at h₁ h₂ ⊢
  exact h₁.trans h₂

theorem qle_total (a b : Q) : a ≤ b ∨ b ≤ a := by
  rw [le_iff_toRat, le_iff_toRat]
  exact le_total _ _

theorem qnot_le {a b : Q} : ¬ a ≤ b ↔ b < a := by
  rw [le_iff_toRat, lt_iff_toRat]
  exact not_le

theorem qnot_lt {a b : Q} : ¬ a < b ↔ b ≤ a := by
  rw [le_iff_toRat, lt_iff_toRat]
  exact not_lt

end Q

/-! ## List and string utilities (models of JS array/object primitives) -/

/-- Insert into a sorted list, before the first element `b` with `le a b`
(keeping `a` after elements that compare equal that were already present:
together with `isortBy` this is a stable sort, the semantics of
`Array.prototype.sort`). -/
def insertBy (le : α → α → Bool) (a : α) : List α → List α
  | [] => [a]
  | b :: bs => if le a b && !le b a then a :: b :: bs else b :: insertBy le a bs

/-- Stable insertion sort: the model of `Array.prototype.sort(cmp)` (the JS
sort is stable, and a stable sort is uniquely determined by the comparator,
so any stable sort models it; `le a b` renders `cmp(a,b) <= 0`). -/
def isortBy (le : α → α → Bool) : List α → List α
  | [] => []
  | a :: l => insertBy le a (isortBy le l)

theorem insertBy_perm (le : α → α → Bool) (a : α) (l : List α) :
    (insertBy le a l).Perm (a :: l) := by
  induction l with
  | nil => exact List.Perm.refl _
  | cons b bs ih =>
    unfold insertBy
    by_cases h : (le a b && !le b a) = true
    · rw [if_pos h]
    · rw [if_neg h]
      exact ((ih.cons b).trans (List.Perm.swap a b bs)).symm.symm

theorem isortBy_perm (le : α → α → Bool) (l : List α) :
    (isortBy le l).Perm l := by
  induction l with
  | nil => exact List.Perm.refl _
  | cons a l ih =>
    exact (insertBy_perm le a (isortBy le l)).trans (ih.cons a)

theorem insertBy_pairwise (le : α → α → Bool)
    (htot : ∀ a b, (le a b || le b a) = true)
    (htrans : ∀ a b c, le a b = true → le b c = true → le a c = true)
    (a : α) (l : List α) (hl : l.Pairwise (fun x y => le x y = true)) :
    (insertBy le a l).Pairwise (fun x y => le x y = true) := by
  induction l with
  | nil => simp [insertBy]
  | cons b bs ih =>
    obtain ⟨hb, hbs⟩ := List.pairwise_cons.mp hl
    unfold insertBy
    by_cases h : (le a b && !le b a) = true
    · rw [if_pos h]
      have hab : le a b = true := by
        have hh := h
        simp only [Bool.and_eq_true] at hh
        exact hh.1
      refine List.pairwise_cons.mpr ⟨?_, hl⟩
      intro x hx
      rcases List.mem_cons.mp hx with rfl | hx
      · exact hab
      · exact htrans a b x hab (hb x hx)
    · rw [if_neg h]
      have hba : le b a = true := by
        cases hc : le b a
        · have hab : le a b = true := by
            have hor := htot a b
            simpa [hc] using hor
          exact absurd (by simp [hab, hc]) h
        · rfl
      refine List.pairwise_cons.mpr ⟨?_, ih hbs⟩
      intro x hx
      rcases List.mem_cons.mp ((insertBy_perm le a bs).mem_iff.mp hx) with
        rfl | hx
      · exact hba
      · exact hb x hx

theorem isortBy_pairwise (le : α → α → Bool)
    (htot : ∀ a b, (le a b || le b a) = true)
    (htrans : ∀ a b c, le a b = true → le b c = true → le a c = true)
    (l : List α) :
    (isortBy le l).Pairwise (fun x y => le x y = true) := by
  induction l with
  | nil => simp [isortBy]
  | cons a l ih => exact insertBy_pairwise le htot htrans a _ ih

/-- JS `Set` iteration keeps first-insertion order; `jsDedup` deduplicates a
list keeping the first occurrence of each element. -/
def jsDedupAux [DecidableEq α] (seen : List α) : List α → List α
  | [] => []
  | a :: l =>
    if a ∈ seen then jsDedupAux seen l else a :: jsDedupAux (a :: seen) l

def jsDedup [DecidableEq α] (l : List α) : List α := jsDedupAux [] l

/-- `Math.max(...xs)` for a nonempty list (`0` models the unreachable empty
case, where JS gives `-Infinity`). -/
def listMax : List Q → Q
  | [] => Q.ofInt 0
  | x :: xs => xs.foldl (fun a b => max a b) x

/-- `Math.min(...xs)` for a nonempty list. -/
def listMin : List Q → Q
  | [] => Q.ofInt 0
  | x :: xs => xs.foldl (fun a b => min a b) x

/-- Insertion-ordered string-keyed map, the model of a JS object used as a
dictionary (`Object.entries` iterates in insertion order). -/
def alookup (l : List (String × α)) (k : String) : Option α :=
  (l.find? (fun p => p.1 == k)).map (·.2)

/-- Bump a counter in an insertion-ordered map (`m[k] = (m[k] || 0) + 1`). -/
def bumpCount (l : List (String × ℕ)) (k : String) : List (String × ℕ) :=
  match l with
  | [] => [(k, 1)]
  | (k', v) :: rest =>
    if k' = k then (k', v + 1) :: rest else (k', v) :: bumpCount rest k

/-- Append a value to a keyed bucket in an insertion-ordered map
(`if (!m[k]) m[k] = []; m[k].push(a)`). -/
def groupPush [DecidableEq κ] (l : List (κ × List α)) (k : κ) (a : α) :
    List (κ × List α) :=
  match l with
  | [] => [(k, [a])]
  | (k', vs) :: rest =>
    if k' = k then (k', vs ++ [a]) :: rest else (k', vs) :: groupPush rest k a

theorem groupPush_flat [DecidableEq κ] (l : List (κ × List α)) (k : κ) (a : α) :
    ((groupPush l k a).flatMap (·.2)).Perm (l.flatMap (·.2) ++ [a]) := by
  induction l with
  | nil => simp [groupPush]
  | cons p rest ih =>
    obtain ⟨k', vs⟩ := p
    unfold groupPush
    by_cases h : k' = k
    · rw [if_pos h]
      simp only [List.flatMap_cons]
      have h1 : ([a] ++ rest.flatMap (·.2)).Perm (rest.flatMap (·.2) ++ [a]) :=
        List.perm_append_comm
      simpa [List.append_assoc] using h1.append_left vs
    · rw [if_neg h]
      simp only [List.flatMap_cons]
      simpa [List.append_assoc] using ih.append_left vs

/-! ### Decimal rendering of a natural number (JS number-to-string coercion
for the nonnegative integers that reach it: wall ids, stage labels, column
counts).  Implemented with fuel so it reduces in the kernel; `natReprInj`
proves it injective, which is what makes the emitted wall ids unique. -/

/-- Little-endian decimal digits; the fuel is an upper bound on the number of
digits (passing `n` itself is always enough). -/
def natDigitsAux : ℕ → ℕ → List ℕ
  | 0, _ => []
  | fuel + 1, n => if n = 0 then [] else n % 10 :: natDigitsAux fuel (n / 10)

/-- Decimal rendering of a natural number. -/
def natRepr (n : ℕ) : String :=
  if n = 0 then "0"
  else String.mk (((natDigitsAux n n).reverse).map Nat.digitChar)

/-- Recompose a little-endian digit list. -/
def undigits : List ℕ → ℕ
  | [] => 0
  | d :: ds => d + 10 * undigits ds

theorem undigits_natDigitsAux (fuel : ℕ) :
    ∀ n, n ≤ fuel → undigits (natDigitsAux fuel n) = n := by
  induction fuel with
  | zero =>
    intro n hn
    interval_cases n
    simp [natDigitsAux, undigits]
  | succ fuel ih =>
    intro n hn
    unfold natDigitsAux
    by_cases h0 : n = 0
    · simp [h0, undigits]
    · rw [if_neg h0]
      unfold undigits
      have hlt : n / 10 ≤ fuel := by
        have hdiv : n / 10 < n := Nat.div_lt_self (Nat.pos_of_ne_zero h0)
          (by decide)
        omega
      rw [ih _ hlt]
      omega

theorem natDigitsAux_lt_ten (fuel : ℕ) :
    ∀ n d, d ∈ natDigitsAux fuel n → d < 10 := by
  induction fuel with
  | zero =>
    intro n d hd
    simp [natDigitsAux] at hd
  | succ fuel ih =>
    intro n d hd
    unfold natDigitsAux at hd
    by_cases h0 : n = 0
    · simp [h0] at hd
    · rw [if_neg h0] at hd
      rcases List.mem_cons.mp hd with rfl | hd
      · exact Nat.mod_lt _ (by omega)
      · exact ih _ _ hd

theorem digitChar_inj_lt_ten :
    ∀ d1, d1 < 10 → ∀ d2, d2 < 10 →
      Nat.digitChar d1 = Nat.digitChar d2 → d1 = d2 := by
  decide

theorem map_digitChar_inj :
    ∀ (A : List ℕ), (∀ d ∈ A, d < 10) → ∀ (B : List ℕ), (∀ d ∈ B, d < 10) →
      A.map Nat.digitChar = B.map Nat.digitChar → A = B := by
  intro A
  induction A with
  | nil =>
    intro _ B _ hmap
    cases B with
    | nil => rfl
    | cons b bs => simp at hmap
  | cons a as ih =>
    intro hA B hB hmap
    cases B with
    | nil => simp at hmap
    | cons b bs =>
      simp only [List.map_cons, List.cons.injEq] at hmap
      have hab : a = b :=
        digitChar_inj_lt_ten a (hA a (List.mem_cons_self _ _)) b
          (hB b (List.mem_cons_self _ _)) hmap.1
      have htail : as = bs :=
        ih (fun d hd => hA d (List.mem_cons_of_mem _ hd)) bs
          (fun d hd => hB d (List.mem_cons_of_mem _ hd)) hmap.2
      rw [hab, htail]

theorem natRepr_ne_zero_of_pos {n : ℕ} (hn : n ≠ 0) : natRepr n ≠ "0" := by
  unfold natRepr
  rw [if_neg hn]
  intro h
  have hlen : ((natDigitsAux n n).reverse.map Nat.digitChar).length = 1 := by
    have hd := congrArg (fun s : String => s.data.length) h
    simpa using hd
  have hne : natDigitsAux n n ≠ [] := by
    intro hnil
    rw [hnil] at hlen
    simp at hlen
  obtain ⟨d, ds, hds⟩ := List.exists_cons_of_ne_nil hne
  have hds' : ds = [] := by
    rw [hds] at hlen
    cases ds with
    | nil => rfl
    | cons e es =>
      exfalso
      have hlen2 : es.length + 2 = 1 := by simpa using hlen
      omega
  rw [hds, hds'] at h
  have hchar : Nat.digitChar d = '0' := by
    have hd := congrArg (fun s : String => s.data) h
    simpa using hd
  have hd10 : d < 10 :=
    natDigitsAux_lt_ten n n d (by rw [hds]; exact List.mem_cons_self _ _)
  have hd0 : d = 0 :=
    digitChar_inj_lt_ten d hd10 0 (by omega) (by simpa using hchar)
  have hround := undigits_natDigitsAux n n (Nat.le_refl n)
  rw [hds, hds', hd0] at hround
  simp [undigits] at hround
  exact hn hround.symm

theorem natRepr_inj {m n : ℕ} (h : natRepr m = natRepr n) : m = n := by
  by_cases hm : m = 0 <;> by_cases hn : n = 0
  · omega
  · exfalso
    have h0 : natRepr m = "0" := by rw [natRepr, if_pos hm]
    exact natRepr_ne_zero_of_pos hn (h.symm.trans h0)
  · exfalso
    have h0 : natRepr n = "0" := by rw [natRepr, if_pos hn]
    exact natRepr_ne_zero_of_pos hm (h.trans h0)
  · rw [natRepr, natRepr, if_neg hm, if_neg hn] at h
    have hdata : (natDigitsAux m m).reverse.map Nat.digitChar =
        (natDigitsAux n n).reverse.map Nat.digitChar := by
      have hd := congrArg (fun s : String => s.data) h
      simpa using hd
    have hrev : (natDigitsAux m m).reverse = (natDigitsAux n n).reverse :=
      map_digitChar_inj _
        (fun d hd => natDigitsAux_lt_ten m m d (List.mem_reverse.mp hd)) _
        (fun d hd => natDigitsAux_lt_ten n n d (List.mem_reverse.mp hd)) hdata
    have hdig : natDigitsAux m m = natDigitsAux n n :=
      List.reverse_injective hrev
    have h1 := undigits_natDigitsAux m m (Nat.le_refl m)
    have h2 := undigits_natDigitsAux n n (Nat.le_refl n)
    rw [hdig, h2] at h1
    exact h1.symm

/-! ## Data model (`src/js/solver.js`)

`Case` is the record produced by the sheet parser
(`parseSheetData`, `src/unnamed/part_001`); only the fields the solver reads
are modeled.  Missing string fields are `""`, and a missing `allowRotation`
is `true` (the parser always materializes these fields; the solver reads
them with JS truthiness, which the definitions below reproduce). -/

structure Case where
  nom : String := ""
  name : String := ""
  width : Q := 0
  depth : Q := 0
  height : Q := 0
  dept : String := ""
  subgroup : String := ""
  group : String := ""
  stackable : Bool := false
  maxStack : ℕ := 1
  isFloor : Bool := false
  allowRotation : Bool := true
  rotation : ℕ := 0
  block_name : String := ""
  num_caisse : String := ""
deriving DecidableEq, Repr

/-- Solver configuration (`config` argument of `wallPlannerSolve`).
`kbPatternsCount` is the length of `config.kbPatterns`: the solver only ever
reads the length of that array (Phase 3A is a stub). -/
structure WPConfig where
  truckWidth : Q := 0
  truckLength : Q := 0
  truckHeight : Q := 0
  deptPriority : List (String × Q) := []
  kbPatternsCount : ℕ := 0

/-- One column of stacked cases inside a wall (the objects pushed onto
`wall.items`).  `dept` is only ever set on the column records built by
Phase 3D (and never read after the wall is assembled). -/
structure WPItem where
  blockName : String
  sg : String
  w : Q
  d : Q
  h : Q
  rot : ℕ
  xOff : Q
  stackCount : ℕ
  stackedH : Q
  cases : List Case
  dept : String := ""
deriving DecidableEq, Repr

/-- A candidate wall.  `isLoadBar` models the dynamic `_isLoadBar` marker of
the load-bar pseudo-walls of Phase 1.5. -/
structure WPWall where
  items : List WPItem
  widthFill : Q
  maxHeight : Q
  depth : Q
  isFlatTop : Bool
  subgroups : List String
  reliability : ℕ
  isLoadBar : Bool := false
deriving DecidableEq, Repr

/-- An inventory group (Phase 0/1) or an orphan pool (they carry the same
fields in the JS; pools simply never have `isFloor` set). -/
structure WPInv where
  sg : String
  blockName : String
  w : Q
  d : Q
  h : Q
  rot : ℕ
  stackable : Bool
  maxStack : ℕ
  stackedH : Q
  cases : List Case
  dept : String
  isFloor : Bool := false
  allowRotation : Bool := true
deriving DecidableEq, Repr

/-- An emitted placement (`_wallId` and `_wallPlannerStage` are `wallId` and
`stage`). -/
structure Placement where
  block_name : String
  subgroup : String
  dept : String
  name : String
  case_id : String
  x : Q
  y : Q
  z : Q
  width : Q
  depth : Q
  height : Q
  rotation : ℕ
  wallId : String
  stage : ℤ
deriving DecidableEq, Repr

/-- An emitted wall section.  The JS field `section` is a Lean keyword and is
modeled as `sectionTag`; `patternId` is always `null` and is omitted. -/
structure WallSection where
  id : String
  label : String
  sectionTag : String
  yStart : Q
  yEnd : Q
  wallWidth : ℤ
  fillPct : ℤ
  placements : List Placement
  status : String
  caseCount : ℕ
  depth : ℤ
deriving DecidableEq, Repr

/-- A spillover item queued by Phase 5 (its `dims` sub-record only has its
`rot` field read again, in Phase 5B). -/
structure SpillItem where
  blockName : String
  sg : String
  nom : String
  caseId : String
  w : Q
  d : Q
  h : Q
  dimsRot : ℕ
  caseData : Case
deriving DecidableEq, Repr

structure SolveResult where
  placements : List Placement
  wallSections : List WallSection
deriving DecidableEq, Repr

/-! ## Constants and solver helpers -/

def qhalf : Q := ⟨1, 2⟩

/-- `WP_MIN_FILL = 0.80`. -/
def WPMinFill : Q := ⟨4, 5⟩

/-- `WP_GAP_THRESH = 0.95`. -/
def WPGapThresh : Q := ⟨19, 20⟩

/-- `WP_RELIABILITY` tiers. -/
def relFULL : ℕ := 1
def relKB : ℕ := 2
def relTIGHT : ℕ := 3
def relORPHAN : ℕ := 4
def relMIXED : ℕ := 5

/-- Context shared by the solver helpers: they close over the `cases`
argument, the resolved truck width and the configuration. -/
structure Ctx where
  cases : List Case
  W : Q
  deptPriority : List (String × Q)
  truckHeight : Q
  truckLength : Q

/-- `deptPriority[d] || 99`. -/
def dpLookup (dp : List (String × Q)) (d : String) : Q :=
  match alookup dp d with
  | some v => if v.num = 0 then Q.ofInt 99 else v
  | none => Q.ofInt 99

/-- `config.truckHeight || 110`. -/
def thOr110 (ctx : Ctx) : Q :=
  if ctx.truckHeight.num = 0 then Q.ofInt 110 else ctx.truckHeight

/-- Consume one-or-more ASCII digits, returning the rest of the characters,
or `none` if the first character is not a digit. -/
def takeDigits : List Char → Option (List Char)
  | [] => none
  | c :: cs => if c.isDigit then some (cs.dropWhile Char.isDigit) else none

/-- Model of `sg.replace(/\s*\(\d+x\d+\)$/, '')`: strip one trailing
`" (<digits>x<digits>)"` group (with any immediately preceding whitespace).
Note the regex expects exactly TWO numbers, while the names minted by
Phase 0 carry three (`"A (27x20x40)"`), which therefore do not match. -/
def wpStripDims (sg : String) : String :=
  match sg.data.reverse with
  | ')' :: r1 =>
    match takeDigits r1 with
    | some ('x' :: r3) =>
      match takeDigits r3 with
      | some ('(' :: r5) =>
        String.mk ((r5.dropWhile Char.isWhitespace).reverse)
      | _ => sg
    | _ => sg
  | _ => sg

/-- `wpGetDept`: department of a group tag, looked up from the case list. -/
def wpGetDept (cases : List Case) (sg : String) : String :=
  match cases.find? (fun c => c.group == sg || c.subgroup == sg) with
  | some c => if c.dept = "" then "GENERAL" else c.dept
  | none =>
    let base := wpStripDims sg
    match cases.find? (fun c => c.group == base || c.subgroup == base) with
    | some cb => if cb.dept = "" then "GENERAL" else cb.dept
    | none => "GENERAL"

/-- `wpWallDept`: majority department of a wall (insertion-ordered counting,
stable sort by descending count, first entry).  The `""` fallback models the
unreachable empty-subgroups case (the JS would throw there). -/
def wpWallDept (cases : List Case) (wall : WPWall) : String :=
  let deptCount := wall.subgroups.foldl
    (fun m sg => bumpCount m (wpGetDept cases sg)) []
  match isortBy (fun a b => decide (b.2 ≤ a.2)) deptCount with
  | [] => ""
  | e :: _ => e.1

/-- Result of the rotation oracle. -/
structure RotChoice where
  w : Q
  d : Q
  rot : ℕ
deriving DecidableEq, Repr

/-- `wpBestRotation` (Phase 0 rotation oracle). -/
def wpBestRotation (W : Q) (caseObj : Case) : RotChoice :=
  let allowRot := caseObj.allowRotation
  let w := caseObj.width
  let d := caseObj.depth
  let rot := caseObj.rotation
  if !allowRot || decide (Q.abs (w - d) < qhalf) then ⟨w, d, rot⟩
  else
    let iprDef := Q.floor (W / w)
    let fillDef := Q.ofInt iprDef * w
    let rW := d
    let rD := w
    let rRot := (rot + 90) % 360
    let iprRot := Q.floor (W / rW)
    let fillRot := Q.ofInt iprRot * rW
    if fillDef + qhalf < fillRot ∨
        (Q.abs (fillRot - fillDef) < qhalf ∧ iprDef < iprRot) then
      ⟨rW, rD, rRot⟩
    else ⟨w, d, rot⟩

/-- `wpResolveStacking`. -/
def wpResolveStacking (caseObj : Case) : Bool × ℕ :=
  (caseObj.stackable, if caseObj.maxStack = 0 then 1 else caseObj.maxStack)

/-- `wpWallScore` (Phase 4 scoring).  `w.items` is always an array for the
walls this is applied to, so the JS truthiness guards on it reduce to the
length checks kept here. -/
def wpWallScore (ctx : Ctx) (w : WPWall) : Q :=
  let rel : ℕ := if w.reliability = 0 then 99 else w.reliability
  let relGroup : ℕ := if rel ≤ 3 then rel else 4
  let fillRatio : Q := min (w.widthFill / ctx.W) (Q.ofInt 1)
  let effectiveH : Q := w.maxHeight * fillRatio
  let heightInv : ℤ := Q.round (Q.ofInt 100 - effectiveH)
  let deptPri : Q := dpLookup ctx.deptPriority (wpWallDept ctx.cases w)
  let score : Q := Q.ofInt (heightInv * 100) + deptPri * Q.ofInt 4 +
    Q.ofInt relGroup
  let score :=
    if w.items.length > 0 then
      let heights := w.items.map (·.stackedH)
      let heightRange := listMax heights - listMin heights
      if Q.ofInt 10 < heightRange then
        score + Q.ofInt (Q.round (heightRange / thOr110 ctx * Q.ofInt 3000))
      else score
    else score
  let score := score - Q.ofInt ((min w.items.length 4 : ℕ) * 50)
  let score :=
    if w.items.length ≤ 2 ∧ fillRatio < ⟨9, 10⟩ then score + Q.ofInt 2000
    else score
  if fillRatio < qhalf then score + Q.ofInt 5000 else score

/-! ## Phase 0 — split mixed subgroups -/

/-- The grouping key `c.group || c.subgroup || c.nom`. -/
def caseSG (c : Case) : String :=
  if c.group ≠ "" then c.group
  else if c.subgroup ≠ "" then c.subgroup
  else c.nom

/-- Canonical rendering of a `Q`; models the JS number-to-string coercion
used to build dimension keys and split-group names.  The exact spelling of a
non-integer differs from JS, but the rendering is injective on canonical
values, so it induces the same partition of cases into dimension groups. -/
def qRepr (q : Q) : String :=
  (if q.num < 0 then "-" else "") ++ natRepr q.num.natAbs ++
    (if (q.den : ℕ) = 1 then "" else "/" ++ natRepr (q.den : ℕ))

/-- The `${w}x${d}x${h}` dimension key. -/
def dimKey (c : Case) : String :=
  qRepr c.width ++ "x" ++ qRepr c.depth ++ "x" ++ qRepr c.height

/-- Phase 0: bucket cases by group tag, split buckets whose members have
distinct dimension triples, and resolve rotation and stacking for each
resulting inventory group. -/
def phase0 (W : Q) (cases : List Case) : List WPInv :=
  let sgGroups := cases.foldl (fun m c => groupPush m (caseSG c) c) []
  sgGroups.flatMap (fun p =>
    let sg := p.1
    let grp := p.2
    let dimGroups := grp.foldl (fun m c => groupPush m (dimKey c) c) []
    let single := dimGroups.length = 1
    dimGroups.map (fun dg =>
      let rep := dg.2.headD {}
      let invSg := if single then sg else sg ++ " (" ++ dg.1 ++ ")"
      let stacking := wpResolveStacking rep
      let best := wpBestRotation W rep
      { sg := invSg
        blockName := if rep.block_name = "" then sg else rep.block_name
        w := best.w
        d := best.d
        h := rep.height
        rot := best.rot
        stackable := stacking.1
        maxStack := stacking.2
        stackedH := rep.height * Q.ofInt stacking.2
        cases := dg.2
        dept := rep.dept
        isFloor := rep.isFloor
        allowRotation := rep.allowRotation }))

/-! ## Phase 1.5 — floor panels.

Phase 1 only prints per-group statistics (`idealRows` and `itemsPerRow` are
never read by later phases), so it has no model. -/

/-- `WP_LOADBAR_GAP = 2`. -/
def WPLoadbarGap : Q := Q.ofInt 2

/-- The load-bar spacer pseudo-wall. -/
def loadBarWall : WPWall :=
  { items := [], widthFill := 0, maxHeight := 0, depth := WPLoadbarGap,
    isFlatTop := true, subgroups := ["LOADBAR"], reliability := relFULL,
    isLoadBar := true }

/-- One wall-row of floor panels: dequeue up to `perRow` cases, each a
one-case column at `x = col * w`. -/
def floorStep (fInv : WPInv) (st : Q × List WPItem) (c : Case) :
    Q × List WPItem :=
  let item : WPItem :=
    { blockName := fInv.blockName, sg := fInv.sg, w := fInv.w,
      d := fInv.d, h := fInv.h, rot := fInv.rot, xOff := st.1,
      stackCount := 1, stackedH := fInv.h, cases := [c] }
  (st.1 + fInv.w, st.2 ++ [item])

def floorRow (fInv : WPInv) (taken : List Case) : Q × List WPItem :=
  taken.foldl (floorStep fInv) ((0 : Q), ([] : List WPItem))

/-- The `while (fInv.cases.length > 0)` loop of Phase 1.5 for one floor
group.  When `perRow` is not positive the loop makes no progress (the JS
diverges); the fuel renders that as `none` for every fuel. -/
def phase15Group (W : Q) (fInv : WPInv) : ℕ → List Case → Option (List WPWall)
  | fuel, cs =>
    if cs.isEmpty then some []
    else
      match fuel with
      | 0 => none
      | fuel' + 1 =>
        let perRow := (Q.floor (W / fInv.w)).toNat
        let taken := cs.take perRow
        let rest := cs.drop perRow
        let rowRes := floorRow fInv taken
        let wall : WPWall :=
          { items := rowRes.2, widthFill := rowRes.1, maxHeight := fInv.h,
            depth := fInv.d, isFlatTop := true, subgroups := [fInv.sg],
            reliability := relFULL }
        (phase15Group W fInv fuel' rest).map (fun tail =>
          if rest.isEmpty then wall :: tail
          else wall :: loadBarWall :: tail)

/-- Phase 1.5 over all floor inventory groups, in listing order. -/
def phase15 (W : Q) (fuel : ℕ) : List WPInv → Option (List WPWall)
  | [] => some []
  | fInv :: rest => do
    let ws ← phase15Group W fInv fuel fInv.cases
    let rest' ← phase15 W fuel rest
    some (ws ++ rest')

/-! ## Phase 2 — full walls -/

/-- The greedy single-group wall-building loop
(`while (inv.cases.length > 0 && x + inv.w <= WP_TRUCK_WIDTH)`), shared by
the first wall and the leftover walls.  Returns the remaining cases, the
cursor `x`, the built items and the running max height. -/
def phase2BuildLoop (W : Q) (inv : WPInv) :
    ℕ → List Case → Q → List WPItem → Q → Option (List Case × Q × List WPItem × Q)
  | fuel, cs, x, items, maxH =>
    if cs.isEmpty ∨ ¬ (x + inv.w ≤ W) then some (cs, x, items, maxH)
    else
      match fuel with
      | 0 => none
      | fuel' + 1 =>
        let stack := min inv.maxStack cs.length
        let stackedH := inv.h * Q.ofInt stack
        let stackCases := cs.take stack
        let item : WPItem :=
          { blockName := inv.blockName, sg := inv.sg, w := inv.w, d := inv.d,
            h := inv.h, rot := inv.rot, xOff := x, stackCount := stack,
            stackedH := stackedH, cases := stackCases }
        phase2BuildLoop W inv fuel' (cs.drop stack) (x + inv.w)
          (items ++ [item]) (max maxH stackedH)

/-- The `while (inv.cases.length > 0)` leftover loop of Phase 2 (lines
317-336): builds further walls of the same group.  When `inv.w > W` the
inner loop consumes nothing, the built wall is empty and the loop never
progresses — the JS diverges, rendered as `none` for every fuel. -/
def phase2LeftoverLoop (W : Q) (inv : WPInv) :
    ℕ → List Case → Option (List WPWall)
  | fuel, cs =>
    if cs.isEmpty then some []
    else
      match fuel with
      | 0 => none
      | fuel' + 1 => do
        let r ← phase2BuildLoop W inv fuel' cs 0 [] 0
        let oWall : WPWall :=
          { items := r.2.2.1, widthFill := r.2.1, maxHeight := r.2.2.2,
            depth := inv.d, isFlatTop := true, subgroups := [inv.sg],
            reliability :=
              if r.2.1 / W < WPMinFill then relORPHAN else relFULL }
        let tail ← phase2LeftoverLoop W inv fuel' r.1
        some (oWall :: tail)

/-- The orphan pool spun off from an inventory (lines 339-348 and 353-362
build the same record shape). -/
def mkPool (inv : WPInv) (cs : List Case) : WPInv :=
  { sg := inv.sg, blockName := inv.blockName, w := inv.w, d := inv.d,
    h := inv.h, rot := inv.rot, stackable := inv.stackable,
    maxStack := inv.maxStack, stackedH := inv.stackedH, cases := cs,
    dept := inv.dept, isFloor := false, allowRotation := inv.allowRotation }

/-- Phase 2 for one inventory group: returns the walls and orphan pools to
append (walls in JS push order: leftover walls first, then the first wall if
it is strong; pools likewise: leftover pool first, then the dissolved first
wall's pool). -/
def phase2Inv (W : Q) (fuel : ℕ) (inv : WPInv) :
    Option (List WPWall × List WPInv) :=
  if inv.isFloor ∨ inv.cases.isEmpty then some ([], [])
  else do
    let r ← phase2BuildLoop W inv fuel inv.cases 0 [] 0
    let rest := r.1
    let x := r.2.1
    let items := r.2.2.1
    let maxH := r.2.2.2
    let heights := items.map (·.stackedH)
    let isFlat :=
      (jsDedup (heights.map (fun h => Q.round (h * Q.ofInt 10)))).length ≤ 1
    let wall : WPWall :=
      { items := items, widthFill := x, maxHeight := maxH, depth := inv.d,
        isFlatTop := isFlat, subgroups := [inv.sg],
        reliability := if x / W < WPMinFill then relORPHAN else relFULL }
    let lo ←
      if rest.isEmpty then pure (([] : List WPWall), ([] : List WPInv))
      else
        let orphanCols := rest.length
        if W * WPMinFill ≤ Q.ofInt orphanCols * inv.w then do
          let oWalls ← phase2LeftoverLoop W inv fuel rest
          pure (oWalls, ([] : List WPInv))
        else
          pure (([] : List WPWall), [mkPool inv rest])
    if x / W < WPMinFill then
      some (lo.1, lo.2 ++ [mkPool inv (items.flatMap (·.cases))])
    else
      some (lo.1 ++ [wall], lo.2)

/-- Phase 2 over all inventory groups, in listing order. -/
def phase2 (W : Q) (fuel : ℕ) : List WPInv → Option (List WPWall × List WPInv)
  | [] => some ([], [])
  | inv :: rest => do
    let r ← phase2Inv W fuel inv
    let rr ← phase2 W fuel rest
    some (r.1 ++ rr.1, r.2 ++ rr.2)

/-! ## Phase 2.5 — gap-fill orphans into underfilled full walls -/

/-- The inner consume loop
(`while (pool.cases.length > 0 && gap >= pool.w - 0.5)`). -/
def gapFillConsume (pool : WPInv) :
    ℕ → List Case → Q → WPWall → Option (List Case × Q × WPWall)
  | fuel, cs, gap, wall =>
    if cs.isEmpty ∨ ¬ (pool.w - qhalf ≤ gap) then some (cs, gap, wall)
    else
      match fuel with
      | 0 => none
      | fuel' + 1 =>
        let stack := min pool.maxStack cs.length
        let stackedH := pool.h * Q.ofInt stack
        let stackCases := cs.take stack
        let item : WPItem :=
          { blockName := pool.blockName, sg := pool.sg, w := pool.w,
            d := pool.d, h := pool.h, rot := pool.rot,
            xOff := wall.widthFill, stackCount := stack,
            stackedH := stackedH, cases := stackCases }
        let wall' : WPWall :=
          { wall with
            items := wall.items ++ [item],
            widthFill := wall.widthFill + pool.w,
            maxHeight := max wall.maxHeight stackedH,
            depth := max wall.depth pool.d,
            subgroups :=
              if pool.sg ∈ wall.subgroups then wall.subgroups
              else wall.subgroups ++ [pool.sg] }
        gapFillConsume pool fuel' (cs.drop stack) (gap - pool.w) wall'

/-- The `for (const pool of orphanPools)` loop of Phase 2.5 for one wall:
each matching pool is drained into the wall while the gap permits.  The
wall's running `depth` is updated as pools are appended, and later pools are
checked against that updated depth. -/
def gapFillPools (cases : List Case) (wallDept : String) (fuel : ℕ) :
    List WPInv → Q → WPWall → Option (List WPInv × WPWall)
  | [], gap, wall => some ([], wall)
  | pool :: rest, gap, wall =>
    if pool.cases.isEmpty ∨ wpGetDept cases pool.sg ≠ wallDept then do
      let r ← gapFillPools cases wallDept fuel rest gap wall
      some (pool :: r.1, r.2)
    else if Q.ofInt 8 < Q.abs (wall.depth - pool.d) then do
      let r ← gapFillPools cases wallDept fuel rest gap wall
      some (pool :: r.1, r.2)
    else do
      let c ← gapFillConsume pool fuel pool.cases gap wall
      let r ← gapFillPools cases wallDept fuel rest c.2.1 c.2.2
      some ({ pool with cases := c.1 } :: r.1, r.2)

/-- Phase 2.5 for one wall. -/
def phase25Wall (ctx : Ctx) (fuel : ℕ) (pools : List WPInv) (wall : WPWall) :
    Option (List WPInv × WPWall) :=
  if WPGapThresh ≤ wall.widthFill / ctx.W then some (pools, wall)
  else
    let gap := ctx.W - wall.widthFill
    let wallDept := wpGetDept ctx.cases (wall.subgroups.headD "")
    let itemsBefore := wall.items.length
    do
      let r ← gapFillPools ctx.cases wallDept fuel pools gap wall
      let wall' :=
        if itemsBefore < r.2.items.length then
          { r.2 with reliability := relTIGHT }
        else r.2
      some (r.1, wall')

/-- Phase 2.5 over all full walls, threading the orphan pools. -/
def phase25 (ctx : Ctx) (fuel : ℕ) :
    List WPWall → List WPInv → Option (List WPWall × List WPInv)
  | [], pools => some ([], pools)
  | wall :: ws, pools => do
    let r ← phase25Wall ctx fuel pools wall
    let rr ← phase25 ctx fuel ws r.1
    some (r.2 :: rr.1, rr.2)

/-! ## Phase 3B — rotation-aware depth-grouped FFD.

The JS mutates orphan pools through the shared references held by
`remaining`, `orphansByDept` and `stillRemaining`; the model keeps one master
pool list and addresses pools by position. -/

instance : Inhabited WPInv :=
  ⟨{ sg := "", blockName := "", w := 0, d := 0, h := 0, rot := 0,
     stackable := false, maxStack := 0, stackedH := 0, cases := [],
     dept := "" }⟩

instance : Inhabited WPItem :=
  ⟨{ blockName := "", sg := "", w := 0, d := 0, h := 0, rot := 0, xOff := 0,
     stackCount := 0, stackedH := 0, cases := [] }⟩

instance : Inhabited WPWall :=
  ⟨{ items := [], widthFill := 0, maxHeight := 0, depth := 0,
     isFlatTop := true, subgroups := [], reliability := 0 }⟩

def poolAt (pools : List WPInv) (j : ℕ) : WPInv := (pools[j]?).getD default

/-- List with indices attached, starting at `i`. -/
def withIdx (i : ℕ) : List α → List (ℕ × α)
  | [] => []
  | a :: l => (i, a) :: withIdx (i + 1) l

/-- `isFlatTop` recomputation
(`new Set(heights.map(h => Math.round(h * 10))).size <= 1`). -/
def wpIsFlatTop (items : List WPItem) : Bool :=
  (jsDedup ((items.map (·.stackedH)).map
    (fun h => Q.round (h * Q.ofInt 10)))).length ≤ 1

/-- `countCompatible` of the Phase 3B rotation retry. -/
def countCompatible (W : Q) (otherPools : List WPInv) (orientW orientD : Q) :
    ℤ :=
  if W < orientW then -1
  else
    let count := otherPools.foldl
      (fun acc other =>
        if Q.abs (orientD - other.d) ≤ Q.ofInt 8 then
          acc + (other.cases.length : ℤ)
        else acc) (0 : ℤ)
    count * 100 + Q.floor (W / orientW)

/-- One step of the Phase 3B rotation retry (lines 415-446) at pool index
`i`.  `otherPools` excludes the pool itself by position (the JS excludes it
by object identity) and pools already visited appear with their possibly
rotated dimensions, exactly as in the JS. -/
def rotateStep (W : Q) (pools : List WPInv) (i : ℕ) : List WPInv :=
  let pool := poolAt pools i
  if pool.cases.isEmpty then pools
  else if !pool.allowRotation ∨ Q.abs (pool.w - pool.d) < qhalf then pools
  else
    let otherPools := ((withIdx 0 pools).filter
      (fun p => p.1 ≠ i ∧ ¬p.2.cases.isEmpty)).map (·.2)
    let s1 := countCompatible W otherPools pool.w pool.d
    let s2 := countCompatible W otherPools pool.d pool.w
    let orient : Q × Q × ℕ :=
      if s1 < s2 then (pool.d, pool.w, (pool.rot + 90) % 360)
      else (pool.w, pool.d, pool.rot)
    pools.set i
      { pool with
        w := orient.1
        d := orient.2.1
        rot := orient.2.2
        stackedH := pool.h * Q.ofInt pool.maxStack }

/-- The whole rotation retry, visiting pools in listing order. -/
def phase3BRotate (W : Q) (pools : List WPInv) : List WPInv :=
  (List.range pools.length).foldl (rotateStep W) pools

/-- Step 1 of Phase 3B: group the indices of the remaining pools by
department, in insertion order. -/
def orphansByDept (cases : List Case) (pools : List WPInv) :
    List (String × List ℕ) :=
  (withIdx 0 pools).foldl
    (fun m p =>
      if p.2.cases.isEmpty then m
      else groupPush m (wpGetDept cases p.2.sg) p.1) []

/-- Transitive depth clustering of `ffdByDepth` (seed pool, absorb every
later pool within `depthTol` of the seed). -/
def depthGroupsGo (pools : List WPInv) (depthTol : Q) :
    List ℕ → List ℕ → List (List ℕ)
  | [], _ => []
  | i :: rest, used =>
    if i ∈ used then depthGroupsGo pools depthTol rest used
    else
      let di := (poolAt pools i).d
      let grp := rest.filter
        (fun j => j ∉ used ∧ Q.abs (di - (poolAt pools j).d) ≤ depthTol)
      (i :: grp) :: depthGroupsGo pools depthTol rest (used ++ grp)

/-- The inner consume loop of `ffdByDepth`
(`while (pool.cases.length > 0 && x + pool.w <= WP_TRUCK_WIDTH)`). -/
def ffdPoolLoop (W : Q) (pool : WPInv) :
    ℕ → List Case → Q → WPWall → Option (List Case × Q × WPWall)
  | fuel, cs, x, wall =>
    if cs.isEmpty ∨ ¬ (x + pool.w ≤ W) then some (cs, x, wall)
    else
      match fuel with
      | 0 => none
      | fuel' + 1 =>
        let stack := min pool.maxStack cs.length
        let stackedH := pool.h * Q.ofInt stack
        let stackCases := cs.take stack
        let item : WPItem :=
          { blockName := pool.blockName, sg := pool.sg, w := pool.w,
            d := pool.d, h := pool.h, rot := pool.rot, xOff := x,
            stackCount := stack, stackedH := stackedH, cases := stackCases }
        let wall' : WPWall :=
          { wall with
            items := wall.items ++ [item],
            subgroups :=
              if pool.sg ∈ wall.subgroups then wall.subgroups
              else wall.subgroups ++ [pool.sg],
            maxHeight := max wall.maxHeight stackedH,
            depth := max wall.depth pool.d }
        ffdPoolLoop W pool fuel' (cs.drop stack) (x + pool.w) wall'

/-- `for (const pool of group)` of one wall-building round, threading the
master pool list. -/
def ffdWallPools (W : Q) (fuel : ℕ) :
    List ℕ → List WPInv → Q → WPWall → Option (List WPInv × Q × WPWall)
  | [], pools, x, wall => some (pools, x, wall)
  | j :: rest, pools, x, wall => do
    let pool := poolAt pools j
    let r ← ffdPoolLoop W pool fuel pool.cases x wall
    let pools' := pools.set j { pool with cases := r.1 }
    ffdWallPools W fuel rest pools' r.2.1 r.2.2

/-- The `while (group.some(p => p.cases.length > 0))` wall-building loop of
`ffdByDepth`, with the `if (wall.items.length === 0) break` escape. -/
def ffdGroupLoop (W : Q) (rel : ℕ) :
    ℕ → List ℕ → List WPInv → Option (List WPInv × List WPWall)
  | fuel, group, pools =>
    if ¬ group.any (fun j => ¬(poolAt pools j).cases.isEmpty) then
      some (pools, [])
    else
      match fuel with
      | 0 => none
      | fuel' + 1 => do
        let wall0 : WPWall :=
          { items := [], widthFill := 0, maxHeight := 0, depth := 0,
            isFlatTop := true, subgroups := [], reliability := rel }
        let r ← ffdWallPools W fuel' group pools 0 wall0
        let wall := r.2.2
        if wall.items.isEmpty then some (r.1, [])
        else
          let wall' :=
            { wall with
              widthFill := r.2.1
              isFlatTop := wpIsFlatTop wall.items }
          let rr ← ffdGroupLoop W rel fuel' group r.1
          some (rr.1, wall' :: rr.2)

/-- Per-group processing of `ffdByDepth` (sort descending width, then the
wall-building loop), over the list of depth groups. -/
def ffdGroups (W : Q) (fuel : ℕ) (rel : ℕ) :
    List (List ℕ) → List WPInv → Option (List WPInv × List WPWall)
  | [], pools => some (pools, [])
  | g :: gs, pools => do
    let gSorted := isortBy
      (fun a b => decide ((poolAt pools b).w ≤ (poolAt pools a).w)) g
    let r ← ffdGroupLoop W rel fuel gSorted pools
    let rr ← ffdGroups W fuel rel gs r.1
    some (rr.1, r.2 ++ rr.2)

/-- `ffdByDepth(deptPools, depthTol, reliabilityLevel)`; `deptIdxs` are the
positions of the pools handed in. -/
def ffdByDepth (W : Q) (fuel : ℕ) (pools : List WPInv) (deptIdxs : List ℕ)
    (depthTol : Q) (rel : ℕ) : Option (List WPInv × List WPWall) :=
  let active := deptIdxs.filter (fun j => ¬(poolAt pools j).cases.isEmpty)
  if active.isEmpty then some (pools, [])
  else
    let groups := depthGroupsGo pools depthTol active []
    ffdGroups W fuel rel groups pools

/-- `WP_DEPTH_STRICT = 2`. -/
def WPDepthStrict : Q := Q.ofInt 2

/-- `WP_DEPTH_RELAXED = 8`. -/
def WPDepthRelaxed : Q := Q.ofInt 8

/-- Pass 1 of Phase 3B: strict per-department FFD, departments in insertion
order. -/
def phase3BPass1 (fuel : ℕ) (W : Q) :
    List (String × List ℕ) → List WPInv → Option (List WPInv × List WPWall)
  | [], pools => some (pools, [])
  | (_, idxs) :: rest, pools => do
    let r ← ffdByDepth W fuel pools idxs WPDepthStrict relORPHAN
    let rr ← phase3BPass1 fuel W rest r.1
    some (rr.1, r.2 ++ rr.2)

/-! ## Weak-wall merging (`wpMergeWeakWalls`) -/

/-- The accretion loop of one merge pass: repeatedly absorb the
best-combining unused later wall into `current`. -/
def mergeAccrete (ctx : Ctx) (allowCross : Bool)
    (rest : List (ℕ × WPWall)) :
    ℕ → WPWall → List ℕ → Option (WPWall × List ℕ)
  | fuel, current, used =>
    let best := rest.foldl
      (fun (acc : Option (ℕ × WPWall) × Q) p =>
        let j := p.1
        let wj := p.2
        if j ∈ used then acc
        else if !allowCross ∧
            wpWallDept ctx.cases wj ≠ wpWallDept ctx.cases current then acc
        else if Q.ofInt 8 < Q.abs (current.depth - wj.depth) then acc
        else
          let combined := current.widthFill + wj.widthFill
          if combined ≤ ctx.W + qhalf ∧ acc.2 < combined then
            (some (j, wj), combined)
          else acc)
      (none, 0)
    match best.1 with
    | none => some (current, used)
    | some (bj, wb) =>
      match fuel with
      | 0 => none
      | fuel' + 1 =>
        let shifted := wb.items.map
          (fun item => { item with xOff := item.xOff + current.widthFill })
        let items := current.items ++ shifted
        let heights := items.map (·.stackedH)
        let current' : WPWall :=
          { items := items,
            widthFill := current.widthFill + wb.widthFill,
            maxHeight := listMax heights,
            depth := max current.depth wb.depth,
            isFlatTop :=
              (jsDedup (heights.map (fun h => Q.round (h * Q.ofInt 10)))).length
                ≤ 1,
            subgroups := isortBy (fun a b => decide (a ≤ b))
              (jsDedup (current.subgroups ++ wb.subgroups)),
            reliability :=
              if allowCross then relMIXED
              else
                max
                  (if current.reliability = 0 then relORPHAN
                   else current.reliability)
                  (if wb.reliability = 0 then relORPHAN
                   else wb.reliability) }
        mergeAccrete ctx allowCross rest fuel' current' (used ++ [bj])

/-- The `for (let i = 0; ...)` loop of one merge pass. -/
def mergePassOuter (ctx : Ctx) (allowCross : Bool) (fuel : ℕ) :
    List (ℕ × WPWall) → List ℕ → Option (List WPWall)
  | [], _ => some []
  | (i, wi) :: rest, used =>
    if i ∈ used then mergePassOuter ctx allowCross fuel rest used
    else do
      let r ← mergeAccrete ctx allowCross rest fuel wi (used ++ [i])
      let tail ← mergePassOuter ctx allowCross fuel rest r.2
      some (r.1 :: tail)

/-- One pass of `wpMergeWeakWalls` (sort weak walls by descending
`widthFill`, then accrete). -/
def mergePass (ctx : Ctx) (fuel : ℕ) (allowCross : Bool)
    (weak : List WPWall) : Option (List WPWall) :=
  let sorted := isortBy (fun a b => decide (b.widthFill ≤ a.widthFill)) weak
  mergePassOuter ctx allowCross fuel (withIdx 0 sorted) []

/-- `wpMergeWeakWalls`. -/
def wpMergeWeakWalls (ctx : Ctx) (fuel : ℕ) (walls : List WPWall) :
    Option (List WPWall) :=
  if walls.isEmpty then some walls
  else
    let strong := walls.filter (fun w => WPMinFill ≤ w.widthFill / ctx.W)
    let weak0 := walls.filter (fun w => w.widthFill / ctx.W < WPMinFill)
    if weak0.length < 2 then some walls
    else do
      let weak1 ← mergePass ctx fuel false weak0
      let weak2 ← mergePass ctx fuel true weak1
      some (strong ++ weak2)

/-! ## Phase 3C — absorb very weak walls.

`allTargets` is a snapshot of references into `orphanWalls` and `fullWalls`;
the model addresses a target as `(true, i)` (strong orphan wall `i`) or
`(false, i)` (full wall `i`) over the pair of master lists. -/

/-- `WP_ABSORB_THRESH = 0.50`. -/
def WPAbsorbThresh : Q := qhalf

/-- The fixed target list of Phase 3C (strong orphan walls first, then the
full walls; the KB wall list is always empty). -/
def targetsOf (W : Q) (orphan full : List WPWall) : List (Bool × ℕ) :=
  ((withIdx 0 orphan).filter
    (fun p => WPAbsorbThresh ≤ p.2.widthFill / W)).map (fun p => (true, p.1))
    ++ (withIdx 0 full).map (fun p => (false, p.1))

/-- Try to place one column into the first suitable target; returns the
updated `(orphanWalls, fullWalls)` state and whether it was placed. -/
def absorbItem (W : Q) (st : List WPWall × List WPWall) (item : WPItem) :
    List (Bool × ℕ) → (List WPWall × List WPWall) × Bool
  | [] => (st, false)
  | (isO, ti) :: rest =>
    let t := ((if isO then st.1 else st.2)[ti]?).getD default
    if Q.ofInt 8 < Q.abs (t.depth - item.d) then absorbItem W st item rest
    else if ¬ (t.widthFill + item.w ≤ W + qhalf) then absorbItem W st item rest
    else
      let item' := { item with xOff := t.widthFill }
      let t' : WPWall :=
        { t with
          items := t.items ++ [item']
          widthFill := t.widthFill + item.w
          maxHeight := max t.maxHeight item.stackedH
          depth := max t.depth item.d
          subgroups :=
            if item.sg ∈ t.subgroups then t.subgroups
            else t.subgroups ++ [item.sg]
          reliability := max t.reliability relMIXED }
      if isO then ((st.1.set ti t', st.2), true)
      else ((st.1, st.2.set ti t'), true)

/-- Phase 3C processing of one very weak wall (at orphan index `vi`):
each of its columns looks for a target; the absorbed columns are then
removed and `widthFill` is recomputed when columns remain. -/
def absorbVW (W : Q) (targets : List (Bool × ℕ))
    (st : List WPWall × List WPWall) (vi : ℕ) :
    List WPWall × List WPWall :=
  let vw := (st.1[vi]?).getD default
  let r := (withIdx 0 vw.items).foldl
    (fun (acc : (List WPWall × List WPWall) × List ℕ) p =>
      let a := absorbItem W acc.1 p.2 targets
      (a.1, if a.2 then acc.2 ++ [p.1] else acc.2))
    (st, [])
  let vwCur := (r.1.1[vi]?).getD default
  let remaining := ((withIdx 0 vwCur.items).filter
    (fun p => p.1 ∉ r.2)).map (·.2)
  let vw' : WPWall :=
    { vwCur with
      items := remaining
      widthFill :=
        if remaining.length > 0 then
          remaining.foldl (fun s it => s + it.w) 0
        else vwCur.widthFill }
  (r.1.1.set vi vw', r.1.2)

/-- Phase 3C: dissolve each orphan wall under 50% fill column-by-column into
the stronger walls, then drop emptied orphan walls. -/
def phase3C (W : Q) (orphan full : List WPWall) :
    List WPWall × List WPWall :=
  let veryWeakIdx := ((withIdx 0 orphan).filter
    (fun p => p.2.widthFill / W < WPAbsorbThresh)).map (·.1)
  let targets := targetsOf W orphan full
  let st := veryWeakIdx.foldl (absorbVW W targets) (orphan, full)
  (st.1.filter (fun w => ¬w.items.isEmpty), st.2)

/-! ## Phase 3D — column-level rebuild -/

/-- Drain one orphan pool into columns (lines 603-619). -/
def drainPool (cases : List Case) (pool : WPInv) :
    ℕ → List Case → Option (List WPItem)
  | fuel, cs =>
    if cs.isEmpty then some []
    else
      match fuel with
      | 0 => none
      | fuel' + 1 =>
        let stack := min pool.maxStack cs.length
        let stackedH := pool.h * Q.ofInt stack
        let stackCases := cs.take stack
        let col : WPItem :=
          { blockName := pool.blockName, sg := pool.sg, w := pool.w,
            d := pool.d, h := pool.h, rot := pool.rot, xOff := 0,
            stackCount := stack, stackedH := stackedH, cases := stackCases,
            dept := wpGetDept cases pool.sg }
        (drainPool cases pool fuel' (cs.drop stack)).map (col :: ·)

/-- Drain all leftover orphan pools into columns, keeping emptied pool
records in place. -/
def phase3DDrain (cases : List Case) (fuel : ℕ) :
    List WPInv → Option (List WPInv × List WPItem)
  | [] => some ([], [])
  | pool :: rest =>
    if pool.cases.isEmpty then do
      let rr ← phase3DDrain cases fuel rest
      some (pool :: rr.1, rr.2)
    else do
      let cols ← drainPool cases pool fuel pool.cases
      let rr ← phase3DDrain cases fuel rest
      some ({ pool with cases := [] } :: rr.1, cols ++ rr.2)

/-- The best-fit accretion loop of the Phase 3D wall builder.  Returns the
finished wall, its running minimum depth, and the columns left over. -/
def phase3DAccrete (ctx : Ctx) :
    ℕ → List WPItem → WPWall → Q → Option (WPWall × Q × List WPItem)
  | fuel, cols, wall, minD =>
    let best := (withIdx 0 cols).foldl
      (fun (acc : Option ℕ × Q) p =>
        let col := p.2
        if ¬ (wall.widthFill + col.w ≤ ctx.W + qhalf) then acc
        else
          let newMinD := min minD col.d
          let newMaxD := max wall.depth col.d
          if Q.ofInt 8 < newMaxD - newMinD then acc
          else
            let newFill := (wall.widthFill + col.w) / ctx.W
            let depthDelta := (newMaxD - newMinD) / Q.ofInt 8
            let heightDiff :=
              Q.abs (wall.maxHeight - col.stackedH) / thOr110 ctx
            let sameDept : Q :=
              if col.dept = wpWallDept ctx.cases wall then ⟨1, 10⟩ else 0
            let score := newFill * ⟨3, 5⟩ +
              (Q.ofInt 1 - depthDelta) * ⟨1, 4⟩ +
              (Q.ofInt 1 - heightDiff) * ⟨1, 10⟩ + sameDept * ⟨1, 20⟩
            if acc.2 < score then (some p.1, score) else acc)
      (none, Q.ofInt (-1))
    match best.1 with
    | none => some (wall, minD, cols)
    | some bi =>
      match fuel with
      | 0 => none
      | fuel' + 1 =>
        let chosen := (cols[bi]?).getD default
        let cols' := cols.eraseIdx bi
        let chosen' := { chosen with xOff := wall.widthFill }
        let wall' : WPWall :=
          { wall with
            items := wall.items ++ [chosen']
            widthFill := wall.widthFill + chosen.w
            maxHeight := max wall.maxHeight chosen.stackedH
            depth := max wall.depth chosen.d
            subgroups :=
              if chosen.sg ∈ wall.subgroups then wall.subgroups
              else wall.subgroups ++ [chosen.sg] }
        phase3DAccrete ctx fuel' cols' wall' (min minD chosen.d)

/-- The `while (availableColumns.length > 0)` wall-building loop of
Phase 3D. -/
def phase3DBuild (ctx : Ctx) : ℕ → List WPItem → Option (List WPWall)
  | fuel, cols =>
    match cols with
    | [] => some []
    | anchor :: colsRest =>
      match fuel with
      | 0 => none
      | fuel' + 1 => do
        let anchor' := { anchor with xOff := (0 : Q) }
        let wall0 : WPWall :=
          { items := [anchor'], widthFill := anchor.w,
            maxHeight := anchor.stackedH, depth := anchor.d,
            isFlatTop := true, subgroups := [anchor.sg],
            reliability := relMIXED }
        let r ← phase3DAccrete ctx fuel' colsRest wall0 anchor.d
        let wall := r.1
        let rel :=
          if wall.subgroups.length = 1 then relORPHAN
          else if (jsDedup (wall.items.map
              (fun it => wpGetDept ctx.cases it.sg))).length = 1 then
            relORPHAN
          else relMIXED
        let wall' : WPWall :=
          { wall with
            reliability := rel
            isFlatTop := wpIsFlatTop wall.items }
        let tail ← phase3DBuild ctx fuel' r.2.2
        some (wall' :: tail)

/-- Phase 3D: when at least two orphan walls are still under 80% fill,
decompose them (and the leftover pool cases) into columns and rebuild with
best-fit scoring; otherwise leave everything untouched (in particular the
leftover pools are NOT drained in that case). -/
def phase3D (ctx : Ctx) (fuel : ℕ) (orphanWalls : List WPWall)
    (pools : List WPInv) : Option (List WPWall × List WPInv) :=
  let weakWalls3D := orphanWalls.filter
    (fun w => w.widthFill / ctx.W < WPMinFill)
  if weakWalls3D.length < 2 then some (orphanWalls, pools)
  else do
    let decomposed := weakWalls3D.flatMap (fun wall =>
      wall.items.map (fun item =>
        ({ blockName := item.blockName, sg := item.sg, w := item.w,
           d := item.d, h := item.h, rot := item.rot, xOff := 0,
           stackCount := item.stackCount, stackedH := item.stackedH,
           cases := item.cases,
           dept := wpGetDept ctx.cases item.sg } : WPItem)))
    let r ← phase3DDrain ctx.cases fuel pools
    let availableColumns := decomposed ++ r.2
    let orphanKept := orphanWalls.filter
      (fun w => WPMinFill ≤ w.widthFill / ctx.W)
    let sortedCols := isortBy (fun a b => decide (b.w ≤ a.w)) availableColumns
    let newWalls ← phase3DBuild ctx fuel sortedCols
    some (orphanKept ++ newWalls, r.1)

/-! ## Phase 4 — scoring and stage ordering -/

/-- `cmp(a, b) <= 0` for the Phase 4 wall comparator (lines 732-739):
ascending score, then ascending department priority, then descending raw
fill ratio. -/
def phase4SortLe (ctx : Ctx) (a b : WPWall) : Bool :=
  let sa := wpWallScore ctx a
  let sb := wpWallScore ctx b
  if sa.eqb sb then
    let da := dpLookup ctx.deptPriority (wpWallDept ctx.cases a)
    let db := dpLookup ctx.deptPriority (wpWallDept ctx.cases b)
    if da.eqb db then decide (b.widthFill / ctx.W ≤ a.widthFill / ctx.W)
    else decide (da < db)
  else decide (sa < sb)

/-- `WP_STAGE_HEIGHT_TOL = 15`. -/
def WPStageHeightTol : Q := Q.ofInt 15

/-- The stage-grouping scan of Phase 4 (lines 745-764). -/
def stagesGo (ctx : Ctx) :
    List WPWall → List WPWall → Q → String → ℕ → List (List WPWall)
  | [], curGroup, _, _, _ => if curGroup.isEmpty then [] else [curGroup]
  | wall :: rest, curGroup, curHeight, curDept, curRel =>
    let wallDept := wpWallDept ctx.cases wall
    let wallRel := if wall.reliability = 0 then 99 else wall.reliability
    let same := wallRel = curRel ∧ wallDept = curDept ∧
      Q.abs (wall.maxHeight - curHeight) ≤ WPStageHeightTol
    if same then stagesGo ctx rest (curGroup ++ [wall]) curHeight curDept curRel
    else
      (if curGroup.isEmpty then [] else [curGroup]) ++
        stagesGo ctx rest [wall] wall.maxHeight wallDept wallRel

/-- Group the ordered wall list into stages, each with its index. -/
def mkStages (ctx : Ctx) (allWalls : List WPWall) : List (ℕ × List WPWall) :=
  match allWalls with
  | [] => []
  | w0 :: _ =>
    withIdx 0 (stagesGo ctx allWalls [] w0.maxHeight
      (wpWallDept ctx.cases w0)
      (if w0.reliability = 0 then 99 else w0.reliability))

/-! ## Phase 5 — coordinate emission.

The emission is modeled to return each placement PAIRED with the case `c` it
was built from (both are in scope together in the JS loop); the public
result projects the pairs to their first components.  The stack loop
`for (let si = 0; si < item.stackCount; si++) { const c = item.cases[si];
... }` is rendered over `item.cases.take item.stackCount`; the two agree
since every constructed item has `stackCount = cases.length` (a JS
`stackCount > cases.length` would throw on `c.block_name`). -/

/-- The wall id minted for wall number `n` (`'wp_' + wallIdx`). -/
def mkWallId (n : ℕ) : String := "wp_" ++ natRepr n

def joinSep (sep : String) : List String → String
  | [] => ""
  | [s] => s
  | s :: rest => s ++ sep ++ joinSep sep rest

/-- Emission of one item (column) of a wall: either its whole stack of
placements, or a spillover re-queue of all its cases.  The running state is
`(cumulX, pairs, spills, actualMaxDepth)`. -/
def phase5Item (ctx : Ctx) (wallId : String) (stageIdx : ℤ) (yPos : Q)
    (st : Q × List (Placement × Case) × List SpillItem × Q) (item : WPItem) :
    Q × List (Placement × Case) × List SpillItem × Q :=
  let cumulX := st.1
  if ¬ (cumulX + item.w ≤ ctx.W + qhalf) then
    let newSpills := item.cases.map (fun c =>
      ({ blockName := item.blockName, sg := item.sg,
         nom := if c.nom = "" then item.sg else c.nom,
         caseId := c.num_caisse, w := item.w, d := item.d, h := item.h,
         dimsRot := item.rot, caseData := c } : SpillItem))
    (cumulX, st.2.1, st.2.2.1 ++ newSpills, st.2.2.2)
  else
    let stackPairs := (withIdx 0 (item.cases.take item.stackCount)).map
      (fun p =>
        let si : ℕ := p.1
        let c := p.2
        let z := item.h * Q.ofInt (si : ℤ)
        let ph := if (0 : Q) < c.height then c.height else item.h
        (({ block_name :=
              if c.block_name = "" then item.blockName else c.block_name
            subgroup :=
              if c.subgroup ≠ "" then c.subgroup
              else if c.group ≠ "" then c.group
              else item.sg
            dept :=
              if c.dept ≠ "" then c.dept else wpGetDept ctx.cases item.sg
            name :=
              if c.nom ≠ "" then c.nom
              else if c.name ≠ "" then c.name
              else item.sg ++ " #" ++ natRepr (si + 1)
            case_id := c.num_caisse
            x := cumulX
            y := yPos
            z := z
            width := item.w
            depth := item.d
            height := ph
            rotation := item.rot
            wallId := wallId
            stage := stageIdx } : Placement), c))
    let amd' := if stackPairs.isEmpty then st.2.2.2 else max st.2.2.2 item.d
    (cumulX + item.w, st.2.1 ++ stackPairs, st.2.2.1, amd')

/-- Phase 5 over the flattened `(stage index, wall)` list: assign ids, place
columns, queue spillovers, emit wall sections, advance the `y` cursor. -/
def phase5Walls (ctx : Ctx) :
    List (ℤ × WPWall) → Q → ℕ →
      List (Placement × Case) × List WallSection × List SpillItem × Q × ℕ
  | [], yPos, wallIdx => ([], [], [], yPos, wallIdx)
  | (si, wall) :: rest, yPos, wallIdx =>
    if wall.isLoadBar then phase5Walls ctx rest (yPos + wall.depth) wallIdx
    else
      let wallId := mkWallId wallIdx
      let r := wall.items.foldl (phase5Item ctx wallId si yPos)
        ((0 : Q), [], [], (0 : Q))
      let cumulX := r.1
      let pairs := r.2.1
      let spills := r.2.2.1
      let actualMaxDepth := r.2.2.2
      let wallDepth := max wall.depth actualMaxDepth
      let yEnd := yPos + wallDepth
      let actualFillWidth := max cumulX wall.widthFill
      let sec : WallSection :=
        { id := wallId
          label := joinSep " + " wall.subgroups
          sectionTag := "Stage " ++ natRepr si.toNat
          yStart := yPos
          yEnd := yEnd
          wallWidth := Q.round actualFillWidth
          fillPct := Q.round (actualFillWidth / ctx.W * Q.ofInt 100)
          placements := pairs.map (·.1)
          status := "pending"
          caseCount := pairs.length
          depth := Q.round wall.depth }
      let rr := phase5Walls ctx rest yEnd (wallIdx + 1)
      (pairs ++ rr.1, sec :: rr.2.1, spills ++ rr.2.2.1,
        rr.2.2.2.1, rr.2.2.2.2)

/-! ## Phase 5B — spillover recovery -/

/-- One round of the `while (items.length > 0)` loop for a depth bucket:
greedy left-to-right pass over the remaining items.  Returns
`(x, pairs, placed positions, maxD)`. -/
def phase5BStep (ctx : Ctx) (wallId : String) (yPos : Q)
    (st : Q × List (Placement × Case) × List ℕ × Q) (p : ℕ × SpillItem) :
    Q × List (Placement × Case) × List ℕ × Q :=
  let item := p.2
  if ¬ (st.1 + item.w ≤ ctx.W + qhalf) then st
  else
    let c := item.caseData
    let pl : Placement :=
      { block_name := item.blockName
        subgroup :=
          if c.subgroup ≠ "" then c.subgroup
          else if c.group ≠ "" then c.group
          else item.sg
        dept :=
          if c.dept ≠ "" then c.dept else wpGetDept ctx.cases item.sg
        name := item.nom
        case_id := item.caseId
        x := st.1
        y := yPos
        z := 0
        width := item.w
        depth := item.d
        height := item.h
        rotation := item.dimsRot
        wallId := wallId
        stage := -1 }
    (st.1 + item.w, st.2.1 ++ [(pl, c)], st.2.2.1 ++ [p.1],
      max st.2.2.2 item.d)

/-- One round of the `while (items.length > 0)` loop for a depth bucket:
greedy left-to-right pass over the remaining items.  Returns
`(x, pairs, placed positions, maxD)`. -/
def phase5BPass (ctx : Ctx) (wallId : String) (yPos : Q)
    (items : List SpillItem) :
    Q × List (Placement × Case) × List ℕ × Q :=
  (withIdx 0 items).foldl (phase5BStep ctx wallId yPos)
    ((0 : Q), [], [], (0 : Q))

/-- The per-bucket `while` loop of Phase 5B.  Note the wall id counter is
consumed even on the final empty round (the JS increments `wallIdx` before
discovering nothing fits), and a round that places nothing `break`s,
dropping whatever is left in the bucket. -/
def phase5BBucket (ctx : Ctx) :
    ℕ → List SpillItem → Q → ℕ →
      Option (List (Placement × Case) × List WallSection × Q × ℕ)
  | fuel, items, yPos, wallIdx =>
    if items.isEmpty then some ([], [], yPos, wallIdx)
    else
      match fuel with
      | 0 => none
      | fuel' + 1 =>
        let wallId := mkWallId wallIdx
        let r := phase5BPass ctx wallId yPos items
        let x := r.1
        let pairs := r.2.1
        let placed := r.2.2.1
        let maxD := r.2.2.2
        if pairs.isEmpty then some ([], [], yPos, wallIdx + 1)
        else
          let remaining := ((withIdx 0 items).filter
            (fun p => p.1 ∉ placed)).map (·.2)
          let yEnd := yPos + maxD
          let sec : WallSection :=
            { id := wallId
              label := "Spillover"
              sectionTag := "SPILLOVER"
              yStart := yPos
              yEnd := yEnd
              wallWidth := Q.round x
              fillPct := Q.round (x / ctx.W * Q.ofInt 100)
              placements := pairs.map (·.1)
              status := "pending"
              caseCount := pairs.length
              depth := Q.round maxD }
          do
            let rr ← phase5BBucket ctx fuel' remaining yEnd (wallIdx + 1)
            some (pairs ++ rr.1, sec :: rr.2.1, rr.2.2.1, rr.2.2.2)

/-- Phase 5B over the depth buckets (insertion order of rounded depths,
each bucket sorted by descending width). -/
def phase5BBuckets (ctx : Ctx) (fuel : ℕ) :
    List (ℤ × List SpillItem) → Q → ℕ →
      Option (List (Placement × Case) × List WallSection × Q × ℕ)
  | [], yPos, wallIdx => some ([], [], yPos, wallIdx)
  | (_, items) :: rest, yPos, wallIdx => do
    let sorted := isortBy (fun a b => decide (b.w ≤ a.w)) items
    let r ← phase5BBucket ctx fuel sorted yPos wallIdx
    let rr ← phase5BBuckets ctx fuel rest r.2.2.1 r.2.2.2
    some (r.1 ++ rr.1, r.2.1 ++ rr.2.1, rr.2.2.1, rr.2.2.2)

/-- Phase 5B entry point. -/
def phase5B (ctx : Ctx) (fuel : ℕ) (spills : List SpillItem) (yPos : Q)
    (wallIdx : ℕ) :
    Option (List (Placement × Case) × List WallSection × Q × ℕ) :=
  let buckets := spills.foldl (fun m it => groupPush m (Q.round it.d) it) []
  phase5BBuckets ctx fuel buckets yPos wallIdx

/-! ## Post-placement validation (`wpValidatePlacements`).

The JS builds diagnostic strings; the model returns structured violations
with the same trigger conditions (the message text is not part of any
claim). -/

inductive WPViolation
  | boundsLeft (name : String)
  | boundsRight (name : String)
  | boundsBelow (name : String)
  | boundsBehind (name : String)
  | overlap (name1 name2 : String)
  | flatFaceCritical (wallId : String)
  | flatFaceAcceptable (wallId : String)
deriving DecidableEq, Repr

/-- Bounds violations of one placement (lines 945-953). -/
def wpValidateBounds (TRUCKW : Q) (a : Placement) : List WPViolation :=
  (if a.x < -qhalf then [WPViolation.boundsLeft a.name] else []) ++
  (if TRUCKW + qhalf < a.x + a.width then [WPViolation.boundsRight a.name]
   else []) ++
  (if a.z < -qhalf then [WPViolation.boundsBelow a.name] else []) ++
  (if a.y < -qhalf then [WPViolation.boundsBehind a.name] else [])

/-- Pairwise overlap test (lines 955-963). -/
def wpOverlaps (a b : Placement) : Bool :=
  decide (a.x < b.x + b.width - qhalf) && decide (b.x < a.x + a.width - qhalf)
    && decide (a.y < b.y + b.depth - qhalf)
    && decide (b.y < a.y + a.depth - qhalf)
    && decide (a.z < b.z + b.height - qhalf)
    && decide (b.z < a.z + a.height - qhalf)

def wpValidatePairs (TRUCKW : Q) : List Placement → List WPViolation
  | [] => []
  | a :: rest =>
    wpValidateBounds TRUCKW a ++
      (rest.filter (wpOverlaps a)).map (fun b => WPViolation.overlap a.name b.name)
      ++ wpValidatePairs TRUCKW rest

/-- Flat-face check per wall-id group (lines 966-982). -/
def wpValidateFlatFace (groups : List (String × List Placement)) :
    List WPViolation :=
  groups.flatMap (fun g =>
    if g.2.length < 2 then []
    else
      let depths := g.2.map (·.depth)
      let delta := listMax depths - listMin depths
      if Q.ofInt 8 < delta then [WPViolation.flatFaceCritical g.1]
      else if WPLoadbarGap < delta then [WPViolation.flatFaceAcceptable g.1]
      else [])

/-- `wpValidatePlacements` (the `DEPTH_TOL = 2` of the acceptable band is
the same constant value as `WP_LOADBAR_GAP`, used here for the literal 2). -/
def wpValidatePlacements (placements : List Placement) (truckWidth : Q) :
    List WPViolation :=
  let TRUCKW := if truckWidth.num = 0 then Q.ofInt 98 else truckWidth
  let wallGroups := placements.foldl
    (fun m p =>
      groupPush m (if p.wallId = "" then "unknown" else p.wallId) p) []
  wpValidatePairs TRUCKW placements ++ wpValidateFlatFace wallGroups

/-! ## The solver -/

/-- `wallPlannerSolve`, with emission traced: each placement is paired with
the case it was emitted from.  `none` means some internal loop exhausted its
fuel, i.e. the JS diverges (or, for the defensive inner loops, that `fuel`
was simply too small — the theorems below always quantify over or supply a
sufficient fuel). -/
def wallPlannerSolveCore (fuel : ℕ) (cases : List Case) (config : WPConfig) :
    Option (List (Placement × Case) × List WallSection) :=
  if cases.isEmpty then some ([], [])
  else
    let W := if config.truckWidth.num = 0 then Q.ofInt 98 else config.truckWidth
    let ctx : Ctx :=
      { cases := cases, W := W, deptPriority := config.deptPriority,
        truckHeight := config.truckHeight, truckLength := config.truckLength }
    let inventories := phase0 W cases
    let floorInvs := inventories.filter (·.isFloor)
    do
      let floorWalls ← phase15 W fuel floorInvs
      let p2 ← phase2 W fuel inventories
      let p25 ← phase25 ctx fuel p2.1 p2.2
      let fullWalls := p25.1
      let kbWalls : List WPWall := []
      let pools2 := phase3BRotate W p25.2
      let byDept := orphansByDept cases pools2
      let pass1 ← phase3BPass1 fuel W byDept pools2
      let stillIdx := ((withIdx 0 pass1.1).filter
        (fun p => ¬p.2.cases.isEmpty)).map (·.1)
      let pass2 ← ffdByDepth W fuel pass1.1 stillIdx WPDepthRelaxed relMIXED
      let merged ← wpMergeWeakWalls ctx fuel (pass1.2 ++ pass2.2)
      let p3c := phase3C W merged fullWalls
      let p3d ← phase3D ctx fuel p3c.1 pass2.1
      let sortableWalls := p3c.2 ++ kbWalls ++ p3d.1
      let sorted := isortBy (phase4SortLe ctx) sortableWalls
      let allWalls := floorWalls ++ sorted
      let stages := mkStages ctx allWalls
      let stageWalls := stages.flatMap
        (fun s => s.2.map (fun w => ((s.1 : ℤ), w)))
      let e5 := phase5Walls ctx stageWalls 0 0
      let e5b ← phase5B ctx fuel e5.2.2.1 e5.2.2.2.1 e5.2.2.2.2
      some (e5.1 ++ e5b.1, e5.2.1 ++ e5b.2.1)

/-- The public solver result (the JS return value
`{ placements, wallSections }`). -/
def wallPlannerSolve (fuel : ℕ) (cases : List Case) (config : WPConfig) :
    Option SolveResult :=
  (wallPlannerSolveCore fuel cases config).map
    (fun r => { placements := r.1.map (·.1), wallSections := r.2 })

/-! ## Concrete inputs used by the claim theorems -/

/-- A minimal concrete case (rotation disallowed, not stackable, not a floor
panel). -/
def mkCase (nm : String) (w d h : ℤ) (grp : String) : Case :=
  { nom := nm, name := nm, width := Q.ofInt w, depth := Q.ofInt d,
    height := Q.ofInt h, dept := "GENERAL", group := grp, subgroup := grp,
    allowRotation := false }

/-- The standard 98-inch truck. -/
def cfg98 : WPConfig :=
  { truckWidth := Q.ofInt 98, truckLength := Q.ofInt 240,
    truckHeight := Q.ofInt 110 }

/-! ## C1/C2 — divergence of the Phase 2 leftover loop -/

/-- When the group's column width does not fit an empty wall
(`¬(0 + w ≤ W)`), the inner build loop consumes nothing, so the Phase 2
leftover loop re-enters with the same case list forever: `none` for every
fuel. -/
theorem phase2LeftoverLoop_stuck (W : Q) (inv : WPInv)
    (hw : ¬ ((0 : Q) + inv.w ≤ W)) :
    ∀ (fuel : ℕ) (cs : List Case), cs ≠ [] →
      phase2LeftoverLoop W inv fuel cs = none := by
  intro fuel
  induction fuel with
  | zero =>
    intro cs hcs
    have hcs' : cs.isEmpty = false := by
      cases cs with
      | nil => exact absurd rfl hcs
      | cons a l => rfl
    simp [phase2LeftoverLoop, hcs']
  | succ f ih =>
    intro cs hcs
    have hcs' : cs.isEmpty = false := by
      cases cs with
      | nil => exact absurd rfl hcs
      | cons a l => rfl
    have hbuild : phase2BuildLoop W inv f cs 0 [] 0 = some (cs, 0, [], 0) := by
      rw [phase2BuildLoop.eq_def]
      exact if_pos (Or.inr hw)
    rw [phase2LeftoverLoop]
    rw [hcs']
    simp only [Bool.false_eq_true, if_false, hbuild, Option.bind_eq_bind,
      Option.some_bind, ih cs hcs, Option.none_bind]

/-- When the inventory does not fit an empty wall and has at least one case,
Phase 2 on that inventory diverges. -/
theorem phase2Inv_stuck (W : Q) (inv : WPInv) (fuel : ℕ)
    (hw : ¬ ((0 : Q) + inv.w ≤ W)) (hfl : inv.isFloor = false)
    (hcs : inv.cases ≠ [])
    (hmin : W * WPMinFill ≤ Q.ofInt (inv.cases.length : ℤ) * inv.w) :
    phase2Inv W fuel inv = none := by
  have hcs' : inv.cases.isEmpty = false := by
    cases h : inv.cases with
    | nil => exact absurd h hcs
    | cons a l => rfl
  have hbuild : phase2BuildLoop W inv fuel inv.cases 0 [] 0 =
      some (inv.cases, 0, [], 0) := by
    rw [phase2BuildLoop.eq_def]
    exact if_pos (Or.inr hw)
  rw [phase2Inv]
  rw [if_neg (by simp [hfl, hcs'])]
  simp only [Option.bind_eq_bind, hbuild, Option.some_bind]
  rw [if_neg (by simp [hcs'])]
  rw [if_pos hmin]
  simp only [Option.bind_eq_bind,
    phase2LeftoverLoop_stuck W inv hw fuel inv.cases hcs, Option.none_bind]

/-- The C1 failing input: a single 110-inch-wide case, rotation disallowed,
in the (default) 98-inch truck. -/
def c1case : Case := mkCase "big" 110 30 40 "A"

/-- The inventory group Phase 0 derives from `c1case`. -/
def c1inv : WPInv :=
  { sg := "A", blockName := "A", w := Q.ofInt 110, d := Q.ofInt 30,
    h := Q.ofInt 40, rot := 0, stackable := false, maxStack := 1,
    stackedH := Q.ofInt 40, cases := [c1case], dept := "GENERAL",
    isFloor := false, allowRotation := false }

/-- **C1** (refuted: the code diverges).  On a one-case input whose width
(110) exceeds the truck width (98) with rotation disallowed, `wallPlannerSolve`
does not terminate: the Phase 2 leftover loop re-enters forever, so the model
returns `none` for every fuel.  This refutes termination for every finite
input. -/
theorem c1_solver_diverges_on_overwide_case (fuel : ℕ) :
    wallPlannerSolve fuel [c1case] cfg98 = none := by
  have h0 : phase0 (Q.ofInt 98) [c1case] = [c1inv] := by decide
  have hinv : phase2Inv (Q.ofInt 98) fuel c1inv = none :=
    phase2Inv_stuck _ _ _ (by decide) (by decide) (by decide) (by decide)
  have h2 : phase2 (Q.ofInt 98) fuel [c1inv] = none := by
    rw [phase2]
    simp only [Option.bind_eq_bind, hinv, Option.none_bind]
  rw [wallPlannerSolve, wallPlannerSolveCore]
  rw [if_neg (by decide)]
  simp only [cfg98]
  rw [if_neg (by decide)]
  rw [h0]
  have hfl : [c1inv].filter (·.isFloor) = [] := by decide
  simp only [hfl, phase15, Option.bind_eq_bind, Option.some_bind, h2,
    Option.none_bind]
  rfl

/-- The C2 (scenario S6) failing input: a single 110-inch-wide, 40-inch-deep
case, rotation disallowed, in the 98-inch truck. -/
def c2case : Case := mkCase "S6" 110 40 40 "S"

/-- The inventory group Phase 0 derives from `c2case`. -/
def c2inv : WPInv :=
  { sg := "S", blockName := "S", w := Q.ofInt 110, d := Q.ofInt 40,
    h := Q.ofInt 40, rot := 0, stackable := false, maxStack := 1,
    stackedH := Q.ofInt 40, cases := [c2case], dept := "GENERAL",
    isFloor := false, allowRotation := false }

/-- **C2** (refuted: the code diverges before any spillover).  On the
scenario-S6 input (w = 110 > W = 98, rotation disallowed) the solver never
reaches Phase 5/5B: Phase 2 sends the unfittable group to the leftover-wall
loop (1 · 110 ≥ 0.8 · 98), whose inner build loop consumes nothing, so the
solver hangs instead of emitting a spillover wall at stage −1. -/
theorem c2_s6_spillover_never_emitted (fuel : ℕ) :
    wallPlannerSolve fuel [c2case] cfg98 = none := by
  have h0 : phase0 (Q.ofInt 98) [c2case] = [c2inv] := by decide
  have hinv : phase2Inv (Q.ofInt 98) fuel c2inv = none :=
    phase2Inv_stuck _ _ _ (by decide) (by decide) (by decide) (by decide)
  have h2 : phase2 (Q.ofInt 98) fuel [c2inv] = none := by
    rw [phase2]
    simp only [Option.bind_eq_bind, hinv, Option.none_bind]
  rw [wallPlannerSolve, wallPlannerSolveCore]
  rw [if_neg (by decide)]
  simp only [cfg98]
  rw [if_neg (by decide)]
  rw [h0]
  have hfl : [c2inv].filter (·.isFloor) = [] := by decide
  simp only [hfl, phase15, Option.bind_eq_bind, Option.some_bind, h2,
    Option.none_bind]
  rfl

/-! ## C5 — flat-face depth tolerance -/

/-- The C5 failing input: three 27-inch A cases (depth 20) leave a 17-inch
gap in their full wall; gap-fill then appends the 8-inch B case (depth 28,
within 8 of the wall depth 20) and, against the updated wall depth 28, the
8-inch C case (depth 36). -/
def c5cases : List Case :=
  [mkCase "a1" 27 20 40 "A", mkCase "a2" 27 20 40 "A",
   mkCase "a3" 27 20 40 "A", mkCase "b1" 8 28 40 "B",
   mkCase "c1" 8 36 40 "C"]

set_option maxHeartbeats 4000000 in
/-- **C5** (refuted).  On `c5cases` the emitted wall `wp_0` has placement
depths 20/28/36: a depth range of 16 > 8, because each gap-fill step checks
the candidate only against the running `max` depth.  The solver's own
validator reports the CRITICAL flat-face violation on its output. -/
theorem c5_flat_face_range_exceeds_tolerance :
    (wallPlannerSolve 300 c5cases cfg98).map (fun r =>
      (r.wallSections.map (fun s =>
        (s.id, listMax (s.placements.map (·.depth)) -
          listMin (s.placements.map (·.depth)))),
       wpValidatePlacements r.placements (Q.ofInt 98))) =
      some ([("wp_0", Q.ofInt 16)], [WPViolation.flatFaceCritical "wp_0"]) ∧
    Q.ofInt 8 < Q.ofInt 16 := by
  refine ⟨by rfl, by decide⟩

/-! ## C6 — reliability monotonicity -/

/-- The C6 failing input: seven 32-inch A cases make one full wall (96/98)
and one weak leftover wall (32/98, ORPHAN tier 4); the 8-inch B case stays
pooled. -/
def c6cases : List Case :=
  [mkCase "a1" 32 20 40 "A", mkCase "a2" 32 20 40 "A",
   mkCase "a3" 32 20 40 "A", mkCase "a4" 32 20 40 "A",
   mkCase "a5" 32 20 40 "A", mkCase "a6" 32 20 40 "A",
   mkCase "a7" 32 20 40 "A", mkCase "b1" 8 20 40 "B"]

/-- The solver context for `c6cases`. -/
def c6ctx : Ctx :=
  { cases := c6cases
    W := Q.ofInt 98
    deptPriority := []
    truckHeight := Q.ofInt 110
    truckLength := Q.ofInt 240 }

/-- The A inventory Phase 0 derives from `c6cases`. -/
def c6invA : WPInv :=
  { sg := "A", blockName := "A", w := Q.ofInt 32, d := Q.ofInt 20,
    h := Q.ofInt 40, rot := 0, stackable := false, maxStack := 1,
    stackedH := Q.ofInt 40, cases := c6cases.take 7, dept := "GENERAL",
    isFloor := false, allowRotation := false }

/-- The B inventory Phase 0 derives from `c6cases`. -/
def c6invB : WPInv :=
  { sg := "B", blockName := "B", w := Q.ofInt 8, d := Q.ofInt 20,
    h := Q.ofInt 40, rot := 0, stackable := false, maxStack := 1,
    stackedH := Q.ofInt 40, cases := [mkCase "b1" 8 20 40 "B"],
    dept := "GENERAL", isFloor := false, allowRotation := false }

/-- One single-case A column at `xOff = x`. -/
def c6item (nm : String) (x : ℤ) : WPItem :=
  { blockName := "A", sg := "A", w := Q.ofInt 32, d := Q.ofInt 20,
    h := Q.ofInt 40, rot := 0, xOff := Q.ofInt x, stackCount := 1,
    stackedH := Q.ofInt 40, cases := [mkCase nm 32 20 40 "A"] }

/-- The first leftover wall of Phase 2 on `c6cases` (a4–a6, fill 96). -/
def c6wallA1 : WPWall :=
  { items := [c6item "a4" 0, c6item "a5" 32, c6item "a6" 64],
    widthFill := Q.ofInt 96, maxHeight := Q.ofInt 40, depth := Q.ofInt 20,
    isFlatTop := true, subgroups := ["A"], reliability := 1 }

/-- The second leftover wall of Phase 2 on `c6cases` (a7 alone, fill 32,
ORPHAN). -/
def c6wallA2 : WPWall :=
  { items := [c6item "a7" 0],
    widthFill := Q.ofInt 32, maxHeight := Q.ofInt 40, depth := Q.ofInt 20,
    isFlatTop := true, subgroups := ["A"], reliability := 4 }

/-- The first full wall of Phase 2 on `c6cases` (a1–a3, fill 96). -/
def c6wallA3 : WPWall :=
  { items := [c6item "a1" 0, c6item "a2" 32, c6item "a3" 64],
    widthFill := Q.ofInt 96, maxHeight := Q.ofInt 40, depth := Q.ofInt 20,
    isFlatTop := true, subgroups := ["A"], reliability := 1 }

/-- The orphan pool Phase 2 leaves for the B group. -/
def c6poolB : WPInv :=
  { sg := "B", blockName := "B", w := Q.ofInt 8, d := Q.ofInt 20,
    h := Q.ofInt 40, rot := 0, stackable := false, maxStack := 1,
    stackedH := Q.ofInt 40, cases := [mkCase "b1" 8 20 40 "B"],
    dept := "GENERAL", isFloor := false, allowRotation := false }

set_option maxHeartbeats 1000000 in
/-- **C6 counterexample**.  After Phase 2 the wall reliabilities are
[FULL, ORPHAN, FULL] (tiers 1, 4, 1); Phase 2.5 gap-fills the tier-4
leftover wall and unconditionally overwrites its reliability with
TIGHT_FIT = 3 < 4: the tier decreases (a silent promotion), refuting
monotonicity. -/
theorem c6_reliability_promoted_by_gap_fill :
    ((phase2 (Q.ofInt 98) 300 (phase0 (Q.ofInt 98) c6cases)).map
      (fun p => p.1.map (·.reliability)) =
        some [relFULL, relORPHAN, relFULL]) ∧
    ((phase2 (Q.ofInt 98) 300 (phase0 (Q.ofInt 98) c6cases)).bind
      (fun p => (phase25 c6ctx 300 p.1 p.2).map
        (fun q => q.1.map (·.reliability))) =
        some [relFULL, relTIGHT, relFULL]) ∧
    relTIGHT < relORPHAN := by
  have h0 : phase0 (Q.ofInt 98) c6cases = [c6invA, c6invB] := by rfl
  have h2 : phase2 (Q.ofInt 98) 300 [c6invA, c6invB] =
      some ([c6wallA1, c6wallA2, c6wallA3], [c6poolB]) := by rfl
  refine ⟨?_, ?_, by decide⟩
  · rw [h0, h2]
    rfl
  · rw [h0, h2]
    rfl

/-! ## C7 — load-bar spacers between floor walls -/

/-- A concrete floor-panel case. -/
def mkFloor (nm : String) (w d h : ℤ) (grp : String) : Case :=
  { mkCase nm w d h grp with isFloor := true }

/-- The C7 failing input: two floor-panel groups of one panel each. -/
def c7cases : List Case :=
  [mkFloor "f1" 40 50 10 "F1", mkFloor "f2" 40 60 10 "F2"]

set_option maxHeartbeats 4000000 in
/-- **C7 counterexample**.  On two single-panel floor groups the two floor
walls are emitted back to back (`yEnd` of the first equals `yStart` of the
second): no 2-inch load-bar spacer separates this pair of consecutive floor
walls, because the code only inserts spacers between rows WITHIN one floor
group, never between groups. -/
theorem c7_adjacent_floor_walls_without_spacer :
    (wallPlannerSolve 300 c7cases cfg98).map (fun r =>
      r.wallSections.map (fun s => (s.id, s.yStart, s.yEnd))) =
      some [("wp_0", Q.ofInt 0, Q.ofInt 50),
            ("wp_1", Q.ofInt 50, Q.ofInt 110)] := by
  rfl

/-! ## C9 — InvalidCase handling -/

/-- The dimension-based skip decision of the sheet parser
(`parseSheetData`): after the resolved dimensions are known, the row is
skipped only when width, depth and height are ALL zero (any single zero in
universal mode merely logs a warning). -/
def sheetRowSkipDims (width depth height : Q) : Bool :=
  width.num = 0 && depth.num = 0 && height.num = 0

/-- The C9 failing input: a case of width 0. -/
def c9zeroW : Case := mkCase "z" 0 30 40 "Z"

set_option maxHeartbeats 4000000 in
/-- **C9 counterexample**.  A case whose width is 0 (≤ 0) is not skipped by
the solver: it is grouped, walled and emitted as a placement of width 0 —
no InvalidCase mechanism exists in the solver. -/
theorem c9_zero_width_case_still_placed :
    (wallPlannerSolve 300 [c9zeroW] cfg98).map (fun r =>
      r.placements.map (fun p => (p.name, p.width))) =
      some [("z", Q.ofInt 0)] ∧
    ¬ (0 : Q) < c9zeroW.width := by
  refine ⟨by rfl, by decide⟩

/-- A second invalid-dimension input (depth 0), used by the amended C9
statement. -/
def c9zeroD : Case := mkCase "zd" 30 0 40 "ZD"

set_option maxHeartbeats 4000000 in
/-- **C9 amended**.  (i) The only dimension-based skipping in the pipeline
is the sheet parser's, and it fires exactly when width, depth and height are
all zero; (ii) a row with just one zero dimension passes the parser; and
(iii) the solver itself never filters: a case of depth 0 is still placed
(as a placement of depth 0). -/
theorem c9_amended_only_parser_skips_all_zero_rows :
    (∀ w d h : Q, sheetRowSkipDims w d h = true ↔
      (w.num = 0 ∧ d.num = 0 ∧ h.num = 0)) ∧
    sheetRowSkipDims (Q.ofInt 0) (Q.ofInt 30) (Q.ofInt 40) = false ∧
    (wallPlannerSolve 300 [c9zeroD] cfg98).map (fun r =>
      r.placements.map (fun p => (p.name, p.depth))) =
      some [("zd", Q.ofInt 0)] := by
  refine ⟨fun w d h => ?_, by decide, by rfl⟩
  simp [sheetRowSkipDims, and_assoc]

/-! ## C4 — case conservation -/

/-- The C4 counterexample configuration: a (degenerate but terminating)
negative truck width. -/
def cfgNeg : WPConfig :=
  { truckWidth := Q.ofInt (-100), truckLength := Q.ofInt 240,
    truckHeight := Q.ofInt 110 }

/-- The C4 counterexample case: width −81, depth and height 10. -/
def c4negCase : Case := mkCase "neg" (-81) 10 10 "N"

set_option maxHeartbeats 4000000 in
/-- **C4 counterexample**.  The solver returns normally on `[c4negCase]`
(the leftover threshold test fails, so the group is pooled and the pool is
silently discarded when Phase 3D is skipped), yet emits zero placements for
the one input case — and the case is not an `InvalidCase`-skipped row (its
dimensions are not all zero), so the claim's exception clause does not
apply. -/
theorem c4_returned_case_vanishes :
    (wallPlannerSolve 300 [c4negCase] cfgNeg).map (fun r =>
      (r.placements.length, r.wallSections.length)) = some (0, 0) ∧
    sheetRowSkipDims c4negCase.width c4negCase.depth c4negCase.height =
      false := by
  refine ⟨by rfl, by decide⟩

/-! ## C8 — the rotation oracle -/

/-- The per-row fit of an orientation of leading width `w`: the items per
row `ipr = ⌊W / w⌋` and the filled width `fill = ipr · w`. -/
def perRowFit (W w : Q) : ℤ × Q :=
  (Q.floor (W / w), Q.ofInt (Q.floor (W / w)) * w)

/-- The rotation rule in the claim's words: prefer the orientation with
STRICTLY larger fill, breaking EXACT ties by larger `ipr`. -/
def bestRotationStrict (W : Q) (c : Case) : RotChoice :=
  if !c.allowRotation || decide (Q.abs (c.width - c.depth) < qhalf) then
    ⟨c.width, c.depth, c.rotation⟩
  else
    let fd := perRowFit W c.width
    let fr := perRowFit W c.depth
    if fd.2 < fr.2 ∨ (fr.2 = fd.2 ∧ fd.1 < fr.1) then
      ⟨c.depth, c.width, (c.rotation + 90) % 360⟩
    else ⟨c.width, c.depth, c.rotation⟩

/-- The rotation rule the code implements: rotated only when its fill
exceeds the default fill by MORE than 0.5 inch, with the ipr tie-break
applying whenever the two fills are within 0.5 inch of each other. -/
def bestRotationTol (W : Q) (c : Case) : RotChoice :=
  if !c.allowRotation || decide (Q.abs (c.width - c.depth) < qhalf) then
    ⟨c.width, c.depth, c.rotation⟩
  else
    let fd := perRowFit W c.width
    let fr := perRowFit W c.depth
    if fd.2 + qhalf < fr.2 ∨
        (Q.abs (fr.2 - fd.2) < qhalf ∧ fd.1 < fr.1) then
      ⟨c.depth, c.width, (c.rotation + 90) % 360⟩
    else ⟨c.width, c.depth, c.rotation⟩

/-- The C8 counterexample case: 32 × 48.15, rotation allowed.  Unrotated:
3 per row, fill 96; rotated: 2 per row, fill 96.3 — strictly larger but
within the 0.5-inch tolerance, and the rotated ipr is smaller. -/
def c8case : Case :=
  { nom := "r", name := "r", width := Q.ofInt 32, depth := ⟨963, 20⟩,
    height := Q.ofInt 40, dept := "GENERAL", group := "R", subgroup := "R",
    allowRotation := true }

/-- **C8 counterexample**.  On `c8case` the rotated fill is strictly larger
(96.3 > 96), so the claim's strict-preference rule rotates, but
`wpBestRotation` keeps the case unrotated: the code compares fills with a
0.5-inch tolerance the claim omits. -/
theorem c8_strict_fill_preference_refuted :
    wpBestRotation (Q.ofInt 98) c8case ≠ bestRotationStrict (Q.ofInt 98) c8case ∧
    (perRowFit (Q.ofInt 98) c8case.width).2 <
      (perRowFit (Q.ofInt 98) c8case.depth).2 ∧
    (wpBestRotation (Q.ofInt 98) c8case).rot = 0 ∧
    (bestRotationStrict (Q.ofInt 98) c8case).rot = 90 := by
  refine ⟨by decide, by decide, by decide, by decide⟩

/-- **C8 amended**.  The oracle returns the case unrotated when rotation is
disallowed or |w − d| < 0.5; otherwise it prefers the rotated orientation
exactly when the rotated fill exceeds the default fill by more than 0.5
inch, or the two fills differ by less than 0.5 inch and the rotated ipr is
strictly larger. -/
theorem c8_amended_rotation_uses_half_inch_tolerance (W : Q) (c : Case) :
    wpBestRotation W c = bestRotationTol W c := rfl

/-! ## C6 amended — where reliability IS taken as a max -/

/-- The reliability of the wall at position `k` of a wall list (0 when out
of range). -/
def wallRelAt (l : List WPWall) (k : ℕ) : ℕ :=
  ((l[k]?).getD default).reliability

theorem wallRelAt_set_ge (l : List WPWall) (ti : ℕ) (t' : WPWall)
    (h : wallRelAt l ti ≤ t'.reliability) (k : ℕ) :
    wallRelAt l k ≤ wallRelAt (l.set ti t') k := by
  unfold wallRelAt at *
  by_cases hik : ti = k
  · subst hik
    by_cases hlen : ti < l.length
    · rw [List.getElem?_set_self hlen]
      exact h
    · rw [List.getElem?_set, if_pos rfl, if_neg hlen,
        List.getElem?_eq_none (Nat.le_of_not_lt hlen)]
  · rw [List.getElem?_set_ne hik]

/-- **C6 amended**.  The reliability updates of Phase 3C absorption and of
the weak-wall merge never decrease a wall's tier: Phase 3C assigns
`max(current, MIXED)` to the target wall, and a merge chain starting from a
wall of tier ≤ MIXED only raises the accreted wall's tier.  (Phase 2.5
gap-fill is the exception, refuted by `c6_reliability_promoted_by_gap_fill`:
it overwrites the tier with TIGHT_FIT unconditionally.) -/
theorem c6_amended_absorb_and_merge_never_promote :
    (∀ (W : Q) (st : List WPWall × List WPWall) (item : WPItem)
        (ts : List (Bool × ℕ)) (k : ℕ),
      wallRelAt st.1 k ≤ wallRelAt (absorbItem W st item ts).1.1 k ∧
      wallRelAt st.2 k ≤ wallRelAt (absorbItem W st item ts).1.2 k) ∧
    (∀ (ctx : Ctx) (ac : Bool) (rest : List (ℕ × WPWall)) (fuel : ℕ)
        (current : WPWall) (used : List ℕ) (out : WPWall × List ℕ),
      (ac = true → current.reliability ≤ relMIXED) →
      mergeAccrete ctx ac rest fuel current used = some out →
      current.reliability ≤ out.1.reliability) := by
  constructor
  · intro W st item ts
    induction ts generalizing st with
    | nil => intro k; exact ⟨Nat.le_refl _, Nat.le_refl _⟩
    | cons hd rest ih =>
      intro k
      obtain ⟨isO, ti⟩ := hd
      rw [absorbItem]
      cases isO with
      | true =>
        rw [if_pos rfl]
        split
        · exact ih st k
        · split
          · exact ih st k
          · exact ⟨wallRelAt_set_ge _ _ _ (le_max_left _ _) k, Nat.le_refl _⟩
      | false =>
        rw [if_neg Bool.false_ne_true]
        split
        · exact ih st k
        · split
          · exact ih st k
          · exact ⟨Nat.le_refl _, wallRelAt_set_ge _ _ _ (le_max_left _ _) k⟩
  · intro ctx ac rest fuel
    induction fuel with
    | zero =>
      intro current used out h5 hm
      rw [mergeAccrete] at hm
      split at hm
      · obtain rfl := Option.some_inj.mp hm
        exact Nat.le_refl _
      · exact absurd hm (by simp)
    | succ f ih =>
      intro current used out h5 hm
      rw [mergeAccrete] at hm
      split at hm
      · obtain rfl := Option.some_inj.mp hm
        exact Nat.le_refl _
      · rename_i bj wb hbest
        refine Nat.le_trans ?_ (ih _ _ _ ?_ hm)
        · cases ac with
          | true => simpa using h5 rfl
          | false =>
            simp only [Bool.false_eq_true, if_false]
            by_cases h0 : current.reliability = 0
            · rw [h0]
              exact Nat.zero_le _
            · rw [if_neg h0]
              exact Nat.le_max_left _ _
        · intro hac
          subst hac
          simp [relMIXED]

/-- Witness for the amended C6 statement: a concrete absorb step and a
concrete (empty) merge accretion. -/
theorem c6_amended_witness :
    (wallRelAt [c6wallA2] 0 ≤
      wallRelAt (absorbItem (Q.ofInt 98) ([c6wallA2], [])
        (c6item "a7" 0) []).1.1 0) ∧
    c6wallA2.reliability ≤
      ((mergeAccrete c6ctx true [] 1 c6wallA2 []).getD
        (c6wallA2, [])).1.reliability := by
  constructor
  · exact (c6_amended_absorb_and_merge_never_promote.1 (Q.ofInt 98)
      ([c6wallA2], []) (c6item "a7" 0) [] 0).1
  · exact c6_amended_absorb_and_merge_never_promote.2 c6ctx true [] 1
      c6wallA2 []
      ((mergeAccrete c6ctx true [] 1 c6wallA2 []).getD (c6wallA2, []))
      (fun _ => by decide) (by rfl)

/-! ## C7 amended — spacers within a floor group -/

/-- Spec-side shape of one floor group's wall list: real walls alternating
with single load-bar spacers, starting and ending with a real wall (so
never a trailing spacer). -/
def floorAltOk : List WPWall → Bool
  | [] => true
  | [w] => !w.isLoadBar
  | w :: b :: rest =>
    !w.isLoadBar && b.isLoadBar && !rest.isEmpty && floorAltOk rest

/-- One-step unfolding of `phase15Group` (stated once so the claim proofs
can rewrite with it). -/
theorem phase15Group_unfold (W : Q) (fInv : WPInv) (fuel : ℕ)
    (cs : List Case) :
    phase15Group W fInv fuel cs =
      if cs.isEmpty then some []
      else
        match fuel with
        | 0 => none
        | fuel' + 1 =>
          let perRow := (Q.floor (W / fInv.w)).toNat
          let taken := cs.take perRow
          let rest := cs.drop perRow
          let rowRes := floorRow fInv taken
          let wall : WPWall :=
            { items := rowRes.2, widthFill := rowRes.1, maxHeight := fInv.h,
              depth := fInv.d, isFlatTop := true, subgroups := [fInv.sg],
              reliability := relFULL }
          (phase15Group W fInv fuel' rest).map (fun tail =>
            if rest.isEmpty then wall :: tail
            else wall :: loadBarWall :: tail) := by
  cases fuel with
  | zero => rfl
  | succ f => rfl

theorem phase15Group_some_ne_nil (W : Q) (fInv : WPInv) (fuel : ℕ)
    (cs : List Case) (walls : List WPWall) (hcs : cs ≠ [])
    (h : phase15Group W fInv fuel cs = some walls) : walls ≠ [] := by
  have hcs' : cs.isEmpty = false := by
    cases cs with
    | nil => exact absurd rfl hcs
    | cons a l => rfl
  rw [phase15Group_unfold, hcs'] at h
  simp only [Bool.false_eq_true, if_false] at h
  cases fuel with
  | zero => exact absurd h (by simp)
  | succ f =>
    obtain ⟨tail, htail, hw⟩ := Option.map_eq_some'.mp h
    rw [← hw]
    split <;> simp

/-- The C7 amended-scenario input: one floor group of three panels (two per
row, so two rows with a spacer between them) plus one ordinary case. -/
def c7amCases : List Case :=
  [mkFloor "g1" 40 50 10 "G", mkFloor "g2" 40 50 10 "G",
   mkFloor "g3" 40 50 10 "G", mkCase "r1" 90 30 40 "R"]

set_option maxHeartbeats 1000000 in
/-- **C7 amended**.  (i) Within one floor-panel group, the emitted walls
alternate wall/spacer/wall/…/wall: a load-bar spacer stands between
consecutive rows of the SAME group and never after the group's last row
(spacers between walls of different groups do not exist, refuted by
`c7_adjacent_floor_walls_without_spacer`).  (ii) Concretely, floor walls
still come first from y = 0 and the spacer consumes its 2 inches of depth
while emitting neither a section nor a placement: three panels of group G
give rows at y ∈ [0,50) and [52,102) and the ordinary wall follows at
y = 102. -/
theorem c7_amended_spacers_within_groups (W : Q) (fInv : WPInv) :
    (∀ (fuel : ℕ) (cs : List Case) (walls : List WPWall),
      phase15Group W fInv fuel cs = some walls →
        floorAltOk walls = true) ∧
    (wallPlannerSolve 300 c7amCases cfg98).map (fun r =>
      (r.wallSections.map (fun s => (s.id, s.yStart, s.yEnd)),
       r.placements.map (fun p => (p.name, p.y)))) =
      some ([("wp_0", Q.ofInt 0, Q.ofInt 50),
             ("wp_1", Q.ofInt 52, Q.ofInt 102),
             ("wp_2", Q.ofInt 102, Q.ofInt 132)],
            [("g1", Q.ofInt 0), ("g2", Q.ofInt 0), ("g3", Q.ofInt 52),
             ("r1", Q.ofInt 102)]) := by
  constructor
  · intro fuel
    induction fuel with
    | zero =>
      intro cs walls h
      rw [phase15Group_unfold] at h
      by_cases hcs : cs.isEmpty
      · rw [if_pos hcs] at h
        obtain rfl := Option.some_inj.mp h
        rfl
      · rw [if_neg hcs] at h
        exact absurd h (by simp)
    | succ f ih =>
      intro cs walls h
      rw [phase15Group_unfold] at h
      by_cases hcs : cs.isEmpty
      · rw [if_pos hcs] at h
        obtain rfl := Option.some_inj.mp h
        rfl
      · rw [if_neg hcs] at h
        obtain ⟨tail, htail, hw⟩ := Option.map_eq_some'.mp h
        by_cases hrest : (cs.drop (Q.floor (W / fInv.w)).toNat).isEmpty
        · rw [if_pos hrest] at hw
          have ht : tail = [] := by
            rw [phase15Group_unfold] at htail
            rw [if_pos hrest] at htail
            exact (Option.some_inj.mp htail).symm
          subst ht
          rw [← hw]
          rfl
        · rw [if_neg hrest] at hw
          have htne : tail ≠ [] :=
            phase15Group_some_ne_nil W fInv f _ tail
              (by simpa using hrest) htail
          have h2 : tail.isEmpty = false := by
            cases tail with
            | nil => exact absurd rfl htne
            | cons a l => rfl
          rw [← hw]
          simp [floorAltOk, loadBarWall, h2, ih _ tail htail]
  · rfl

/-- A concrete one-panel floor group used by the C7 witness. -/
def c7invF1 : WPInv :=
  { sg := "F1", blockName := "F1", w := Q.ofInt 40, d := Q.ofInt 50,
    h := Q.ofInt 10, rot := 0, stackable := false, maxStack := 1,
    stackedH := Q.ofInt 10, cases := [mkFloor "f1" 40 50 10 "F1"],
    dept := "GENERAL", isFloor := true, allowRotation := false }

/-- Witness for the amended C7 statement at a concrete floor group. -/
theorem c7_amended_witness :
    floorAltOk ((phase15Group (Q.ofInt 98) c7invF1 5 c7invF1.cases).getD []) =
      true :=
  (c7_amended_spacers_within_groups (Q.ofInt 98) c7invF1).1 5 c7invF1.cases
    ((phase15Group (Q.ofInt 98) c7invF1 5 c7invF1.cases).getD []) (by rfl)

/-! ## C3 — the Phase 4 score formula and wall order -/

/-- §4.9 of the specification, literally: `relGroup = min(reliability, 4)`
and no guard on the column list (an empty wall has height range 0). -/
def specWallScore (ctx : Ctx) (w : WPWall) : Q :=
  let fillRatio : Q := min (w.widthFill / ctx.W) (Q.ofInt 1)
  let effectiveH : Q := w.maxHeight * fillRatio
  let heightInv : ℤ := Q.round (Q.ofInt 100 - effectiveH)
  let deptPri : Q := dpLookup ctx.deptPriority (wpWallDept ctx.cases w)
  let relGroup : ℕ := min w.reliability 4
  let score : Q := Q.ofInt (heightInv * 100) + deptPri * Q.ofInt 4 +
    Q.ofInt relGroup
  let heights := w.items.map (·.stackedH)
  let heightRange := listMax heights - listMin heights
  let score :=
    if Q.ofInt 10 < heightRange then
      score + Q.ofInt (Q.round (heightRange / thOr110 ctx * Q.ofInt 3000))
    else score
  let score := score - Q.ofInt ((min w.items.length 4 : ℕ) * 50)
  let score :=
    if w.items.length ≤ 2 ∧ fillRatio < ⟨9, 10⟩ then score + Q.ofInt 2000
    else score
  if fillRatio < qhalf then score + Q.ofInt 5000 else score

/-- The spec's wall order: ascending score, ties broken by ascending
department priority, then by descending (raw) fill ratio.  Ties are numeric
(`Q.eqb`), as JS number equality is. -/
def specWallOrder (ctx : Ctx) (a b : WPWall) : Prop :=
  specWallScore ctx a < specWallScore ctx b ∨
  ((specWallScore ctx a).eqb (specWallScore ctx b) = true ∧
    (dpLookup ctx.deptPriority (wpWallDept ctx.cases a) <
        dpLookup ctx.deptPriority (wpWallDept ctx.cases b) ∨
      ((dpLookup ctx.deptPriority (wpWallDept ctx.cases a)).eqb
          (dpLookup ctx.deptPriority (wpWallDept ctx.cases b)) = true ∧
        b.widthFill / ctx.W ≤ a.widthFill / ctx.W)))

/-- On walls of reliability ≥ 1 the code's score is the spec's formula. -/
theorem wpWallScore_eq_spec (ctx : Ctx) (w : WPWall)
    (h : 1 ≤ w.reliability) : wpWallScore ctx w = specWallScore ctx w := by
  obtain ⟨items, wf, mh, dep, ft, sg, rel, lb⟩ := w
  have h1 : 1 ≤ rel := h
  simp only [wpWallScore, specWallScore]
  rw [if_neg (by omega : ¬ rel = 0)]
  have hrg : (if rel ≤ 3 then rel else 4) = min rel 4 := by
    split <;> omega
  rw [hrg]
  cases items with
  | nil =>
    rw [if_neg (by decide : ¬ ([] : List WPItem).length > 0)]
    rw [if_neg (by decide :
      ¬ Q.ofInt 10 < listMax (([] : List WPItem).map (·.stackedH)) -
        listMin (([] : List WPItem).map (·.stackedH)))]
  | cons it rest =>
    rw [if_pos (by simp : (it :: rest).length > 0)]

/-- `phase4SortLe` as a lexicographic comparison of rational keys. -/
theorem phase4SortLe_iff (ctx : Ctx) (a b : WPWall) :
    phase4SortLe ctx a b = true ↔
      ((wpWallScore ctx a).toRat < (wpWallScore ctx b).toRat ∨
        ((wpWallScore ctx a).toRat = (wpWallScore ctx b).toRat ∧
          ((dpLookup ctx.deptPriority (wpWallDept ctx.cases a)).toRat <
              (dpLookup ctx.deptPriority (wpWallDept ctx.cases b)).toRat ∨
            ((dpLookup ctx.deptPriority (wpWallDept ctx.cases a)).toRat =
                (dpLookup ctx.deptPriority (wpWallDept ctx.cases b)).toRat ∧
              (b.widthFill / ctx.W).toRat ≤ (a.widthFill / ctx.W).toRat)))) := by
  unfold phase4SortLe
  by_cases h1 : (wpWallScore ctx a).eqb (wpWallScore ctx b) = true
  · rw [if_pos h1]
    have he1 := (Q.eqb_iff_toRat _ _).mp h1
    by_cases h2 : (dpLookup ctx.deptPriority (wpWallDept ctx.cases a)).eqb
        (dpLookup ctx.deptPriority (wpWallDept ctx.cases b)) = true
    · rw [if_pos h2]
      have he2 := (Q.eqb_iff_toRat _ _).mp h2
      rw [decide_eq_true_eq, Q.le_iff_toRat]
      constructor
      · intro hle
        exact Or.inr ⟨he1, Or.inr ⟨he2, hle⟩⟩
      · rintro (hlt | ⟨-, hlt | ⟨-, hle⟩⟩)
        · exact absurd he1 (ne_of_lt hlt)
        · exact absurd he2 (ne_of_lt hlt)
        · exact hle
    · rw [if_neg h2]
      have hne2 : (dpLookup ctx.deptPriority (wpWallDept ctx.cases a)).toRat ≠
          (dpLookup ctx.deptPriority (wpWallDept ctx.cases b)).toRat :=
        fun he => h2 ((Q.eqb_iff_toRat _ _).mpr he)
      rw [decide_eq_true_eq, Q.lt_iff_toRat]
      constructor
      · intro hlt
        exact Or.inr ⟨he1, Or.inl hlt⟩
      · rintro (hlt | ⟨-, hlt | ⟨he2, -⟩⟩)
        · exact absurd he1 (ne_of_lt hlt)
        · exact hlt
        · exact absurd he2 hne2
  · rw [if_neg h1]
    have hne1 : (wpWallScore ctx a).toRat ≠ (wpWallScore ctx b).toRat :=
      fun he => h1 ((Q.eqb_iff_toRat _ _).mpr he)
    rw [decide_eq_true_eq, Q.lt_iff_toRat]
    constructor
    · intro hlt
      exact Or.inl hlt
    · rintro (hlt | ⟨he1, -⟩)
      · exact hlt
      · exact absurd he1 hne1

theorem phase4SortLe_total (ctx : Ctx) (a b : WPWall) :
    (phase4SortLe ctx a b || phase4SortLe ctx b a) = true := by
  rw [Bool.or_eq_true, phase4SortLe_iff, phase4SortLe_iff]
  rcases lt_trichotomy (wpWallScore ctx a).toRat (wpWallScore ctx b).toRat
    with hs | hs | hs
  · exact Or.inl (Or.inl hs)
  · rcases lt_trichotomy
        (dpLookup ctx.deptPriority (wpWallDept ctx.cases a)).toRat
        (dpLookup ctx.deptPriority (wpWallDept ctx.cases b)).toRat
      with hd | hd | hd
    · exact Or.inl (Or.inr ⟨hs, Or.inl hd⟩)
    · rcases le_total ((b.widthFill / ctx.W).toRat)
          ((a.widthFill / ctx.W).toRat) with hf | hf
      · exact Or.inl (Or.inr ⟨hs, Or.inr ⟨hd, hf⟩⟩)
      · exact Or.inr (Or.inr ⟨hs.symm, Or.inr ⟨hd.symm, hf⟩⟩)
    · exact Or.inr (Or.inr ⟨hs.symm, Or.inl hd⟩)
  · exact Or.inr (Or.inl hs)

theorem phase4SortLe_trans (ctx : Ctx) (a b c : WPWall)
    (hab : phase4SortLe ctx a b = true) (hbc : phase4SortLe ctx b c = true) :
    phase4SortLe ctx a c = true := by
  rw [phase4SortLe_iff] at hab hbc ⊢
  rcases hab with hab | ⟨hsab, hab⟩
  · rcases hbc with hbc | ⟨hsbc, hbc⟩
    · exact Or.inl (lt_trans hab hbc)
    · exact Or.inl (lt_of_lt_of_le hab (le_of_eq hsbc))
  · rcases hbc with hbc | ⟨hsbc, hbc⟩
    · exact Or.inl (lt_of_le_of_lt (le_of_eq hsab) hbc)
    · refine Or.inr ⟨hsab.trans hsbc, ?_⟩
      rcases hab with hab | ⟨hdab, hab⟩
      · rcases hbc with hbc | ⟨hdbc, hbc⟩
        · exact Or.inl (lt_trans hab hbc)
        · exact Or.inl (lt_of_lt_of_le hab (le_of_eq hdbc))
      · rcases hbc with hbc | ⟨hdbc, hbc⟩
        · exact Or.inl (lt_of_le_of_lt (le_of_eq hdab) hbc)
        · exact Or.inr ⟨hdab.trans hdbc, le_trans hbc hab⟩

/-- **C3** (confirmed, for walls with a set reliability tier — every wall
the pipeline builds has reliability ≥ 1; for `reliability = 0` the code
substitutes 99 before grouping, which the spec formula does not mention).
The Phase 4 score equals the spec's §4.9 formula coefficient for
coefficient, and the sorted wall list is ordered by the spec's comparison:
ascending score, ties by ascending department priority, then descending
fill ratio. -/
theorem c3_score_formula_and_wall_order (ctx : Ctx) (walls : List WPWall)
    (h : ∀ w ∈ walls, 1 ≤ w.reliability) :
    (∀ w ∈ walls, wpWallScore ctx w = specWallScore ctx w) ∧
    (isortBy (phase4SortLe ctx) walls).Pairwise (specWallOrder ctx) := by
  refine ⟨fun w hw => wpWallScore_eq_spec ctx w (h w hw), ?_⟩
  have hp : (isortBy (phase4SortLe ctx) walls).Pairwise
      (fun a b => phase4SortLe ctx a b = true) :=
    isortBy_pairwise (phase4SortLe ctx) (phase4SortLe_total ctx)
      (phase4SortLe_trans ctx) walls
  have hmem : ∀ w ∈ isortBy (phase4SortLe ctx) walls, 1 ≤ w.reliability :=
    fun w hw => h w ((isortBy_perm (phase4SortLe ctx) walls).subset hw)
  refine hp.imp_of_mem ?_
  intro a b ha hb hab
  have hsa := wpWallScore_eq_spec ctx a (hmem a ha)
  have hsb := wpWallScore_eq_spec ctx b (hmem b hb)
  unfold specWallOrder
  rw [← hsa, ← hsb]
  rw [phase4SortLe_iff] at hab
  rcases hab with hab | ⟨hs, hab⟩
  · exact Or.inl ((Q.lt_iff_toRat _ _).mpr hab)
  · refine Or.inr ⟨(Q.eqb_iff_toRat _ _).mpr hs, ?_⟩
    rcases hab with hab | ⟨hd, hab⟩
    · exact Or.inl ((Q.lt_iff_toRat _ _).mpr hab)
    · exact Or.inr ⟨(Q.eqb_iff_toRat _ _).mpr hd,
        (Q.le_iff_toRat _ _).mpr hab⟩

/-- The C3 witness context and walls. -/
def c3ctx : Ctx :=
  { cases := []
    W := Q.ofInt 98
    deptPriority := [("A", Q.ofInt 1)]
    truckHeight := Q.ofInt 110
    truckLength := Q.ofInt 240 }

def c3wallX : WPWall :=
  { items := [], widthFill := Q.ofInt 90, maxHeight := Q.ofInt 40,
    depth := Q.ofInt 20, isFlatTop := true, subgroups := ["A"],
    reliability := 1 }

def c3wallY : WPWall :=
  { items := [], widthFill := Q.ofInt 50, maxHeight := Q.ofInt 30,
    depth := Q.ofInt 20, isFlatTop := true, subgroups := ["A"],
    reliability := 4 }

/-- Witness for C3 at two concrete walls. -/
theorem c3_witness :
    (∀ w ∈ [c3wallX, c3wallY], 1 ≤ w.reliability) ∧
    ((∀ w ∈ [c3wallX, c3wallY],
        wpWallScore c3ctx w = specWallScore c3ctx w) ∧
      (isortBy (phase4SortLe c3ctx) [c3wallX, c3wallY]).Pairwise
        (specWallOrder c3ctx)) :=
  ⟨by decide, c3_score_formula_and_wall_order c3ctx [c3wallX, c3wallY]
    (by decide)⟩

/-! ## C10 — placements are the concatenation of the sections' placements,
and wall ids are unique -/

theorem mkWallId_inj : Function.Injective mkWallId := by
  intro m n h
  have h2 : "wp_".data ++ (natRepr m).data = "wp_".data ++ (natRepr n).data :=
    congrArg String.data h
  exact natRepr_inj (String.ext (List.append_cancel_left h2))

/-- Every placement-case pair the Phase 5 item emitter adds carries the
wall id of its wall. -/
theorem phase5Item_fold_wallId (ctx : Ctx) (wallId : String) (si : ℤ)
    (yPos : Q) (items : List WPItem) :
    ∀ (st : Q × List (Placement × Case) × List SpillItem × Q),
      (∀ pr ∈ st.2.1, (pr : Placement × Case).1.wallId = wallId) →
      ∀ pr ∈ (items.foldl (phase5Item ctx wallId si yPos) st).2.1,
        pr.1.wallId = wallId := by
  induction items with
  | nil => intro st h pr hpr; exact h pr hpr
  | cons it rest ih =>
    intro st h pr hpr
    rw [List.foldl_cons] at hpr
    refine ih _ ?_ pr hpr
    intro q hq
    simp only [phase5Item] at hq
    split at hq
    · exact h q hq
    · rcases List.mem_append.mp hq with hq' | hq'
      · exact h q hq'
      · obtain ⟨p, hp, rfl⟩ := List.mem_map.mp hq'
        rfl

/-- One-step unfolding of `phase5Walls` on a cons cell. -/
theorem phase5Walls_cons (ctx : Ctx) (si : ℤ) (wall : WPWall)
    (rest : List (ℤ × WPWall)) (yPos : Q) (wallIdx : ℕ) :
    phase5Walls ctx ((si, wall) :: rest) yPos wallIdx =
      if wall.isLoadBar then
        phase5Walls ctx rest (yPos + wall.depth) wallIdx
      else
        let wallId := mkWallId wallIdx
        let r := wall.items.foldl (phase5Item ctx wallId si yPos)
          ((0 : Q), [], [], (0 : Q))
        let cumulX := r.1
        let pairs := r.2.1
        let spills := r.2.2.1
        let actualMaxDepth := r.2.2.2
        let wallDepth := max wall.depth actualMaxDepth
        let yEnd := yPos + wallDepth
        let actualFillWidth := max cumulX wall.widthFill
        let sec : WallSection :=
          { id := wallId
            label := joinSep " + " wall.subgroups
            sectionTag := "Stage " ++ natRepr si.toNat
            yStart := yPos
            yEnd := yEnd
            wallWidth := Q.round actualFillWidth
            fillPct := Q.round (actualFillWidth / ctx.W * Q.ofInt 100)
            placements := pairs.map (·.1)
            status := "pending"
            caseCount := pairs.length
            depth := Q.round wall.depth }
        let rr := phase5Walls ctx rest yEnd (wallIdx + 1)
        (pairs ++ rr.1, sec :: rr.2.1, spills ++ rr.2.2.1,
          rr.2.2.2.1, rr.2.2.2.2) := rfl

/-- Structural invariants of the Phase 5 emission: the flat pair list is
the concatenation of the sections' placement lists in order, every
placement carries its section's id, the section ids are consecutive
`mkWallId`s from the starting index, and the final wall counter advanced by
the number of sections. -/
theorem phase5Walls_spec (ctx : Ctx) (ws : List (ℤ × WPWall)) :
    ∀ (yPos : Q) (wi : ℕ),
      ((phase5Walls ctx ws yPos wi).1.map Prod.fst =
        (phase5Walls ctx ws yPos wi).2.1.flatMap (·.placements)) ∧
      (∀ s ∈ (phase5Walls ctx ws yPos wi).2.1, ∀ p ∈ s.placements,
        p.wallId = s.id) ∧
      ((phase5Walls ctx ws yPos wi).2.1.map (·.id) =
        (List.range' wi (phase5Walls ctx ws yPos wi).2.1.length).map
          mkWallId) ∧
      (phase5Walls ctx ws yPos wi).2.2.2.2 =
        wi + (phase5Walls ctx ws yPos wi).2.1.length := by
  induction ws with
  | nil =>
    intro yPos wi
    exact ⟨rfl, fun s hs => absurd hs (List.not_mem_nil s), rfl, rfl⟩
  | cons sw rest ih =>
    intro yPos wi
    obtain ⟨si, wall⟩ := sw
    rw [phase5Walls_cons]
    by_cases hlb : wall.isLoadBar
    · rw [if_pos hlb]
      exact ih (yPos + wall.depth) wi
    · rw [if_neg hlb]
      obtain ⟨ih1, ih2, ih3, ih4⟩ := ih
        (yPos + max wall.depth
          ((wall.items.foldl (phase5Item ctx (mkWallId wi) si yPos)
            ((0 : Q), [], [], (0 : Q))).2.2.2)) (wi + 1)
      refine ⟨?_, ?_, ?_, ?_⟩
      · show ((wall.items.foldl (phase5Item ctx (mkWallId wi) si yPos)
            ((0 : Q), [], [], (0 : Q))).2.1 ++ _).map Prod.fst = _
        rw [List.map_append, ih1]
        rfl
      · intro s hs p hp
        rcases List.mem_cons.mp hs with rfl | hs'
        · obtain ⟨pr, hpr, rfl⟩ := List.mem_map.mp hp
          exact phase5Item_fold_wallId ctx (mkWallId wi) si yPos wall.items
            ((0 : Q), [], [], (0 : Q)) (fun q hq => absurd hq
              (List.not_mem_nil q)) pr hpr
        · exact ih2 s hs' p hp
      · show mkWallId wi :: _ = _
        rw [ih3]
        show _ = (List.range' wi
          ((phase5Walls ctx rest _ (wi + 1)).2.1.length + 1)).map mkWallId
        rw [List.range'_succ]
        rfl
      · show (phase5Walls ctx rest _ (wi + 1)).2.2.2.2 = _
        rw [ih4]
        show wi + 1 + _ = wi + (_ + 1)
        omega

/-- Every placement the Phase 5B step fold emits carries the round's wall
id. -/
theorem phase5BStep_fold_wallId (ctx : Ctx) (wallId : String) (yPos : Q)
    (l : List (ℕ × SpillItem)) :
    ∀ (st : Q × List (Placement × Case) × List ℕ × Q),
      (∀ pr ∈ st.2.1, (pr : Placement × Case).1.wallId = wallId) →
      ∀ pr ∈ (l.foldl (phase5BStep ctx wallId yPos) st).2.1,
        pr.1.wallId = wallId := by
  induction l with
  | nil => intro st h pr hpr; exact h pr hpr
  | cons p rest ih =>
    intro st h pr hpr
    rw [List.foldl_cons] at hpr
    refine ih _ ?_ pr hpr
    intro q hq
    simp only [phase5BStep] at hq
    split at hq
    · exact h q hq
    · rcases List.mem_append.mp hq with hq' | hq'
      · exact h q hq'
      · rcases List.mem_singleton.mp hq' with rfl
        rfl

/-- Every placement the Phase 5B pass emits carries the round's wall id. -/
theorem phase5BPass_wallId (ctx : Ctx) (wallId : String) (yPos : Q)
    (items : List SpillItem) :
    ∀ pr ∈ (phase5BPass ctx wallId yPos items).2.1,
      (pr : Placement × Case).1.wallId = wallId :=
  phase5BStep_fold_wallId ctx wallId yPos (withIdx 0 items)
    ((0 : Q), [], [], (0 : Q))
    (fun q hq => absurd hq (List.not_mem_nil q))

/-- One-step unfolding of `phase5BBucket` at fuel 0. -/
theorem phase5BBucket_unfold_zero (ctx : Ctx) (items : List SpillItem)
    (yPos : Q) (wallIdx : ℕ) :
    phase5BBucket ctx 0 items yPos wallIdx =
      if items.isEmpty then some ([], [], yPos, wallIdx) else none := rfl

/-- One-step unfolding of `phase5BBucket` at positive fuel. -/
theorem phase5BBucket_unfold_succ (ctx : Ctx) (fuel' : ℕ)
    (items : List SpillItem) (yPos : Q) (wallIdx : ℕ) :
    phase5BBucket ctx (fuel' + 1) items yPos wallIdx =
      if items.isEmpty then some ([], [], yPos, wallIdx)
      else
        let wallId := mkWallId wallIdx
        let r := phase5BPass ctx wallId yPos items
        let x := r.1
        let pairs := r.2.1
        let placed := r.2.2.1
        let maxD := r.2.2.2
        if pairs.isEmpty then some ([], [], yPos, wallIdx + 1)
        else
          let remaining := ((withIdx 0 items).filter
            (fun p => p.1 ∉ placed)).map (·.2)
          let yEnd := yPos + maxD
          let sec : WallSection :=
            { id := wallId
              label := "Spillover"
              sectionTag := "SPILLOVER"
              yStart := yPos
              yEnd := yEnd
              wallWidth := Q.round x
              fillPct := Q.round (x / ctx.W * Q.ofInt 100)
              placements := pairs.map (·.1)
              status := "pending"
              caseCount := pairs.length
              depth := Q.round maxD }
          (phase5BBucket ctx fuel' remaining yEnd (wallIdx + 1)).bind
            (fun rr =>
              some (pairs ++ rr.1, sec :: rr.2.1, rr.2.2.1, rr.2.2.2)) :=
  rfl

/-- Structural invariants of one Phase 5B bucket: concatenation, id
matching, and the section ids are strictly increasing `mkWallId`s bounded
by the starting and final wall counters. -/
theorem phase5BBucket_spec (ctx : Ctx) :
    ∀ (fuel : ℕ) (items : List SpillItem) (yPos : Q) (wi : ℕ)
      (r : List (Placement × Case) × List WallSection × Q × ℕ),
      phase5BBucket ctx fuel items yPos wi = some r →
      (r.1.map Prod.fst = r.2.1.flatMap (·.placements)) ∧
      (∀ s ∈ r.2.1, ∀ p ∈ s.placements, p.wallId = s.id) ∧
      (∃ idxs : List ℕ, r.2.1.map (·.id) = idxs.map mkWallId ∧
        idxs.Pairwise (· < ·) ∧ (∀ i ∈ idxs, wi ≤ i ∧ i < r.2.2.2) ∧
        wi ≤ r.2.2.2) := by
  intro fuel
  induction fuel with
  | zero =>
    intro items yPos wi r h
    rw [phase5BBucket_unfold_zero] at h
    split at h
    · obtain rfl := (Option.some_inj.mp h).symm
      exact ⟨rfl, fun s hs => absurd hs (List.not_mem_nil s),
        [], rfl, List.Pairwise.nil,
        fun i hi => absurd hi (List.not_mem_nil i), Nat.le_refl wi⟩
    · exact absurd h (by simp)
  | succ f ih =>
    intro items yPos wi r h
    rw [phase5BBucket_unfold_succ] at h
    split at h
    · obtain rfl := (Option.some_inj.mp h).symm
      exact ⟨rfl, fun s hs => absurd hs (List.not_mem_nil s),
        [], rfl, List.Pairwise.nil,
        fun i hi => absurd hi (List.not_mem_nil i), Nat.le_refl wi⟩
    · simp only [] at h
      split at h
      · obtain rfl := (Option.some_inj.mp h).symm
        exact ⟨rfl, fun s hs => absurd hs (List.not_mem_nil s),
          [], rfl, List.Pairwise.nil,
          fun i hi => absurd hi (List.not_mem_nil i), Nat.le_succ wi⟩
      · obtain ⟨rr, hrr, hr⟩ := Option.bind_eq_some.mp h
        obtain rfl := (Option.some_inj.mp hr).symm
        obtain ⟨ih1, ih2, idxs, hids, hpw, hbd, hle⟩ := ih _ _ _ rr hrr
        refine ⟨?_, ?_, wi :: idxs, ?_, ?_, ?_, ?_⟩
        · rw [List.map_append, ih1]
          rfl
        · intro s hs p hp
          rcases List.mem_cons.mp hs with rfl | hs'
          · obtain ⟨pr, hpr, rfl⟩ := List.mem_map.mp hp
            exact phase5BPass_wallId ctx (mkWallId wi) yPos items pr hpr
          · exact ih2 s hs' p hp
        · show mkWallId wi :: _ = _
          rw [hids]
          rfl
        · exact List.Pairwise.cons (fun j hj => (hbd j hj).1) hpw
        · intro i hi
          rcases List.mem_cons.mp hi with rfl | hi'
          · exact ⟨Nat.le_refl i, Nat.lt_of_lt_of_le (Nat.lt_succ_self i) hle⟩
          · have := hbd i hi'
            exact ⟨Nat.le_of_succ_le this.1, this.2⟩
        · exact Nat.le_of_succ_le hle

/-- Structural invariants of the whole Phase 5B bucket list. -/
theorem phase5BBuckets_spec (ctx : Ctx) (fuel : ℕ) :
    ∀ (bs : List (ℤ × List SpillItem)) (yPos : Q) (wi : ℕ)
      (r : List (Placement × Case) × List WallSection × Q × ℕ),
      phase5BBuckets ctx fuel bs yPos wi = some r →
      (r.1.map Prod.fst = r.2.1.flatMap (·.placements)) ∧
      (∀ s ∈ r.2.1, ∀ p ∈ s.placements, p.wallId = s.id) ∧
      (∃ idxs : List ℕ, r.2.1.map (·.id) = idxs.map mkWallId ∧
        idxs.Pairwise (· < ·) ∧ (∀ i ∈ idxs, wi ≤ i ∧ i < r.2.2.2) ∧
        wi ≤ r.2.2.2) := by
  intro bs
  induction bs with
  | nil =>
    intro yPos wi r h
    obtain rfl := (Option.some_inj.mp h).symm
    exact ⟨rfl, fun s hs => absurd hs (List.not_mem_nil s),
      [], rfl, List.Pairwise.nil,
      fun i hi => absurd hi (List.not_mem_nil i), Nat.le_refl wi⟩
  | cons b rest ih =>
    intro yPos wi r h
    obtain ⟨d, items⟩ := b
    rw [phase5BBuckets] at h
    obtain ⟨r1, hr1, h⟩ := Option.bind_eq_some.mp h
    obtain ⟨r2, hr2, h⟩ := Option.bind_eq_some.mp h
    obtain rfl := (Option.some_inj.mp h).symm
    obtain ⟨a1, a2, idxs1, hids1, hpw1, hbd1, hle1⟩ :=
      phase5BBucket_spec ctx fuel _ yPos wi r1 hr1
    obtain ⟨b1, b2, idxs2, hids2, hpw2, hbd2, hle2⟩ :=
      ih r1.2.2.1 r1.2.2.2 r2 hr2
    refine ⟨?_, ?_, idxs1 ++ idxs2, ?_, ?_, ?_, ?_⟩
    · show (r1.1 ++ r2.1).map Prod.fst = (r1.2.1 ++ r2.2.1).flatMap _
      rw [List.map_append, a1, b1, List.flatMap_append]
    · intro s hs p hp
      rcases List.mem_append.mp hs with hs' | hs'
      · exact a2 s hs' p hp
      · exact b2 s hs' p hp
    · show (r1.2.1 ++ r2.2.1).map (·.id) = _
      rw [List.map_append, hids1, hids2, List.map_append]
    · rw [List.pairwise_append]
      exact ⟨hpw1, hpw2, fun i hi j hj =>
        Nat.lt_of_lt_of_le (hbd1 i hi).2 (hbd2 j hj).1⟩
    · intro i hi
      rcases List.mem_append.mp hi with hi' | hi'
      · exact ⟨(hbd1 i hi').1,
          Nat.lt_of_lt_of_le (hbd1 i hi').2 hle2⟩
      · exact ⟨Nat.le_trans hle1 (hbd2 i hi').1, (hbd2 i hi').2⟩
    · exact Nat.le_trans hle1 hle2

/-- The emitted pair list and section list of Phase 5 followed by Phase 5B
satisfy the concatenation, id-matching and id-uniqueness invariants. -/
theorem phase5_then_5B_spec (ctx : Ctx) (sw : List (ℤ × WPWall)) (fuel : ℕ)
    (e5b : List (Placement × Case) × List WallSection × Q × ℕ)
    (he5b : phase5B ctx fuel (phase5Walls ctx sw 0 0).2.2.1
      (phase5Walls ctx sw 0 0).2.2.2.1 (phase5Walls ctx sw 0 0).2.2.2.2 =
        some e5b) :
    (((phase5Walls ctx sw 0 0).1 ++ e5b.1).map Prod.fst =
      ((phase5Walls ctx sw 0 0).2.1 ++ e5b.2.1).flatMap (·.placements)) ∧
    (∀ s ∈ (phase5Walls ctx sw 0 0).2.1 ++ e5b.2.1, ∀ p ∈ s.placements,
      p.wallId = s.id) ∧
    (((phase5Walls ctx sw 0 0).2.1 ++ e5b.2.1).map (·.id)).Nodup := by
  obtain ⟨s1, s2, s3, s4⟩ := phase5Walls_spec ctx sw 0 0
  unfold phase5B at he5b
  obtain ⟨b1, b2, idxs, hids, hpw, hbd, hle⟩ :=
    phase5BBuckets_spec ctx fuel _ _ _ e5b he5b
  refine ⟨?_, ?_, ?_⟩
  · rw [List.map_append, s1, b1, List.flatMap_append]
  · intro s hs p hp
    rcases List.mem_append.mp hs with hs' | hs'
    · exact s2 s hs' p hp
    · exact b2 s hs' p hp
  · rw [List.map_append, s3, hids, ← List.map_append]
    refine List.Nodup.map mkWallId_inj ?_
    rw [List.nodup_append]
    refine ⟨List.nodup_range' _ _, hpw.nodup, ?_⟩
    intro a ha hab
    have ha' := (List.mem_range'_1.mp ha).2
    have hbd' := (hbd a hab).1
    rw [s4] at hbd'
    omega

/-- **C10** (confirmed).  Whenever the solver returns, the top-level
placements array is exactly the concatenation, in section order, of the
wall sections' own placement lists; every placement's `wallId` is the id of
the section carrying it; and the section ids are pairwise distinct (so that
section is unique). -/
theorem c10_sections_partition_placements (fuel : ℕ) (cases : List Case)
    (config : WPConfig) (out : SolveResult)
    (h : wallPlannerSolve fuel cases config = some out) :
    out.placements = out.wallSections.flatMap (·.placements) ∧
    (∀ s ∈ out.wallSections, ∀ p ∈ s.placements, p.wallId = s.id) ∧
    (out.wallSections.map (·.id)).Nodup := by
  unfold wallPlannerSolve at h
  obtain ⟨r, hr, rfl⟩ := Option.map_eq_some'.mp h
  unfold wallPlannerSolveCore at hr
  split at hr
  · obtain rfl := (Option.some_inj.mp hr).symm
    exact ⟨rfl, fun s hs => absurd hs (List.not_mem_nil s),
      List.Pairwise.nil⟩
  · simp only [] at hr
    obtain ⟨fw, hfw, hr⟩ := Option.bind_eq_some.mp hr
    obtain ⟨p2, hp2, hr⟩ := Option.bind_eq_some.mp hr
    obtain ⟨p25, hp25, hr⟩ := Option.bind_eq_some.mp hr
    obtain ⟨pass1, hpass1, hr⟩ := Option.bind_eq_some.mp hr
    obtain ⟨pass2, hpass2, hr⟩ := Option.bind_eq_some.mp hr
    obtain ⟨merged, hmerged, hr⟩ := Option.bind_eq_some.mp hr
    obtain ⟨p3d, hp3d, hr⟩ := Option.bind_eq_some.mp hr
    obtain ⟨e5b, he5b, hr⟩ := Option.bind_eq_some.mp hr
    obtain rfl := (Option.some_inj.mp hr).symm
    obtain ⟨g1, g2, g3⟩ := phase5_then_5B_spec _ _ fuel e5b he5b
    exact ⟨g1, g2, g3⟩

/-- The C10 witness input: one ordinary case. -/
def c10cases : List Case := [mkCase "w1" 30 20 40 "W1"]

/-- Witness result of the solver on `c10cases`. -/
def c10out : SolveResult :=
  (wallPlannerSolve 300 c10cases cfg98).getD ⟨[], []⟩

set_option maxHeartbeats 1000000 in
/-- Witness for C10 at a concrete solver run. -/
theorem c10_witness :
    c10out.placements = c10out.wallSections.flatMap (·.placements) ∧
    (∀ s ∈ c10out.wallSections, ∀ p ∈ s.placements, p.wallId = s.id) ∧
    (c10out.wallSections.map (·.id)).Nodup :=
  c10_sections_partition_placements 300 c10cases cfg98 c10out (by rfl)

/-! ## C4 amended — groundwork.

Conservation of cases through the pipeline.  `wallCases` collects the cases
stored in a wall's columns; the well-formedness predicates record the three
facts that survive every phase and make the emission lossless: every
column's width is positive and fits the truck, every column's `stackCount`
equals its case count, and every pool's dimensions are positive with width
fitting the truck. -/

/-- The cases stored in a wall (all its columns' stacks, in order). -/
def wallCases (w : WPWall) : List Case := w.items.flatMap (·.cases)

/-- The cases of a wall list. -/
def wallsCases (ws : List WPWall) : List Case := ws.flatMap wallCases

/-- The cases of a pool list. -/
def poolsCases (ps : List WPInv) : List Case := ps.flatMap (·.cases)

/-- Well-formed column. -/
def ItemOk (W : Q) (it : WPItem) : Prop :=
  (0 : Q) < it.w ∧ it.w ≤ W ∧ it.stackCount = it.cases.length

/-- Well-formed wall: every column is well formed. -/
def WallOk (W : Q) (w : WPWall) : Prop := ∀ it ∈ w.items, ItemOk W it

/-- Well-formed pool. -/
def PoolOk (W : Q) (p : WPInv) : Prop :=
  (0 : Q) < p.w ∧ p.w ≤ W ∧ (0 : Q) < p.d

theorem qtoRat_zero : (0 : Q).toRat = 0 := by
  show (Q.ofInt 0).toRat = 0
  rw [Q.toRat_ofInt]
  norm_num

theorem qtoRat_half : qhalf.toRat = 1 / 2 := by
  rw [qhalf, Q.toRat_mk]
  norm_num

theorem qzero_add (w : Q) : ((0 : Q) + w).toRat = w.toRat := by
  rw [Q.toRat_add, qtoRat_zero, zero_add]

theorem qzero_add_le_iff (w Wq : Q) : ((0 : Q) + w ≤ Wq) ↔ w ≤ Wq := by
  rw [Q.le_iff_toRat, Q.le_iff_toRat, qzero_add]

theorem qnum_pos_iff (w : Q) : (0 : Q) < w ↔ 0 < w.num := by
  show ((0 : Q).ltb w = true) ↔ _
  unfold Q.ltb
  rw [decide_eq_true_eq]
  show (0 : ℤ) * (w.den : ℤ) < w.num * ((1 : ℕ+) : ℤ) ↔ _
  simp

theorem qnum_ne_zero_of_pos {w : Q} (h : (0 : Q) < w) : w.num ≠ 0 :=
  ne_of_gt ((qnum_pos_iff w).mp h)

theorem qtoRat_pos {w : Q} (h : (0 : Q) < w) : 0 < w.toRat := by
  have := (Q.lt_iff_toRat _ _).mp h
  rwa [qtoRat_zero] at this

/-- `1 ≤ ⌊q⌋` exactly when `q ≥ 1`. -/
theorem qone_le_floor_iff (q : Q) : 1 ≤ Q.floor q ↔ (1 : ℚ) ≤ q.toRat := by
  unfold Q.floor Q.toRat
  rw [Int.le_ediv_iff_mul_le (by exact_mod_cast q.den.2), one_mul]
  rw [le_div_iff₀ q.den_cast_pos, one_mul]
  exact ⟨fun h => by exact_mod_cast h, fun h => by exact_mod_cast h⟩

/-- A positive width that fits the truck gives at least one item per row. -/
theorem qfloor_div_ge_one {w Wq : Q} (h0 : (0 : Q) < w) (hW : w ≤ Wq) :
    1 ≤ Q.floor (Wq / w) := by
  rw [qone_le_floor_iff, Q.toRat_div _ _ (qnum_ne_zero_of_pos h0)]
  rw [one_le_div (qtoRat_pos h0)]
  exact (Q.le_iff_toRat _ _).mp hW

/-- The Phase 2 leftover threshold always passes for an overwide group. -/
theorem qleftover_threshold {w Wq : Q} (hw : ¬ w ≤ Wq) (h0 : (0 : Q) < w)
    (n : ℕ) (hn : 1 ≤ n) : Wq * WPMinFill ≤ Q.ofInt (n : ℤ) * w := by
  rw [Q.le_iff_toRat, Q.toRat_mul, Q.toRat_mul, Q.toRat_ofInt]
  have hwr : Wq.toRat < w.toRat := by
    have := Q.qnot_le.mp hw
    exact (Q.lt_iff_toRat _ _).mp this
  have h0r : (0 : ℚ) < w.toRat := qtoRat_pos h0
  have hmf : WPMinFill.toRat = 4 / 5 := by
    rw [WPMinFill, Q.toRat_mk]
    norm_num
  have hnr : (1 : ℚ) ≤ ((n : ℤ) : ℚ) := by exact_mod_cast hn
  have hwn : w.toRat ≤ ((n : ℤ) : ℚ) * w.toRat :=
    le_mul_of_one_le_left (le_of_lt h0r) hnr
  rw [hmf]
  clear hw hn
  rcases le_or_lt 0 Wq.toRat with hpos | hneg
  · nlinarith
  · nlinarith

/-- A fitting width also passes the emission tolerance check. -/
theorem qfits_tolerance {w Wq : Q} (hW : w ≤ Wq) :
    (0 : Q) + w ≤ Wq + qhalf := by
  rw [Q.le_iff_toRat, qzero_add, Q.toRat_add, qtoRat_half]
  have := (Q.le_iff_toRat _ _).mp hW
  linarith

theorem withIdx_map_snd (i : ℕ) (l : List α) :
    (withIdx i l).map Prod.snd = l := by
  induction l generalizing i with
  | nil => rfl
  | cons a t ih => simp [withIdx, ih]

theorem withIdx_map_fst (i : ℕ) (l : List α) :
    (withIdx i l).map Prod.fst = List.range' i l.length := by
  induction l generalizing i with
  | nil => rfl
  | cons a t ih => simp [withIdx, ih, List.range'_succ]

theorem mem_of_mem_withIdx {i : ℕ} {l : List α} {p : ℕ × α}
    (hp : p ∈ withIdx i l) : p.2 ∈ l := by
  have : p.2 ∈ (withIdx i l).map Prod.snd := List.mem_map_of_mem _ hp
  rwa [withIdx_map_snd] at this

theorem mem_withIdx_iff (i : ℕ) (l : List α) (p : ℕ × α) :
    p ∈ withIdx i l ↔ i ≤ p.1 ∧ l[p.1 - i]? = some p.2 := by
  induction l generalizing i with
  | nil => simp [withIdx]
  | cons a t ih =>
    rw [withIdx]
    constructor
    · intro h
      rcases List.mem_cons.mp h with rfl | h'
      · simp
      · obtain ⟨h1, h2⟩ := (ih (i + 1)).mp h'
        refine ⟨by omega, ?_⟩
        have : p.1 - i = (p.1 - (i + 1)) + 1 := by omega
        rw [this]
        simpa using h2
    · rintro ⟨h1, h2⟩
      by_cases hi : p.1 = i
      · subst hi
        simp only [Nat.sub_self] at h2
        simp only [List.getElem?_cons_zero] at h2
        obtain rfl := Option.some_inj.mp h2
        exact List.mem_cons_self _ _
      · refine List.mem_cons.mpr (Or.inr ((ih (i + 1)).mpr ⟨by omega, ?_⟩))
        have : p.1 - i = (p.1 - (i + 1)) + 1 := by omega
        rw [this] at h2
        simpa using h2

theorem set_getD_self (d : α) (l : List α) (j : ℕ) :
    l.set j ((l[j]?).getD d) = l := by
  induction l generalizing j with
  | nil => rfl
  | cons a t ih =>
    cases j with
    | zero => simp
    | succ k => simpa [List.set] using ih k

/-- Replacing position `j` trades its `f`-contribution for the new one, up
to permutation. -/
theorem flatMap_set_perm (f : α → List β) (d : α) :
    ∀ (l : List α) (j : ℕ), j < l.length → ∀ (x : α),
      (((l.set j x).flatMap f) ++ f ((l[j]?).getD d)).Perm
        (l.flatMap f ++ f x) := by
  intro l
  induction l with
  | nil =>
    intro j hj
    simp at hj
  | cons a t ih =>
    intro j hj x
    cases j with
    | zero =>
      simp only [List.set, List.flatMap_cons, List.getElem?_cons_zero,
        Option.getD_some]
      refine List.perm_append_comm.trans ?_
      refine (List.Perm.append_left (f a) List.perm_append_comm).trans ?_
      rw [List.append_assoc]
    | succ k =>
      simp only [List.set, List.flatMap_cons, List.getElem?_cons_succ,
        List.append_assoc]
      exact List.Perm.append_left (f a) (ih k (by simpa using hj) x)

/-! ### Phase 0 conservation -/

theorem flatMap_map_eq (f : α → β) (g : β → List γ) (l : List α) :
    ((l.map f).flatMap g) = l.flatMap (fun x => g (f x)) := by
  induction l with
  | nil => rfl
  | cons a t ih => simp [ih]

/-- Flattening a whole `groupPush` fold. -/
theorem foldl_groupPush_flat [DecidableEq κ] (key : α → κ) :
    ∀ (l : List α) (m : List (κ × List α)),
      ((l.foldl (fun m x => groupPush m (key x) x) m).flatMap (·.2)).Perm
        (m.flatMap (·.2) ++ l) := by
  intro l
  induction l with
  | nil => intro m; simp
  | cons a rest ih =>
    intro m
    rw [List.foldl_cons]
    refine (ih (groupPush m (key a) a)).trans ?_
    refine (List.Perm.append_right rest (groupPush_flat m (key a) a)).trans ?_
    rw [List.append_assoc]
    exact List.Perm.refl _

theorem groupPush_ne_nil [DecidableEq κ] :
    ∀ (m : List (κ × List α)) (k : κ) (a : α),
      (∀ p ∈ m, p.2 ≠ []) → ∀ p ∈ groupPush m k a, p.2 ≠ [] := by
  intro m
  induction m with
  | nil =>
    intro k a _ p hp
    rw [groupPush] at hp
    rcases List.mem_singleton.mp hp with rfl
    simp
  | cons q rest ih =>
    intro k a hm p hp
    obtain ⟨k', vs⟩ := q
    rw [groupPush] at hp
    split at hp
    · rcases List.mem_cons.mp hp with rfl | hp'
      · simp
      · exact hm p (List.mem_cons_of_mem _ hp')
    · rcases List.mem_cons.mp hp with rfl | hp'
      · exact hm _ (List.mem_cons_self _ _)
      · exact ih k a (fun q hq => hm q (List.mem_cons_of_mem _ hq)) p hp'

theorem foldl_groupPush_ne_nil [DecidableEq κ] (key : α → κ) :
    ∀ (l : List α) (m : List (κ × List α)),
      (∀ p ∈ m, p.2 ≠ []) →
      ∀ p ∈ l.foldl (fun m x => groupPush m (key x) x) m, p.2 ≠ [] := by
  intro l
  induction l with
  | nil => intro m hm; exact hm
  | cons a rest ih =>
    intro m hm
    rw [List.foldl_cons]
    exact ih _ (groupPush_ne_nil m (key a) a hm)

/-- Any member of any bucket of a `groupPush` fold came from the base map or
the pushed list. -/
theorem foldl_groupPush_mem [DecidableEq κ] (key : α → κ) (l : List α)
    (m : List (κ × List α)) (p : κ × List α)
    (hp : p ∈ l.foldl (fun m x => groupPush m (key x) x) m)
    (a : α) (ha : a ∈ p.2) : a ∈ m.flatMap (·.2) ∨ a ∈ l := by
  have h1 : a ∈ (l.foldl (fun m x => groupPush m (key x) x) m).flatMap
      (·.2) := List.mem_flatMap.mpr ⟨p, hp, ha⟩
  have h2 := (foldl_groupPush_flat key l m).subset h1
  exact List.mem_append.mp h2

/-- The rotation oracle returns the case's own dimensions, in one of the two
orders. -/
theorem wpBestRotation_wd (W : Q) (c : Case) :
    ((wpBestRotation W c).w = c.width ∧ (wpBestRotation W c).d = c.depth) ∨
    ((wpBestRotation W c).w = c.depth ∧ (wpBestRotation W c).d = c.width) := by
  have h : wpBestRotation W c =
      if (!c.allowRotation || decide (Q.abs (c.width - c.depth) < qhalf))
      then ⟨c.width, c.depth, c.rotation⟩
      else if Q.ofInt (Q.floor (W / c.width)) * c.width + qhalf <
            Q.ofInt (Q.floor (W / c.depth)) * c.depth ∨
          (Q.abs (Q.ofInt (Q.floor (W / c.depth)) * c.depth -
              Q.ofInt (Q.floor (W / c.width)) * c.width) < qhalf ∧
            Q.floor (W / c.width) < Q.floor (W / c.depth)) then
        ⟨c.depth, c.width, (c.rotation + 90) % 360⟩
      else ⟨c.width, c.depth, c.rotation⟩ := rfl
  rw [h]
  split
  · exact Or.inl ⟨rfl, rfl⟩
  · split
    · exact Or.inr ⟨rfl, rfl⟩
    · exact Or.inl ⟨rfl, rfl⟩

/-- Phase 0 conserves the cases. -/
theorem phase0_flat (W : Q) (cases : List Case) :
    ((phase0 W cases).flatMap (·.cases)).Perm cases := by
  unfold phase0
  rw [List.bind_assoc]
  refine (List.Perm.bind_left _ ?_).trans
    (foldl_groupPush_flat caseSG cases [])
  intro p hp
  rw [flatMap_map_eq]
  show ((p.2.foldl (fun m c => groupPush m (dimKey c) c) []).flatMap
      (·.2)).Perm p.2
  exact foldl_groupPush_flat dimKey p.2 []

/-- On positive-dimension inputs, every Phase 0 inventory has positive
width and depth. -/
theorem phase0_dims (W : Q) (cases : List Case)
    (hpos : ∀ c ∈ cases, (0 : Q) < c.width ∧ (0 : Q) < c.depth) :
    ∀ inv ∈ phase0 W cases, (0 : Q) < inv.w ∧ (0 : Q) < inv.d := by
  intro inv hinv
  unfold phase0 at hinv
  obtain ⟨p, hp, hinv2⟩ := List.mem_flatMap.mp hinv
  obtain ⟨dg, hdg, rfl⟩ := List.mem_map.mp hinv2
  have hne : dg.2 ≠ [] := by
    refine foldl_groupPush_ne_nil dimKey p.2 [] ?_ dg hdg
    intro q hq
    exact absurd hq (List.not_mem_nil q)
  have hhead : dg.2.headD {} ∈ dg.2 := by
    cases hc : dg.2 with
    | nil => exact absurd hc hne
    | cons c t => exact List.mem_cons_self _ _
  have hmem1 : dg.2.headD {} ∈ p.2 := by
    rcases foldl_groupPush_mem dimKey p.2 [] dg hdg _ hhead with h | h
    · exact absurd h (by simp)
    · exact h
  have hmem : dg.2.headD {} ∈ cases := by
    rcases foldl_groupPush_mem caseSG cases [] p hp _ hmem1 with h | h
    · exact absurd h (by simp)
    · exact h
  obtain ⟨hw, hd⟩ := hpos _ hmem
  show (0 : Q) < (wpBestRotation W (dg.2.headD {})).w ∧
    (0 : Q) < (wpBestRotation W (dg.2.headD {})).d
  rcases wpBestRotation_wd W (dg.2.headD {}) with ⟨h1, h2⟩ | ⟨h1, h2⟩ <;>
    exact ⟨by rw [h1]; assumption, by rw [h2]; assumption⟩

/-- Every Phase 0 inventory group is nonempty. -/
theorem phase0_cases_ne_nil (W : Q) (cases : List Case) :
    ∀ inv ∈ phase0 W cases, inv.cases ≠ [] := by
  intro inv hinv
  unfold phase0 at hinv
  obtain ⟨p, hp, hinv2⟩ := List.mem_flatMap.mp hinv
  obtain ⟨dg, hdg, rfl⟩ := List.mem_map.mp hinv2
  refine foldl_groupPush_ne_nil dimKey p.2 [] ?_ dg hdg
  intro q hq
  exact absurd hq (List.not_mem_nil q)

/-! ### Phase 1.5 conservation -/

theorem floorStep_fold_spec (fInv : WPInv) :
    ∀ (taken : List Case) (st : Q × List WPItem),
      ((taken.foldl (floorStep fInv) st).2.flatMap (·.cases) =
        st.2.flatMap (·.cases) ++ taken) ∧
      (∀ it ∈ (taken.foldl (floorStep fInv) st).2,
        it ∈ st.2 ∨ (it.w = fInv.w ∧ it.stackCount = it.cases.length)) := by
  intro taken
  induction taken with
  | nil => intro st; exact ⟨by simp, fun it hit => Or.inl hit⟩
  | cons c rest ih =>
    intro st
    rw [List.foldl_cons]
    obtain ⟨ih1, ih2⟩ := ih (floorStep fInv st c)
    constructor
    · rw [ih1]
      show (st.2 ++ [_]).flatMap (·.cases) ++ rest = _
      simp [List.append_assoc]
    · intro it hit
      rcases ih2 it hit with hin | hok
      · rcases List.mem_append.mp hin with h | h
        · exact Or.inl h
        · rcases List.mem_singleton.mp h with rfl
          exact Or.inr ⟨rfl, rfl⟩
      · exact Or.inr hok

/-- The wall built from one floor row. -/
def floorRowWall (fInv : WPInv) (taken : List Case) : WPWall :=
  { items := (floorRow fInv taken).2, widthFill := (floorRow fInv taken).1,
    maxHeight := fInv.h, depth := fInv.d, isFlatTop := true,
    subgroups := [fInv.sg], reliability := relFULL }

theorem phase15Group_succ (W : Q) (fInv : WPInv) (f : ℕ) (cs : List Case)
    (hcs : cs.isEmpty = false) :
    phase15Group W fInv (f + 1) cs =
      (phase15Group W fInv f (cs.drop (Q.floor (W / fInv.w)).toNat)).map
        (fun tail =>
          if (cs.drop (Q.floor (W / fInv.w)).toNat).isEmpty then
            floorRowWall fInv (cs.take (Q.floor (W / fInv.w)).toNat) :: tail
          else
            floorRowWall fInv (cs.take (Q.floor (W / fInv.w)).toNat) ::
              loadBarWall :: tail) := by
  rw [phase15Group_unfold, hcs]
  simp only [Bool.false_eq_true, if_false]
  rfl

/-- With a zero per-row count the floor loop makes no progress. -/
theorem phase15Group_zero_perRow_stuck (W : Q) (fInv : WPInv)
    (hpr : (Q.floor (W / fInv.w)).toNat = 0) :
    ∀ (fuel : ℕ) (cs : List Case), cs ≠ [] →
      phase15Group W fInv fuel cs = none := by
  intro fuel
  induction fuel with
  | zero =>
    intro cs hcs
    have hcs' : cs.isEmpty = false := by
      cases cs with
      | nil => exact absurd rfl hcs
      | cons a l => rfl
    rw [phase15Group_unfold, hcs']
    simp
  | succ f ih =>
    intro cs hcs
    have hcs' : cs.isEmpty = false := by
      cases cs with
      | nil => exact absurd rfl hcs
      | cons a l => rfl
    rw [phase15Group_succ W fInv f cs hcs', hpr, List.drop_zero,
      ih cs hcs]
    rfl

theorem phase15Group_conserve (W : Q) (fInv : WPInv)
    (h0 : (0 : Q) < fInv.w) :
    ∀ (fuel : ℕ) (cs : List Case) (walls : List WPWall),
      phase15Group W fInv fuel cs = some walls →
      wallsCases walls = cs ∧ ∀ w ∈ walls, WallOk W w := by
  intro fuel
  induction fuel with
  | zero =>
    intro cs walls h
    rw [phase15Group_unfold] at h
    by_cases hcs : cs.isEmpty
    · rw [if_pos hcs] at h
      obtain rfl := (Option.some_inj.mp h).symm
      obtain rfl := List.isEmpty_iff.mp hcs
      exact ⟨rfl, fun w hw => absurd hw (List.not_mem_nil w)⟩
    · rw [if_neg hcs] at h
      exact absurd h (by simp)
  | succ f ih =>
    intro cs walls h
    by_cases hcs : cs.isEmpty
    · rw [phase15Group_unfold, if_pos hcs] at h
      obtain rfl := (Option.some_inj.mp h).symm
      obtain rfl := List.isEmpty_iff.mp hcs
      exact ⟨rfl, fun w hw => absurd hw (List.not_mem_nil w)⟩
    · have hcs' : cs.isEmpty = false := by
        cases hb : cs.isEmpty with
        | true => exact absurd hb hcs
        | false => rfl
      have hne : cs ≠ [] := by
        intro hnil
        rw [hnil] at hcs'
        exact absurd hcs' (by simp)
      rw [phase15Group_succ W fInv f cs hcs'] at h
      obtain ⟨tail, htail, hw⟩ := Option.map_eq_some'.mp h
      by_cases hpr : (Q.floor (W / fInv.w)).toNat = 0
      · have hnone := phase15Group_zero_perRow_stuck W fInv hpr f cs hne
        rw [hpr, List.drop_zero] at htail
        rw [hnone] at htail
        exact absurd htail (by simp)
      · have hWle : fInv.w ≤ W := by
          have h1 : 1 ≤ Q.floor (W / fInv.w) := by omega
          have h2 : (1 : ℚ) ≤ (W / fInv.w).toRat :=
            (qone_le_floor_iff _).mp h1
          rw [Q.toRat_div _ _ (qnum_ne_zero_of_pos h0)] at h2
          rw [Q.le_iff_toRat]
          rw [one_le_div (qtoRat_pos h0)] at h2
          exact h2
        obtain ⟨htf, htw⟩ := ih _ tail htail
        obtain ⟨hrow1, hrow2⟩ :=
          floorStep_fold_spec fInv (cs.take (Q.floor (W / fInv.w)).toNat)
            ((0 : Q), [])
        have hwallok : WallOk W
            (floorRowWall fInv (cs.take (Q.floor (W / fInv.w)).toNat)) := by
          intro it hit
          rcases hrow2 it hit with hin | ⟨he, hsc⟩
          · exact absurd hin (List.not_mem_nil it)
          · exact ⟨by rw [he]; exact h0, by rw [he]; exact hWle, hsc⟩
        have hwallflat : wallCases
            (floorRowWall fInv (cs.take (Q.floor (W / fInv.w)).toNat)) =
            cs.take (Q.floor (W / fInv.w)).toNat := by
          show (floorRow fInv _).2.flatMap (·.cases) = _
          rw [floorRow, hrow1]
          rfl
        split at hw
        · obtain rfl := hw.symm
          constructor
          · show wallCases _ ++ wallsCases tail = cs
            rw [hwallflat, htf]
            exact List.take_append_drop _ cs
          · intro w hw'
            rcases List.mem_cons.mp hw' with rfl | hw''
            · exact hwallok
            · exact htw w hw''
        · obtain rfl := hw.symm
          constructor
          · show wallCases _ ++ (wallCases loadBarWall ++ wallsCases tail)
              = cs
            rw [hwallflat, htf]
            show _ ++ ([] ++ _) = cs
            rw [List.nil_append]
            exact List.take_append_drop _ cs
          · intro w hw'
            rcases List.mem_cons.mp hw' with rfl | hw''
            · exact hwallok
            · rcases List.mem_cons.mp hw'' with rfl | hw'''
              · intro it hit
                exact absurd hit (List.not_mem_nil it)
              · exact htw w hw'''

/-- Phase 1.5 conserves the floor cases and produces well-formed walls. -/
theorem phase15_conserve (W : Q) (fuel : ℕ) :
    ∀ (invs : List WPInv) (walls : List WPWall),
      (∀ i ∈ invs, (0 : Q) < i.w) →
      phase15 W fuel invs = some walls →
      wallsCases walls = invs.flatMap (·.cases) ∧
        ∀ w ∈ walls, WallOk W w := by
  intro invs
  induction invs with
  | nil =>
    intro walls _ h
    obtain rfl := (Option.some_inj.mp h).symm
    exact ⟨rfl, fun w hw => absurd hw (List.not_mem_nil w)⟩
  | cons fInv rest ih =>
    intro walls hpos h
    rw [phase15] at h
    obtain ⟨ws, hws, h⟩ := Option.bind_eq_some.mp h
    obtain ⟨rest', hrest', h⟩ := Option.bind_eq_some.mp h
    obtain rfl := (Option.some_inj.mp h).symm
    obtain ⟨f1, f2⟩ := phase15Group_conserve W fInv
      (hpos fInv (List.mem_cons_self _ _)) fuel fInv.cases ws hws
    obtain ⟨r1, r2⟩ := ih rest'
      (fun i hi => hpos i (List.mem_cons_of_mem _ hi)) hrest'
    constructor
    · show wallsCases (ws ++ rest') = _
      rw [wallsCases, List.flatMap_append, ← wallsCases, ← wallsCases,
        f1, r1]
      rfl
    · intro w hw
      rcases List.mem_append.mp hw with h' | h'
      · exact f2 w h'
      · exact r2 w h'

/-! ### Phase 2 conservation -/

/-- The column record every greedy loop pushes: a stack of
`min maxStack |cs|` cases taken from the front of `cs`. -/
def mkColumn (inv : WPInv) (x : Q) (cs : List Case) : WPItem :=
  { blockName := inv.blockName, sg := inv.sg, w := inv.w, d := inv.d,
    h := inv.h, rot := inv.rot, xOff := x,
    stackCount := min inv.maxStack cs.length,
    stackedH := inv.h * Q.ofInt ((min inv.maxStack cs.length : ℕ) : ℤ),
    cases := cs.take (min inv.maxStack cs.length) }

theorem mkColumn_stackCount (inv : WPInv) (x : Q) (cs : List Case) :
    (mkColumn inv x cs).stackCount = (mkColumn inv x cs).cases.length := by
  show min inv.maxStack cs.length =
    (cs.take (min inv.maxStack cs.length)).length
  rw [List.length_take]
  omega

theorem perm_append_swap_mid (a b c d : List α) :
    ((a ++ b) ++ (c ++ d)).Perm ((a ++ c) ++ (b ++ d)) := by
  have h1 : (b ++ (c ++ d)).Perm (c ++ (b ++ d)) := by
    rw [← List.append_assoc, ← List.append_assoc]
    exact List.Perm.append_right d List.perm_append_comm
  rw [List.append_assoc, List.append_assoc]
  exact h1.append_left a

theorem phase2BuildLoop_unfold (W : Q) (inv : WPInv) (fuel : ℕ)
    (cs : List Case) (x : Q) (items : List WPItem) (maxH : Q) :
    phase2BuildLoop W inv fuel cs x items maxH =
      if cs.isEmpty ∨ ¬ (x + inv.w ≤ W) then some (cs, x, items, maxH)
      else
        match fuel with
        | 0 => none
        | fuel' + 1 =>
          phase2BuildLoop W inv fuel'
            (cs.drop (min inv.maxStack cs.length)) (x + inv.w)
            (items ++ [mkColumn inv x cs])
            (max maxH
              (inv.h * Q.ofInt ((min inv.maxStack cs.length : ℕ) : ℤ))) := by
  cases fuel with
  | zero => rfl
  | succ f => rfl

theorem phase2BuildLoop_spec (W : Q) (inv : WPInv) :
    ∀ (fuel : ℕ) (cs : List Case) (x : Q) (items : List WPItem) (maxH : Q)
      (r : List Case × Q × List WPItem × Q),
      phase2BuildLoop W inv fuel cs x items maxH = some r →
      ∃ new, r.2.2.1 = items ++ new ∧
        new.flatMap (·.cases) ++ r.1 = cs ∧
        (∀ it ∈ new, it.w = inv.w ∧ it.stackCount = it.cases.length) := by
  intro fuel
  induction fuel with
  | zero =>
    intro cs x items maxH r h
    rw [phase2BuildLoop_unfold] at h
    split at h
    · obtain rfl := (Option.some_inj.mp h).symm
      exact ⟨[], by simp, by simp,
        fun it hit => absurd hit (List.not_mem_nil it)⟩
    · exact absurd h (by simp)
  | succ f ih =>
    intro cs x items maxH r h
    rw [phase2BuildLoop_unfold] at h
    split at h
    · obtain rfl := (Option.some_inj.mp h).symm
      exact ⟨[], by simp, by simp,
        fun it hit => absurd hit (List.not_mem_nil it)⟩
    · obtain ⟨new, h1, h2, h3⟩ := ih _ _ _ _ r h
      refine ⟨mkColumn inv x cs :: new, ?_, ?_, ?_⟩
      · rw [h1, List.append_assoc]
        rfl
      · show (mkColumn inv x cs).cases ++ new.flatMap (·.cases) ++ r.1 = cs
        rw [List.append_assoc, h2]
        exact List.take_append_drop _ cs
      · intro it hit
        rcases List.mem_cons.mp hit with rfl | hit'
        · exact ⟨rfl, mkColumn_stackCount inv x cs⟩
        · exact h3 it hit'

theorem phase2LeftoverLoop_spec (W : Q) (inv : WPInv)
    (h0 : (0 : Q) < inv.w) (hWle : inv.w ≤ W) :
    ∀ (fuel : ℕ) (cs : List Case) (ws : List WPWall),
      phase2LeftoverLoop W inv fuel cs = some ws →
      wallsCases ws = cs ∧ ∀ w ∈ ws, WallOk W w := by
  intro fuel
  induction fuel with
  | zero =>
    intro cs ws h
    rw [phase2LeftoverLoop] at h
    split at h
    · obtain rfl := (Option.some_inj.mp h).symm
      rename_i hcs
      obtain rfl := List.isEmpty_iff.mp hcs
      exact ⟨rfl, fun w hw => absurd hw (List.not_mem_nil w)⟩
    · exact absurd h (by simp)
  | succ f ih =>
    intro cs ws h
    rw [phase2LeftoverLoop] at h
    split at h
    · obtain rfl := (Option.some_inj.mp h).symm
      rename_i hcs
      obtain rfl := List.isEmpty_iff.mp hcs
      exact ⟨rfl, fun w hw => absurd hw (List.not_mem_nil w)⟩
    · obtain ⟨r, hr, h⟩ := Option.bind_eq_some.mp h
      obtain ⟨tail, htail, h⟩ := Option.bind_eq_some.mp h
      obtain rfl := (Option.some_inj.mp h).symm
      obtain ⟨new, h1, h2, h3⟩ := phase2BuildLoop_spec W inv f cs 0 [] 0 r hr
      rw [List.nil_append] at h1
      obtain ⟨t1, t2⟩ := ih r.1 tail htail
      constructor
      · show wallCases _ ++ wallsCases tail = cs
        rw [t1]
        show r.2.2.1.flatMap (·.cases) ++ r.1 = cs
        rw [h1, h2]
      · intro w hw
        rcases List.mem_cons.mp hw with rfl | hw'
        · intro it hit
          show ItemOk W it
          rw [h1] at hit
          obtain ⟨he, hsc⟩ := h3 it hit
          exact ⟨by rw [he]; exact h0, by rw [he]; exact hWle, hsc⟩
        · exact t2 w hw'

theorem phase2Inv_spec (W : Q) (fuel : ℕ) (inv : WPInv)
    (h0 : (0 : Q) < inv.w) (hd : (0 : Q) < inv.d)
    (ws : List WPWall) (ps : List WPInv)
    (h : phase2Inv W fuel inv = some (ws, ps)) :
    (wallsCases ws ++ poolsCases ps).Perm
      (if inv.isFloor then [] else inv.cases) ∧
    (∀ w ∈ ws, WallOk W w) ∧ (∀ p ∈ ps, PoolOk W p) := by
  by_cases hskip : inv.isFloor = true ∨ inv.cases.isEmpty = true
  · rw [phase2Inv, if_pos hskip] at h
    obtain ⟨rfl, rfl⟩ := Prod.mk.inj (Option.some_inj.mp h)
    refine ⟨?_, fun w hw => absurd hw (List.not_mem_nil w),
      fun p hp => absurd hp (List.not_mem_nil p)⟩
    rcases hskip with hfl | hemp
    · rw [if_pos hfl]
      exact List.Perm.refl _
    · have : inv.cases = [] := List.isEmpty_iff.mp hemp
      rw [this]
      split <;> exact List.Perm.refl _
  · have hfl' : inv.isFloor = false := by
      rcases Bool.eq_false_or_eq_true inv.isFloor with hb | hb
      · exact absurd (Or.inl hb) hskip
      · exact hb
    have hemp' : inv.cases.isEmpty = false := by
      rcases Bool.eq_false_or_eq_true inv.cases.isEmpty with hb | hb
      · exact absurd (Or.inr hb) hskip
      · exact hb
    have hne : inv.cases ≠ [] := by
      intro hn
      rw [hn] at hemp'
      exact absurd hemp' (by simp)
    have hlen : 1 ≤ inv.cases.length := by
      cases hc : inv.cases with
      | nil => exact absurd hc hne
      | cons a t => simp
    have hWle : inv.w ≤ W := by
      by_contra hnw
      have hw0 : ¬ ((0 : Q) + inv.w ≤ W) := fun hc =>
        hnw ((qzero_add_le_iff _ _).mp hc)
      rw [phase2Inv_stuck W inv fuel hw0 hfl' hne
        (qleftover_threshold hnw h0 inv.cases.length hlen)] at h
      exact absurd h (by simp)
    rw [phase2Inv, if_neg hskip] at h
    obtain ⟨r, hr, h⟩ := Option.bind_eq_some.mp h
    simp only [] at h
    obtain ⟨new, h1, h2, h3⟩ :=
      phase2BuildLoop_spec W inv fuel inv.cases 0 [] 0 r hr
    rw [List.nil_append] at h1
    have hwallok : ∀ it ∈ r.2.2.1, ItemOk W it := by
      intro it hit
      rw [h1] at hit
      obtain ⟨he, hsc⟩ := h3 it hit
      exact ⟨by rw [he]; exact h0, by rw [he]; exact hWle, hsc⟩
    have hflat : r.2.2.1.flatMap (·.cases) ++ r.1 = inv.cases := by
      rw [h1]
      exact h2
    have hpoolOk : ∀ cs, PoolOk W (mkPool inv cs) := fun cs => ⟨h0, hWle, hd⟩
    rw [hfl']
    simp only [Bool.false_eq_true, if_false]
    by_cases hrest : r.1.isEmpty = true
    · rw [if_pos hrest] at h
      simp only [pure_bind] at h
      have hr1 : r.1 = [] := List.isEmpty_iff.mp hrest
      rw [hr1, List.append_nil] at hflat
      split at h
      · obtain ⟨rfl, rfl⟩ := Prod.mk.inj (Option.some_inj.mp h)
        refine ⟨?_, fun w hw => absurd hw (List.not_mem_nil w), ?_⟩
        · simp only [wallsCases, poolsCases, mkPool, List.flatMap_append,
            List.flatMap_cons, List.flatMap_nil, List.nil_append,
            List.append_nil]
          rw [hflat]
        · intro p hp
          rcases List.mem_append.mp hp with h' | h'
          · exact absurd h' (List.not_mem_nil p)
          · rcases List.mem_singleton.mp h' with rfl
            exact hpoolOk _
      · obtain ⟨rfl, rfl⟩ := Prod.mk.inj (Option.some_inj.mp h)
        refine ⟨?_, ?_, fun p hp => absurd hp (List.not_mem_nil p)⟩
        · simp only [wallsCases, wallCases, poolsCases, List.flatMap_append,
            List.flatMap_cons, List.flatMap_nil, List.nil_append,
            List.append_nil]
          rw [hflat]
        · intro w hw
          rcases List.mem_append.mp hw with h' | h'
          · exact absurd h' (List.not_mem_nil w)
          · rcases List.mem_singleton.mp h' with rfl
            exact hwallok
    · rw [if_neg hrest] at h
      split at h
      · obtain ⟨oWalls, hOW, h⟩ := Option.bind_eq_some.mp h
        simp only [pure_bind] at h
        obtain ⟨l1, l2⟩ :=
          phase2LeftoverLoop_spec W inv h0 hWle fuel r.1 oWalls hOW
        split at h
        · obtain ⟨rfl, rfl⟩ := Prod.mk.inj (Option.some_inj.mp h)
          refine ⟨?_, l2, ?_⟩
          · simp only [poolsCases, mkPool, List.flatMap_append,
              List.flatMap_cons, List.flatMap_nil, List.nil_append,
              List.append_nil]
            rw [l1, ← hflat]
            exact List.perm_append_comm
          · intro p hp
            rcases List.mem_append.mp hp with h' | h'
            · exact absurd h' (List.not_mem_nil p)
            · rcases List.mem_singleton.mp h' with rfl
              exact hpoolOk _
        · obtain ⟨rfl, rfl⟩ := Prod.mk.inj (Option.some_inj.mp h)
          refine ⟨?_, ?_, fun p hp => absurd hp (List.not_mem_nil p)⟩
          · rw [wallsCases, List.flatMap_append, ← wallsCases]
            simp only [wallCases, poolsCases, List.flatMap_cons,
              List.flatMap_nil, List.append_nil]
            rw [l1, ← hflat]
            exact List.perm_append_comm
          · intro w hw
            rcases List.mem_append.mp hw with h' | h'
            · exact l2 w h'
            · rcases List.mem_singleton.mp h' with rfl
              exact hwallok
      · simp only [pure_bind] at h
        split at h
        · obtain ⟨rfl, rfl⟩ := Prod.mk.inj (Option.some_inj.mp h)
          refine ⟨?_, fun w hw => absurd hw (List.not_mem_nil w), ?_⟩
          · simp only [wallsCases, poolsCases, mkPool, List.flatMap_append,
              List.flatMap_cons, List.flatMap_nil, List.nil_append,
              List.append_nil]
            rw [← hflat]
            exact List.perm_append_comm
          · intro p hp
            rcases List.mem_append.mp hp with h' | h'
            · rcases List.mem_singleton.mp h' with rfl
              exact hpoolOk _
            · rcases List.mem_singleton.mp h' with rfl
              exact hpoolOk _
        · obtain ⟨rfl, rfl⟩ := Prod.mk.inj (Option.some_inj.mp h)
          refine ⟨?_, ?_, ?_⟩
          · simp only [wallsCases, wallCases, poolsCases, mkPool,
              List.flatMap_append, List.flatMap_cons, List.flatMap_nil,
              List.nil_append, List.append_nil]
            rw [hflat]
          · intro w hw
            rcases List.mem_append.mp hw with h' | h'
            · exact absurd h' (List.not_mem_nil w)
            · rcases List.mem_singleton.mp h' with rfl
              exact hwallok
          · intro p hp
            rcases List.mem_singleton.mp hp with rfl
            exact hpoolOk _

theorem phase2_spec (W : Q) (fuel : ℕ) :
    ∀ (invs : List WPInv) (ws : List WPWall) (ps : List WPInv),
      (∀ i ∈ invs, (0 : Q) < i.w ∧ (0 : Q) < i.d) →
      phase2 W fuel invs = some (ws, ps) →
      (wallsCases ws ++ poolsCases ps).Perm
        (invs.flatMap (fun i => if i.isFloor then [] else i.cases)) ∧
      (∀ w ∈ ws, WallOk W w) ∧ (∀ p ∈ ps, PoolOk W p) := by
  intro invs
  induction invs with
  | nil =>
    intro ws ps _ h
    obtain ⟨rfl, rfl⟩ := Prod.mk.inj (Option.some_inj.mp h)
    exact ⟨List.Perm.refl _, fun w hw => absurd hw (List.not_mem_nil w),
      fun p hp => absurd hp (List.not_mem_nil p)⟩
  | cons inv rest ih =>
    intro ws ps hdim h
    rw [phase2] at h
    obtain ⟨r, hr, h⟩ := Option.bind_eq_some.mp h
    obtain ⟨rr, hrr, h⟩ := Option.bind_eq_some.mp h
    obtain ⟨rfl, rfl⟩ := Prod.mk.inj (Option.some_inj.mp h)
    obtain ⟨hx, hy⟩ := hdim inv (List.mem_cons_self _ _)
    obtain ⟨a1, a2, a3⟩ := phase2Inv_spec W fuel inv hx hy r.1 r.2 (by
      rw [hr])
    obtain ⟨b1, b2, b3⟩ := ih rr.1 rr.2
      (fun i hi => hdim i (List.mem_cons_of_mem _ hi)) (by rw [hrr])
    refine ⟨?_, ?_, ?_⟩
    · show (wallsCases (r.1 ++ rr.1) ++ poolsCases (r.2 ++ rr.2)).Perm _
      rw [wallsCases, poolsCases, List.flatMap_append, List.flatMap_append,
        ← wallsCases, ← wallsCases, ← poolsCases, ← poolsCases,
        List.flatMap_cons]
      exact (perm_append_swap_mid _ _ _ _).trans (a1.append b1)
    · intro w hw
      rcases List.mem_append.mp hw with h' | h'
      · exact a2 w h'
      · exact b2 w h'
    · intro p hp
      rcases List.mem_append.mp hp with h' | h'
      · exact a3 p h'
      · exact b3 p h'

theorem perm_rotate3 (a b c : List α) :
    (a ++ (b ++ c)).Perm ((c ++ a) ++ b) := by
  rw [← List.append_assoc]
  refine List.perm_append_comm.trans ?_
  rw [← List.append_assoc]

theorem perm_rotate4 (a b c d : List α) :
    (a ++ (b ++ (c ++ d))).Perm (((d ++ a) ++ b) ++ c) := by
  have e1 : a ++ (b ++ (c ++ d)) = (a ++ (b ++ c)) ++ d := by
    simp [List.append_assoc]
  have e2 : ((d ++ a) ++ b) ++ c = d ++ (a ++ (b ++ c)) := by
    simp [List.append_assoc]
  rw [e1, e2]
  exact List.perm_append_comm

/-- The column appended by one gap-fill consume step. -/
def gapItem (pool : WPInv) (wall : WPWall) (cs : List Case) : WPItem :=
  { blockName := pool.blockName, sg := pool.sg, w := pool.w, d := pool.d,
    h := pool.h, rot := pool.rot, xOff := wall.widthFill,
    stackCount := min pool.maxStack cs.length,
    stackedH := pool.h * Q.ofInt ((min pool.maxStack cs.length : ℕ) : ℤ),
    cases := cs.take (min pool.maxStack cs.length) }

/-- The wall after one gap-fill consume step. -/
def gapWall (pool : WPInv) (wall : WPWall) (cs : List Case) : WPWall :=
  { wall with
    items := wall.items ++ [gapItem pool wall cs],
    widthFill := wall.widthFill + pool.w,
    maxHeight := max wall.maxHeight
      (pool.h * Q.ofInt ((min pool.maxStack cs.length : ℕ) : ℤ)),
    depth := max wall.depth pool.d,
    subgroups :=
      if pool.sg ∈ wall.subgroups then wall.subgroups
      else wall.subgroups ++ [pool.sg] }

theorem gapItem_stackCount (pool : WPInv) (wall : WPWall) (cs : List Case) :
    (gapItem pool wall cs).stackCount = (gapItem pool wall cs).cases.length := by
  show min pool.maxStack cs.length =
    (cs.take (min pool.maxStack cs.length)).length
  rw [List.length_take]
  omega

theorem gapFillConsume_unfold (pool : WPInv) (fuel : ℕ) (cs : List Case)
    (gap : Q) (wall : WPWall) :
    gapFillConsume pool fuel cs gap wall =
      if cs.isEmpty ∨ ¬ (pool.w - qhalf ≤ gap) then some (cs, gap, wall)
      else
        match fuel with
        | 0 => none
        | fuel' + 1 =>
          gapFillConsume pool fuel' (cs.drop (min pool.maxStack cs.length))
            (gap - pool.w) (gapWall pool wall cs) := by
  cases fuel with
  | zero => rfl
  | succ f => rfl

theorem gapFillConsume_spec (pool : WPInv) :
    ∀ (fuel : ℕ) (cs : List Case) (gap : Q) (wall : WPWall)
      (r : List Case × Q × WPWall),
      gapFillConsume pool fuel cs gap wall = some r →
      ∃ new, r.2.2.items = wall.items ++ new ∧
        new.flatMap (·.cases) ++ r.1 = cs ∧
        (∀ it ∈ new, it.w = pool.w ∧ it.stackCount = it.cases.length) := by
  intro fuel
  induction fuel with
  | zero =>
    intro cs gap wall r h
    rw [gapFillConsume_unfold] at h
    split at h
    · obtain rfl := (Option.some_inj.mp h).symm
      exact ⟨[], by simp, by simp,
        fun it hit => absurd hit (List.not_mem_nil it)⟩
    · exact absurd h (by simp)
  | succ f ih =>
    intro cs gap wall r h
    rw [gapFillConsume_unfold] at h
    split at h
    · obtain rfl := (Option.some_inj.mp h).symm
      exact ⟨[], by simp, by simp,
        fun it hit => absurd hit (List.not_mem_nil it)⟩
    · obtain ⟨new, h1, h2, h3⟩ := ih _ _ _ r h
      refine ⟨gapItem pool wall cs :: new, ?_, ?_, ?_⟩
      · rw [h1]
        have hgw : (gapWall pool wall cs).items =
            wall.items ++ [gapItem pool wall cs] := rfl
        rw [hgw, List.append_assoc]
        rfl
      · show (gapItem pool wall cs).cases ++ new.flatMap (·.cases) ++ r.1 = cs
        rw [List.append_assoc, h2]
        exact List.take_append_drop _ cs
      · intro it hit
        rcases List.mem_cons.mp hit with rfl | hit'
        · exact ⟨rfl, gapItem_stackCount pool wall cs⟩
        · exact h3 it hit'

theorem gapFillPools_spec (cases : List Case) (wallDept : String) (fuel : ℕ)
    (W : Q) :
    ∀ (pools : List WPInv) (gap : Q) (wall : WPWall)
      (r : List WPInv × WPWall),
      gapFillPools cases wallDept fuel pools gap wall = some r →
      (∀ p ∈ pools, PoolOk W p) →
      (poolsCases r.1 ++ wallCases r.2).Perm
        (poolsCases pools ++ wallCases wall) ∧
      (∀ p ∈ r.1, PoolOk W p) ∧ (WallOk W wall → WallOk W r.2) := by
  intro pools
  induction pools with
  | nil =>
    intro gap wall r h hpk
    rw [gapFillPools] at h
    obtain rfl := Option.some_inj.mp h
    exact ⟨List.Perm.refl _, fun p hp => absurd hp (List.not_mem_nil p),
      fun hw => hw⟩
  | cons pool rest ih =>
    intro gap wall r h hpk
    rw [gapFillPools] at h
    have hskipCase :
        (∃ rr, gapFillPools cases wallDept fuel rest gap wall = some rr ∧
          some ((pool :: rr.1, rr.2) : List WPInv × WPWall) = some r) →
        (poolsCases r.1 ++ wallCases r.2).Perm
          (poolsCases (pool :: rest) ++ wallCases wall) ∧
        (∀ p ∈ r.1, PoolOk W p) ∧ (WallOk W wall → WallOk W r.2) := by
      rintro ⟨rr, hrr, hr⟩
      obtain rfl := Option.some_inj.mp hr
      obtain ⟨i1, i2, i3⟩ := ih gap wall rr hrr
        (fun p hp => hpk p (List.mem_cons_of_mem _ hp))
      refine ⟨?_, ?_, i3⟩
      · show ((pool.cases ++ poolsCases rr.1) ++ wallCases rr.2).Perm
          ((pool.cases ++ poolsCases rest) ++ wallCases wall)
        rw [List.append_assoc, List.append_assoc]
        exact i1.append_left pool.cases
      · intro p hp
        rcases List.mem_cons.mp hp with rfl | hp'
        · exact hpk p (List.mem_cons_self _ _)
        · exact i2 p hp'
    split at h
    · exact hskipCase (Option.bind_eq_some.mp h)
    · split at h
      · exact hskipCase (Option.bind_eq_some.mp h)
      · obtain ⟨c, hc, h⟩ := Option.bind_eq_some.mp h
        obtain ⟨rr, hrr, h⟩ := Option.bind_eq_some.mp h
        obtain rfl := Option.some_inj.mp h
        obtain ⟨new, g1, g2, g3⟩ :=
          gapFillConsume_spec pool fuel pool.cases gap wall c hc
        obtain ⟨i1, i2, i3⟩ := ih c.2.1 c.2.2 rr hrr
          (fun p hp => hpk p (List.mem_cons_of_mem _ hp))
        obtain ⟨pa, pb, pc2⟩ := hpk pool (List.mem_cons_self _ _)
        have hwc : wallCases c.2.2 =
            wallCases wall ++ new.flatMap (·.cases) := by
          show c.2.2.items.flatMap (·.cases) =
            wall.items.flatMap (·.cases) ++ _
          rw [g1, List.flatMap_append]
        have i1' : (poolsCases rr.1 ++ wallCases rr.2).Perm
            (poolsCases rest ++
              (wallCases wall ++ new.flatMap (·.cases))) := by
          rw [← hwc]
          exact i1
        refine ⟨?_, ?_, ?_⟩
        · show ((c.1 ++ poolsCases rr.1) ++ wallCases rr.2).Perm
            ((pool.cases ++ poolsCases rest) ++ wallCases wall)
          rw [List.append_assoc, ← g2]
          refine (i1'.append_left c.1).trans ?_
          exact perm_rotate4 c.1 (poolsCases rest) (wallCases wall)
            (new.flatMap (·.cases))
        · intro p hp
          rcases List.mem_cons.mp hp with rfl | hp'
          · exact ⟨pa, pb, pc2⟩
          · exact i2 p hp'
        · intro hW
          refine i3 ?_
          intro it hit
          rw [g1] at hit
          rcases List.mem_append.mp hit with h' | h'
          · exact hW it h'
          · obtain ⟨he, hsc⟩ := g3 it h'
            exact ⟨by rw [he]; exact pa, by rw [he]; exact pb, hsc⟩

theorem phase25Wall_spec (ctx : Ctx) (fuel : ℕ) (pools : List WPInv)
    (wall : WPWall) (r : List WPInv × WPWall)
    (h : phase25Wall ctx fuel pools wall = some r)
    (hpk : ∀ p ∈ pools, PoolOk ctx.W p) (hw : WallOk ctx.W wall) :
    (poolsCases r.1 ++ wallCases r.2).Perm
      (poolsCases pools ++ wallCases wall) ∧
    (∀ p ∈ r.1, PoolOk ctx.W p) ∧ WallOk ctx.W r.2 := by
  rw [phase25Wall] at h
  split at h
  · obtain rfl := Option.some_inj.mp h
    exact ⟨List.Perm.refl _, hpk, hw⟩
  · obtain ⟨g, hg, h⟩ := Option.bind_eq_some.mp h
    simp only [] at h
    obtain rfl := Option.some_inj.mp h
    obtain ⟨p1, p2, p3⟩ := gapFillPools_spec ctx.cases
      (wpGetDept ctx.cases (wall.subgroups.headD "")) fuel ctx.W pools
      (ctx.W - wall.widthFill) wall g hg hpk
    refine ⟨?_, p2, ?_⟩
    · split <;> exact p1
    · split <;> exact p3 hw

theorem phase25_spec (ctx : Ctx) (fuel : ℕ) :
    ∀ (ws : List WPWall) (pools : List WPInv)
      (r : List WPWall × List WPInv),
      phase25 ctx fuel ws pools = some r →
      (∀ w ∈ ws, WallOk ctx.W w) → (∀ p ∈ pools, PoolOk ctx.W p) →
      (wallsCases r.1 ++ poolsCases r.2).Perm
        (wallsCases ws ++ poolsCases pools) ∧
      (∀ w ∈ r.1, WallOk ctx.W w) ∧ (∀ p ∈ r.2, PoolOk ctx.W p) := by
  intro ws
  induction ws with
  | nil =>
    intro pools r h hwk hpk
    rw [phase25] at h
    obtain rfl := Option.some_inj.mp h
    exact ⟨List.Perm.refl _, fun w hw => absurd hw (List.not_mem_nil w), hpk⟩
  | cons wall ws ih =>
    intro pools r h hwk hpk
    rw [phase25] at h
    obtain ⟨g, hg, h⟩ := Option.bind_eq_some.mp h
    obtain ⟨rr, hrr, h⟩ := Option.bind_eq_some.mp h
    obtain rfl := Option.some_inj.mp h
    obtain ⟨p1, p2, p3⟩ := phase25Wall_spec ctx fuel pools wall g hg hpk
      (hwk wall (List.mem_cons_self _ _))
    obtain ⟨q1, q2, q3⟩ := ih g.1 rr hrr
      (fun w hw => hwk w (List.mem_cons_of_mem _ hw)) p2
    refine ⟨?_, ?_, q3⟩
    · show ((wallCases g.2 ++ wallsCases rr.1) ++ poolsCases rr.2).Perm
        ((wallCases wall ++ wallsCases ws) ++ poolsCases pools)
      rw [List.append_assoc]
      refine (q1.append_left (wallCases g.2)).trans ?_
      refine (perm_rotate3 (wallCases g.2) (wallsCases ws)
        (poolsCases g.1)).trans ?_
      refine (p1.append_right (wallsCases ws)).trans ?_
      rw [List.append_assoc]
      exact List.perm_append_comm
    · intro w hw
      rcases List.mem_cons.mp hw with rfl | hw'
      · exact p3
      · exact q2 w hw'

end WallPlanner
